import Mathlib

/-!
# minutar: a shallow embedding of the tar header codec

The development follows `src/minutar.c`, `src/minutar.h`, `src/util.c` and
`src/sassert.h`.

Conventions of the embedding.

* A byte is a natural number (a `uint8_t` value, `0..255`); a buffer is a
  `List Nat`.  A `char *` argument that points into a buffer is the list of
  the bytes from the pointer to the end of that buffer.
* A C function returning `bool` with an output parameter returns an
  `Outcome`: `ok v` for `true` (with the value written to the output
  parameter), `fail` for `false`, and `abort s` when the `SASSERT` or
  `SUNREACHABLE` at site `s` calls `abort()` (`sassert.h` keeps both active
  in every build).
* `size_t` and `long long` are 64 bits wide.  No sum or product in the
  modelled code reaches `2^63`: the octal fields are at most 14 digits wide
  and the checksum adds 512 bytes; `strtoll` saturates as the C library does.
* Allocation failure (`malloc`, `strdup` returning `NULL`) and I/O errors
  other than a short read are outside the model.
-/

namespace Minutar

/-! ## Outcomes -/

/-- The assertion sites of the source that the model can reach or names. -/
inductive Site where
  /-- Site `SASSERT(width < 255)` in `parse_string_field`. -/
  | string_field_width
  /-- Site `SASSERT(width < 15 && width > 0)` in `parse_octal_uint_field`. -/
  | octal_uint_width
  /-- Site `SASSERT(width < 15 && width > 0)` in `parse_octal_time_field`. -/
  | octal_time_width
  /-- Site `SUNREACHABLE()` in the default branch of `validate_mode_and_type`. -/
  | validate_mode_unreachable
  /-- Site `SASSERT(first_header.type == GNUK || ... == GNUL)` in `parse_gnulong_headers`. -/
  | gnulong_first_type
  /-- Site `SASSERT(NULL != next_header.name)` in `parse_gnulong_headers`. -/
  | gnulong_name_null
  /-- Site `SASSERT(file->name != NULL)` in `canonicalize_paths`. -/
  | canonicalize_name_null
  /-- Site `SASSERT(file->name[0] != '/')` at the end of `canonicalize_paths`. -/
  | canonicalize_leading_slash
  /-- Site `SUNREACHABLE()` in the switch of `minutar_next_file`. -/
  | next_file_unreachable
  /-- Site `SASSERT((type >= REG && type <= CONT) || type == EOA)` at the end of `minutar_next_file`. -/
  | next_file_type
  /-- Site `SASSERT(path != NULL)` in `path_mkdir`. -/
  | path_mkdir_null
  /-- Site `SASSERT(file.name != NULL)` in `extract_file_contents`. -/
  | extract_contents_name_null
  /-- Site `SASSERT(file.name != NULL)` in `extract_file`. -/
  | extract_file_name_null
  /-- Site `SASSERT(file.linktarget != NULL)` in the `TYPEFLAG_LNK` case of `extract_file`. -/
  | extract_link_target_null
  /-- Site `SASSERT(file.linktarget != NULL)` in the `TYPEFLAG_SYM` case of `extract_file`. -/
  | extract_symlink_target_null
  /-- Site `SUNREACHABLE()` in the default branch of `extract_file`. -/
  | extract_file_unreachable
  deriving DecidableEq, Repr

/-- Result of a C function that returns `bool`: `ok` is `true` (carrying the
output), `fail` is `false`, `abort` is a failed assertion. -/
inductive Outcome (α : Type) where
  | ok (a : α)
  | fail
  | abort (s : Site)
  deriving DecidableEq, Repr

/-- Sequencing: `RETURN_FALSE_IF(!f(...))` followed by the rest of the body. -/
def Outcome.bind {α β : Type} (x : Outcome α) (f : α → Outcome β) : Outcome β :=
  match x with
  | .ok a => f a
  | .fail => .fail
  | .abort s => .abort s

instance : Monad Outcome where
  pure := Outcome.ok
  bind := Outcome.bind

/-- The function returned `true`. -/
def Outcome.isOk {α : Type} : Outcome α → Bool
  | .ok _ => true
  | _ => false

/-! ## Constants of `minutar.c` -/

def TAR_BLOCKSIZE : Nat := 512
def TAR_HEADER_NAME_OFFSET : Nat := 0
def TAR_HEADER_NAME_WIDTH : Nat := 100
def TAR_HEADER_MODE_OFFSET : Nat := 100
def TAR_HEADER_MODE_WIDTH : Nat := 8
def TAR_HEADER_SIZE_OFFSET : Nat := 124
def TAR_HEADER_SIZE_WIDTH : Nat := 12
def TAR_HEADER_MTIME_OFFSET : Nat := 136
def TAR_HEADER_MTIME_WIDTH : Nat := 12
def TAR_HEADER_CHKSUM_OFFSET : Nat := 148
def TAR_HEADER_CHKSUM_WIDTH : Nat := 8
def TAR_HEADER_TYPE_OFFSET : Nat := 156
def TAR_HEADER_LINK_OFFSET : Nat := 157
def TAR_HEADER_LINK_WIDTH : Nat := 100
def TAR_HEADER_MAGIC_OFFSET : Nat := 257
def TAR_HEADER_ATIME_OFFSET : Nat := 476
def TAR_HEADER_ATIME_WIDTH : Nat := 12
def TAR_HEADER_CTIME_OFFSET : Nat := 488
def TAR_HEADER_CTIME_WIDTH : Nat := 12
def TAR_HEADER_DEVMAJOR_OFFSET : Nat := 329
def TAR_HEADER_DEVMAJOR_WIDTH : Nat := 8
def TAR_HEADER_DEVMINOR_OFFSET : Nat := 337
def TAR_HEADER_DEVMINOR_WIDTH : Nat := 8
def TAR_HEADER_PREFIX_OFFSET : Nat := 345
def TAR_HEADER_PREFIX_WIDTH : Nat := 155

/-- The string `"ustar"` as bytes. -/
def TAR_HEADER_MAGIC_VALUE : List Nat := [117, 115, 116, 97, 114]

/-! ## The C library functions the codec calls -/

/-- Bytes for which `isspace` holds in the C locale: space, and `\t \n \v \f \r`. -/
def isspace (c : Nat) : Bool := c == 32 || (9 ≤ c && c ≤ 13)

/-- An octal digit, `'0'..'7'`. -/
def isodigit (c : Nat) : Bool := 48 ≤ c && c ≤ 55

/-- The digit loop of `strtoll` in base 8: accumulate while the next byte is
an octal digit. -/
def octal_accum : List Nat → Nat → Nat
  | [], acc => acc
  | c :: cs, acc => if isodigit c then octal_accum cs (acc * 8 + (c - 48)) else acc

/-- The largest `long long`. -/
def LLONG_MAX : Int := 2 ^ 63 - 1

/-- The least `long long`. -/
def LLONG_MIN : Int := -(2 ^ 63)

/-- The call `strtoll(s, NULL, 8)` on the bytes of `s`: skip white space,
take an optional sign, read octal digits up to the first other byte (the
terminating NUL is such a byte), and saturate at the `long long` range.
No digit at all gives `0`. -/
def strtoll8 (s : List Nat) : Int :=
  let s := s.dropWhile isspace
  if s.headD 0 = 45 then max (-(octal_accum s.tail 0 : Int)) LLONG_MIN
  else if s.headD 0 = 43 then min (octal_accum s.tail 0 : Int) LLONG_MAX
  else min (octal_accum s 0 : Int) LLONG_MAX

/-- The call `strlen(s)` or the string a `char *` denotes: the bytes before the first NUL. -/
def cstr (s : List Nat) : List Nat := s.takeWhile (fun c => c != 0)

/-- Byte `i` of a buffer. -/
def byteAt (raw : List Nat) (i : Nat) : Nat := raw.getD i 0

/-! ## Field decoders -/

/-- The local array `tmp` of the field parsers: `memcpy(tmp, field, width)`
then `tmp[width] = 0`. -/
def field_tmp (field : List Nat) (width : Nat) : List Nat := field.take width ++ [0]

/-- Source `parse_octal_uint_field`. -/
def parse_octal_uint_field (field : List Nat) (width : Nat) : Outcome Nat :=
  if ¬ (width < 15 ∧ width > 0) then .abort .octal_uint_width
  else
    let tmp_value := strtoll8 (field_tmp field width)
    if tmp_value < 0 then .fail
    else .ok tmp_value.toNat

/-- Source `parse_octal_time_field`; `LLONG_MAX == LONG_MAX` holds for 64-bit `long`. -/
def parse_octal_time_field (field : List Nat) (width : Nat) : Outcome Int :=
  if ¬ (width < 15 ∧ width > 0) then .abort .octal_time_width
  else .ok (strtoll8 (field_tmp field width))

/-- Source `parse_string_field`.  The function fills `tmp` with the `width`
bytes of the field and a NUL, and then returns `strdup(field)`: the copy is
taken from the argument pointer, so it runs to the first NUL at or after the
start of the field.  `field` is the header block from the field's offset on;
memory after the block is not modelled, so a block with no NUL from the
field's offset on gives the bytes up to the end of the block. -/
def parse_string_field (field : List Nat) (width : Nat) : Outcome (List Nat) :=
  if ¬ (width < 255) then .abort .string_field_width
  else .ok (cstr field)

/-! ## Checksum -/

/-- A `for (i = lo; i < hi; ++i) calculated += (uint8_t)raw[i];` loop: the
bytes `raw[lo]`, ..., `raw[hi - 1]` are added to `calculated` in this order. -/
def sum_bytes (raw : List Nat) (lo hi : Nat) (calculated : Nat) : Nat :=
  ((raw.drop lo).take (hi - lo)).foldl (fun acc b => acc + b) calculated

/-- The value `calculated` at the end of `ustar_header_chksum_verify`. -/
def chksum_calculated (raw : List Nat) : Nat :=
  let calculated := sum_bytes raw 0 TAR_HEADER_CHKSUM_OFFSET 0
  let calculated := calculated + 32 * TAR_HEADER_CHKSUM_WIDTH
  sum_bytes raw (TAR_HEADER_CHKSUM_OFFSET + TAR_HEADER_CHKSUM_WIDTH) TAR_BLOCKSIZE calculated

/-- Source `ustar_header_chksum_verify`. -/
def ustar_header_chksum_verify (raw_header : List Nat) : Outcome Unit :=
  match parse_octal_uint_field (raw_header.drop TAR_HEADER_CHKSUM_OFFSET) TAR_HEADER_CHKSUM_WIDTH with
  | .ok expected => if chksum_calculated raw_header = expected then .ok () else .fail
  | .fail => .fail
  | .abort s => .abort s

/-- Specification side of the checksum: the sum over all 512 positions, a
position inside the checksum field counting as a space. -/
def spec_chksum (raw : List Nat) : Nat :=
  ((List.range 512).map (fun i => if 148 ≤ i ∧ i < 156 then 32 else byteAt raw i)).sum


/-! ## Type flags and file descriptions (`minutar.h`) -/

/-- Source `typeflag_t`. -/
inductive typeflag_t where
  | TYPEFLAG_AREG
  | TYPEFLAG_REG
  | TYPEFLAG_LNK
  | TYPEFLAG_SYM
  | TYPEFLAG_CHR
  | TYPEFLAG_BLK
  | TYPEFLAG_DIR
  | TYPEFLAG_FIFO
  | TYPEFLAG_CONT
  | TYPEFLAG_GNUK
  | TYPEFLAG_GNUL
  | TYPEFLAG_XHD
  | TYPEFLAG_XGL
  | TYPEFLAG_EOA
  | TYPEFLAG_UNKNOWN
  deriving DecidableEq, Repr

open typeflag_t

/-- The integer value of an enumerator of `typeflag_t`. -/
def typeflag_t.val : typeflag_t → Nat
  | TYPEFLAG_AREG => 0
  | TYPEFLAG_REG => 48
  | TYPEFLAG_LNK => 49
  | TYPEFLAG_SYM => 50
  | TYPEFLAG_CHR => 51
  | TYPEFLAG_BLK => 52
  | TYPEFLAG_DIR => 53
  | TYPEFLAG_FIFO => 54
  | TYPEFLAG_CONT => 55
  | TYPEFLAG_GNUK => 75
  | TYPEFLAG_GNUL => 76
  | TYPEFLAG_XHD => 120
  | TYPEFLAG_XGL => 103
  | TYPEFLAG_EOA => 254
  | TYPEFLAG_UNKNOWN => 255

/-- Source `filedesc_t`.  A `char *` member is `none` for `NULL` and
otherwise the bytes of the string it points to. -/
structure filedesc_t where
  name : Option (List Nat)
  linktarget : Option (List Nat)
  prefix_ : Option (List Nat)
  type : typeflag_t
  size : Nat
  mode : Nat
  mtime : Int
  atime : Int
  ctime : Int
  devmajor : Nat
  devminor : Nat
  deriving DecidableEq, Repr

/-- The result of `memset(&ustar, 0, sizeof(ustar))`. -/
def filedesc_zero : filedesc_t :=
  { name := none, linktarget := none, prefix_ := none, type := TYPEFLAG_AREG,
    size := 0, mode := 0, mtime := 0, atime := 0, ctime := 0, devmajor := 0, devminor := 0 }

/-! ## Header validation -/

/-- Source `typeflag_from_byte`. -/
def typeflag_from_byte (byte : Nat) : typeflag_t :=
  if byte = 0 ∨ byte = 48 then TYPEFLAG_REG
  else if byte = 49 then TYPEFLAG_LNK
  else if byte = 50 then TYPEFLAG_SYM
  else if byte = 51 then TYPEFLAG_CHR
  else if byte = 52 then TYPEFLAG_BLK
  else if byte = 53 then TYPEFLAG_DIR
  else if byte = 54 then TYPEFLAG_FIFO
  else if byte = 55 then TYPEFLAG_CONT
  else if byte = 75 then TYPEFLAG_GNUK
  else if byte = 76 then TYPEFLAG_GNUL
  else if byte = 120 then TYPEFLAG_XHD
  else if byte = 103 then TYPEFLAG_XGL
  else TYPEFLAG_UNKNOWN

/-- Source `validate_mode_and_type`. -/
def validate_mode_and_type (mode : Nat) (type : typeflag_t) : Outcome Unit :=
  match type with
  | TYPEFLAG_AREG | TYPEFLAG_REG | TYPEFLAG_CONT | TYPEFLAG_LNK | TYPEFLAG_SYM
  | TYPEFLAG_DIR | TYPEFLAG_CHR | TYPEFLAG_BLK | TYPEFLAG_FIFO =>
      if mode < 0o2000 then .ok () else .fail
  | TYPEFLAG_GNUK | TYPEFLAG_GNUL | TYPEFLAG_XHD | TYPEFLAG_XGL => .ok ()
  | TYPEFLAG_EOA | TYPEFLAG_UNKNOWN => .abort .validate_mode_unreachable

/-- The optional string members of `parse_ustar_header`: parsed only when
the first byte of the field is not NUL. -/
def parse_optional_string (raw_header : List Nat) (offset width : Nat) : Outcome (Option (List Nat)) :=
  if byteAt raw_header offset ≠ 0 then
    (parse_string_field (raw_header.drop offset) width).bind (fun s => .ok (some s))
  else .ok none

/-- Source `parse_ustar_header`. -/
def parse_ustar_header (raw_header : List Nat) : Outcome filedesc_t :=
  if (raw_header.drop TAR_HEADER_MAGIC_OFFSET).take TAR_HEADER_MAGIC_VALUE.length
      ≠ TAR_HEADER_MAGIC_VALUE then .fail
  else
    (ustar_header_chksum_verify raw_header).bind fun _ =>
    let type := typeflag_from_byte (byteAt raw_header TAR_HEADER_TYPE_OFFSET)
    if type = TYPEFLAG_UNKNOWN then .fail
    else
      (parse_octal_uint_field (raw_header.drop TAR_HEADER_MODE_OFFSET) TAR_HEADER_MODE_WIDTH).bind fun mode =>
      (validate_mode_and_type mode type).bind fun _ =>
      (parse_octal_uint_field (raw_header.drop TAR_HEADER_SIZE_OFFSET) TAR_HEADER_SIZE_WIDTH).bind fun size =>
      (parse_octal_uint_field (raw_header.drop TAR_HEADER_DEVMAJOR_OFFSET) TAR_HEADER_DEVMAJOR_WIDTH).bind fun devmajor =>
      (parse_octal_uint_field (raw_header.drop TAR_HEADER_DEVMINOR_OFFSET) TAR_HEADER_DEVMINOR_WIDTH).bind fun devminor =>
      (parse_octal_time_field (raw_header.drop TAR_HEADER_MTIME_OFFSET) TAR_HEADER_MTIME_WIDTH).bind fun mtime =>
      (parse_octal_time_field (raw_header.drop TAR_HEADER_ATIME_OFFSET) TAR_HEADER_ATIME_WIDTH).bind fun atime =>
      (parse_octal_time_field (raw_header.drop TAR_HEADER_CTIME_OFFSET) TAR_HEADER_CTIME_WIDTH).bind fun ctime =>
      if byteAt raw_header TAR_HEADER_NAME_OFFSET = 0 then .fail
      else
        (parse_string_field (raw_header.drop TAR_HEADER_NAME_OFFSET) TAR_HEADER_NAME_WIDTH).bind fun name =>
        (parse_optional_string raw_header TAR_HEADER_LINK_OFFSET TAR_HEADER_LINK_WIDTH).bind fun linktarget =>
        (parse_optional_string raw_header TAR_HEADER_PREFIX_OFFSET TAR_HEADER_PREFIX_WIDTH).bind fun pfx =>
        .ok { name := some name, linktarget := linktarget, prefix_ := pfx, type := type,
              size := size, mode := mode, mtime := mtime, atime := atime, ctime := ctime,
              devmajor := devmajor, devminor := devminor }

/-- The record `parse_ustar_header` writes to its output when every test passes. -/
def header_record (raw : List Nat) : filedesc_t :=
  { name := some (cstr raw),
    linktarget := if byteAt raw 157 ≠ 0 then some (cstr (raw.drop 157)) else none,
    prefix_ := if byteAt raw 345 ≠ 0 then some (cstr (raw.drop 345)) else none,
    type := typeflag_from_byte (byteAt raw 156),
    size := (strtoll8 (field_tmp (raw.drop 124) 12)).toNat,
    mode := (strtoll8 (field_tmp (raw.drop 100) 8)).toNat,
    mtime := strtoll8 (field_tmp (raw.drop 136) 12),
    atime := strtoll8 (field_tmp (raw.drop 476) 12),
    ctime := strtoll8 (field_tmp (raw.drop 488) 12),
    devmajor := (strtoll8 (field_tmp (raw.drop 329) 8)).toNat,
    devminor := (strtoll8 (field_tmp (raw.drop 337) 8)).toNat }

/-! ## The archive stream -/

/-- The `FILE *tarfile`: the bytes of a regular file and the read position. -/
structure FILE where
  data : List Nat
  pos : Nat
  deriving DecidableEq, Repr

/-- The call `fread(buf, 1, n, f)`: the bytes read (fewer than `n` at end of
file) and the stream advanced past them. -/
def fread (f : FILE) (n : Nat) : List Nat × FILE :=
  let buf := (f.data.drop f.pos).take n
  (buf, { f with pos := f.pos + buf.length })

/-- The call `fseek(f, off, SEEK_CUR)` with `off >= 0`; it succeeds on a regular file. -/
def fseek_cur (f : FILE) (off : Nat) : FILE := { f with pos := f.pos + off }

/-- The constant `TAR_EOA_HEADER`: 512 zero bytes. -/
def TAR_EOA_HEADER : List Nat := List.replicate 512 0

/-- The record written on end of archive: `memset` to zero, then `type = TYPEFLAG_EOA`. -/
def eoa_filedesc : filedesc_t := { filedesc_zero with type := TYPEFLAG_EOA }

/-- The alignment step of `read_ustar_header`. -/
def align_stream (tarfile : FILE) : FILE :=
  let fpos := tarfile.pos
  if fpos % TAR_BLOCKSIZE ≠ 0 then fseek_cur tarfile (TAR_BLOCKSIZE - fpos % TAR_BLOCKSIZE)
  else tarfile

/-- Source `read_ustar_header`. -/
def read_ustar_header (tarfile : FILE) : Outcome filedesc_t × FILE :=
  let tarfile := align_stream tarfile
  let (raw_header, tarfile) := fread tarfile TAR_BLOCKSIZE
  if raw_header.length ≠ TAR_BLOCKSIZE then (.fail, tarfile)
  else if raw_header = TAR_EOA_HEADER then
    let (raw_header, tarfile) := fread tarfile TAR_BLOCKSIZE
    if raw_header.length ≠ TAR_BLOCKSIZE then (.fail, tarfile)
    else if raw_header ≠ TAR_EOA_HEADER then (.fail, tarfile)
    else (.ok eoa_filedesc, tarfile)
  else (parse_ustar_header raw_header, tarfile)

/-! ## GNU long names -/

/-- Source `read_gnulong_name`. -/
def read_gnulong_name (tarfile : FILE) (read_size : Nat) : Outcome (List Nat) × FILE :=
  if read_size > 0x100000 then (.fail, tarfile)
  else
    let (buf, tarfile) := fread tarfile read_size
    if buf.length ≠ read_size then (.fail, tarfile)
    else
      let data := buf ++ [0]
      if (cstr data).length + 1 ≠ read_size then (.fail, tarfile)
      else (.ok (cstr data), tarfile)

/-- The end of `parse_gnulong_headers`, from `don't accept any more extended
headers` on: the pending payloads replace the members of the final header. -/
def gnulong_apply (longname longlink : Option (List Nat)) (next_header : filedesc_t) :
    Outcome filedesc_t :=
  if next_header.type.val > TYPEFLAG_CONT.val then .fail
  else if next_header.name = none then .abort .gnulong_name_null
  else
    let name := match longname with
      | some n => some n
      | none => next_header.name
    let linktarget := match longlink with
      | some l => some l
      | none => next_header.linktarget
    .ok { next_header with name := name, linktarget := linktarget }

/-- Source `parse_gnulong_headers`.  After the three alternation guards the
type of the second header is `TYPEFLAG_GNUL` or `TYPEFLAG_GNUK`, so the
source's `if (GNUL) ... else if (GNUK) ...` always reads one payload, into
`longname` or into `longlink`.  The `free` calls of the cleanup path have no
counterpart in the model. -/
def parse_gnulong_headers (tarfile : FILE) (first_header : filedesc_t) :
    Outcome filedesc_t × FILE :=
  if ¬ (first_header.type = TYPEFLAG_GNUK ∨ first_header.type = TYPEFLAG_GNUL) then
    (.abort .gnulong_first_type, tarfile)
  else
    match read_gnulong_name tarfile first_header.size with
    | (.fail, tarfile) => (.fail, tarfile)
    | (.abort s, tarfile) => (.abort s, tarfile)
    | (.ok payload, tarfile) =>
      let longname := if first_header.type = TYPEFLAG_GNUL then some payload else none
      let longlink := if first_header.type = TYPEFLAG_GNUL then none else some payload
      match read_ustar_header tarfile with
      | (.fail, tarfile) => (.fail, tarfile)
      | (.abort s, tarfile) => (.abort s, tarfile)
      | (.ok next_header, tarfile) =>
        if next_header.type.val > TYPEFLAG_CONT.val then
          if next_header.type ≠ TYPEFLAG_GNUK ∧ next_header.type ≠ TYPEFLAG_GNUL then (.fail, tarfile)
          else if first_header.type = TYPEFLAG_GNUK ∧ next_header.type ≠ TYPEFLAG_GNUL then (.fail, tarfile)
          else if first_header.type = TYPEFLAG_GNUL ∧ next_header.type ≠ TYPEFLAG_GNUK then (.fail, tarfile)
          else
            match read_gnulong_name tarfile next_header.size with
            | (.fail, tarfile) => (.fail, tarfile)
            | (.abort s, tarfile) => (.abort s, tarfile)
            | (.ok payload2, tarfile) =>
              let longname := if next_header.type = TYPEFLAG_GNUL then some payload2 else longname
              let longlink := if next_header.type = TYPEFLAG_GNUL then longlink else some payload2
              match read_ustar_header tarfile with
              | (.fail, tarfile) => (.fail, tarfile)
              | (.abort s, tarfile) => (.abort s, tarfile)
              | (.ok next_header, tarfile) => (gnulong_apply longname longlink next_header, tarfile)
        else (gnulong_apply longname longlink next_header, tarfile)

/-! ## Path sanitizer (`util.c`) and the public iterator -/

/-- The character `name[0]` of a C string: NUL for the empty string. -/
def first_char (s : List Nat) : Nat := s.headD 0

/-- Source `canonicalize_paths`. -/
def canonicalize_paths (file : filedesc_t) : Outcome filedesc_t :=
  match file.name with
  | none => .abort .canonicalize_name_null
  | some name =>
    let name := if first_char name = 47 then name.tail else name
    if first_char name = 47 then .abort .canonicalize_leading_slash
    else .ok { file with name := some name }

/-- The switch on extended headers in `minutar_next_file`. -/
def next_file_extended (tarfile : FILE) (nextfile : filedesc_t) : Outcome filedesc_t × FILE :=
  if nextfile.type.val > TYPEFLAG_CONT.val ∧ nextfile.type ≠ TYPEFLAG_EOA then
    match nextfile.type with
    | TYPEFLAG_GNUL | TYPEFLAG_GNUK => parse_gnulong_headers tarfile nextfile
    | TYPEFLAG_XGL | TYPEFLAG_XHD => (.fail, tarfile)
    | _ => (.abort .next_file_unreachable, tarfile)
  else (.ok nextfile, tarfile)

/-- Source `minutar_next_file`. -/
def minutar_next_file (tarfile : FILE) : Outcome filedesc_t × FILE :=
  match read_ustar_header tarfile with
  | (.fail, tarfile) => (.fail, tarfile)
  | (.abort s, tarfile) => (.abort s, tarfile)
  | (.ok nextfile, tarfile) =>
    match next_file_extended tarfile nextfile with
    | (.fail, tarfile) => (.fail, tarfile)
    | (.abort s, tarfile) => (.abort s, tarfile)
    | (.ok nextfile, tarfile) =>
      match canonicalize_paths nextfile with
      | .fail => (.fail, tarfile)
      | .abort s => (.abort s, tarfile)
      | .ok nextfile =>
        if (nextfile.type.val ≥ TYPEFLAG_REG.val ∧ nextfile.type.val ≤ TYPEFLAG_CONT.val)
            ∨ nextfile.type = TYPEFLAG_EOA then (.ok nextfile, tarfile)
        else (.abort .next_file_type, tarfile)

/-- The call `read_ustar_header(tarfile, output_ustar)` as the caller sees
it: the result, the contents of `*output_ustar` after the call, and the
stream.  The source assigns to `*output_ustar` at two places only, each
directly before a `return true`: the `memset` and `type = TYPEFLAG_EOA` of
the end-of-archive branch, and `*output_ustar = ustar` at the end of
`parse_ustar_header`, which builds the record in the local `ustar`. -/
def read_ustar_header_call (tarfile : FILE) (output_ustar : filedesc_t) :
    Outcome Unit × filedesc_t × FILE :=
  match read_ustar_header tarfile with
  | (.ok r, tarfile) => (.ok (), r, tarfile)
  | (.fail, tarfile) => (.fail, output_ustar, tarfile)
  | (.abort s, tarfile) => (.abort s, output_ustar, tarfile)

/-! ## The operating system

The file-system calls of the extractor are an oracle over a state `σ`: each
call gives a result and the next state.  A call that fails leaves the state
as it was.  What `printf` and `fprintf` write is not modelled. -/

/-- The value of `errno` for an existing file. -/
def EEXIST : Nat := 17

/-- The file-system calls `minutar.c` and `util.c` make. -/
structure OS (σ : Type) where
  /-- The call `fopen(path, "wb")`; `none` when it returns `NULL`. -/
  fopen_wb : σ → List Nat → Option σ
  /-- The call `chmod(path, mode)`; `none` when it does not return 0. -/
  chmod : σ → List Nat → Nat → Option σ
  /-- The call `fwrite` of the given bytes to the open file `path`: the number of bytes written. -/
  fwrite : σ → List Nat → List Nat → Nat × σ
  /-- The call `fclose` on the open file `path`. -/
  fclose : σ → List Nat → σ
  /-- The call `mkdir(path, mode)`; on failure the value of `errno`. -/
  mkdir : σ → List Nat → Nat → Except Nat σ
  /-- The call `link(target, name)`; `none` when it does not return 0. -/
  link : σ → List Nat → List Nat → Option σ
  /-- The call `symlink(target, name)`; `none` when it does not return 0. -/
  symlink : σ → List Nat → List Nat → Option σ
  /-- The call `mknod(name, mode, makedev(major, minor))`, given `name`,
  `mode`, `major` and `minor`; `none` when it does not return 0. -/
  mknod : σ → List Nat → Nat → Nat → Nat → Option σ

/-! ## Directory creation (`util.c`) -/

/-- The call `strrchr(s, '/')`: the index of the last `/` of `s`, if any. -/
def strrchr_slash : List Nat → Option Nat
  | [] => none
  | c :: cs =>
    match strrchr_slash cs with
    | some i => some (i + 1)
    | none => if c = 47 then some 0 else none

/-- Result of `path_mkdir`: `done` for `true`, `error e` for `false` with
`errno` set to `e` by `mkdir`, `abort` for a failed assertion. -/
inductive PathResult where
  | done
  | error (errno : Nat)
  | abort (s : Site)
  deriving DecidableEq, Repr

/-- Source `path_mkdir`: one `mkdir` of the path cut at its last `/`. -/
def path_mkdir {σ : Type} (os : OS σ) (st : σ) (path : Option (List Nat)) (mode : Nat) :
    PathResult × σ :=
  match path with
  | none => (.abort .path_mkdir_null, st)
  | some dir =>
    match strrchr_slash dir with
    | some end_ =>
      match os.mkdir st (dir.take end_) mode with
      | .ok st => (.done, st)
      | .error e => (.error e, st)
    | none => (.done, st)

/-! ## Extraction -/

/-- The `while (bytes_left > sizeof(tmp_data))` loop of
`extract_file_contents`, with `sizeof(tmp_data) = 1024`.  The result is
whether the loop ended without a `goto cleanup`, the state, the stream and
`bytes_left`.  The first argument bounds the number of iterations; `none`
means the bound was too small. -/
def copy_loop {σ : Type} (os : OS σ) (name : List Nat) :
    Nat → σ → FILE → Nat → Option (Bool × σ × FILE × Nat)
  | 0, _, _, _ => none
  | fuel + 1, st, tarfile, bytes_left =>
    if bytes_left > 1024 then
      let (tmp_data, tarfile) := fread tarfile 1024
      if tmp_data.length ≠ 1024 then some (false, st, tarfile, bytes_left)
      else
        let (written, st) := os.fwrite st name tmp_data
        if written ≠ 1024 then some (false, st, tarfile, bytes_left)
        else copy_loop os name fuel st tarfile (bytes_left - 1024)
    else some (true, st, tarfile, bytes_left)

/-- Source `extract_file_contents`.  The assertion
`file.type != TYPEFLAG_REG || file.type != TYPEFLAG_CONT` holds for every
type.  The loop is run with `file.size + 1` as its bound, which it never
exhausts (`extract_copy_loop_total`). -/
def extract_file_contents {σ : Type} (os : OS σ) (st : σ) (tarfile : FILE) (file : filedesc_t) :
    Outcome Unit × σ × FILE :=
  match file.name with
  | none => (.abort .extract_contents_name_null, st, tarfile)
  | some name =>
    match os.fopen_wb st name with
    | none => (.fail, st, tarfile)
    | some st =>
      match os.chmod st name file.mode with
      | none => (.fail, os.fclose st name, tarfile)
      | some st =>
        if file.size > 0 then
          match copy_loop os name (file.size + 1) st tarfile file.size with
          | none => (.fail, os.fclose st name, tarfile)
          | some (false, st, tarfile, _) => (.fail, os.fclose st name, tarfile)
          | some (true, st, tarfile, bytes_left) =>
            let (tmp_data, tarfile) := fread tarfile bytes_left
            if tmp_data.length ≠ bytes_left then (.fail, os.fclose st name, tarfile)
            else
              let (written, st) := os.fwrite st name tmp_data
              if written ≠ bytes_left then (.fail, os.fclose st name, tarfile)
              else (.ok (), os.fclose st name, tarfile)
        else (.ok (), os.fclose st name, tarfile)

/-- The file-type bits `S_IFCHR`, `S_IFBLK`, `S_IFIFO` of `sys/stat.h`. -/
def S_IFCHR : Nat := 0o020000
def S_IFBLK : Nat := 0o060000
def S_IFIFO : Nat := 0o010000

/-- The three `mknod` cases of `extract_file`. -/
def extract_mknod {σ : Type} (os : OS σ) (st : σ) (tarfile : FILE) (name : List Nat)
    (file : filedesc_t) (kind : Nat) : Outcome Unit × σ × FILE :=
  match os.mknod st name (file.mode ||| kind) file.devmajor file.devminor with
  | some st => (.ok (), st, tarfile)
  | none => (.fail, st, tarfile)

/-- Source `extract_file`.  The regular-file case is
`RETURN_FALSE_IF(extract_file_contents(tarfile, file))`: the function
returns false when `extract_file_contents` returns true. -/
def extract_file {σ : Type} (os : OS σ) (st : σ) (tarfile : FILE) (file : filedesc_t) :
    Outcome Unit × σ × FILE :=
  match file.name with
  | none => (.abort .extract_file_name_null, st, tarfile)
  | some name =>
    match file.type with
    | TYPEFLAG_DIR =>
      match os.mkdir st name file.mode with
      | .ok st => (.ok (), st, tarfile)
      | .error e => if e ≠ EEXIST then (.fail, st, tarfile) else (.ok (), st, tarfile)
    | TYPEFLAG_LNK =>
      match file.linktarget with
      | none => (.abort .extract_link_target_null, st, tarfile)
      | some target =>
        match os.link st target name with
        | some st => (.ok (), st, tarfile)
        | none => (.fail, st, tarfile)
    | TYPEFLAG_SYM =>
      match file.linktarget with
      | none => (.abort .extract_symlink_target_null, st, tarfile)
      | some target =>
        match os.symlink st target name with
        | some st => (.ok (), st, tarfile)
        | none => (.fail, st, tarfile)
    | TYPEFLAG_REG | TYPEFLAG_CONT =>
      match extract_file_contents os st tarfile file with
      | (.ok (), st, tarfile) => (.fail, st, tarfile)
      | (.fail, st, tarfile) => (.ok (), st, tarfile)
      | (.abort s, st, tarfile) => (.abort s, st, tarfile)
    | TYPEFLAG_CHR => extract_mknod os st tarfile name file S_IFCHR
    | TYPEFLAG_BLK => extract_mknod os st tarfile name file S_IFBLK
    | TYPEFLAG_FIFO => extract_mknod os st tarfile name file S_IFIFO
    | _ => (.abort .extract_file_unreachable, st, tarfile)

/-- Source `minutar_skip_file`; `minutar_extract_all` does not call it. -/
def minutar_skip_file (tarfile : FILE) (skip_file : filedesc_t) : Outcome Unit × FILE :=
  (.ok (), fseek_cur tarfile skip_file.size)

/-- The value `return all_ok` gives. -/
def all_ok_result (all_ok : Bool) : Outcome Unit := if all_ok then .ok () else .fail

/-- The `while` loop of `minutar_extract_all`, from the state of `all_ok`.
The first argument bounds the number of iterations; `none` means the bound
was too small. -/
def extract_all_loop {σ : Type} (os : OS σ) :
    Nat → σ → FILE → Bool → Option (Outcome Unit × σ × FILE)
  | 0, _, _, _ => none
  | fuel + 1, st, tarfile, all_ok =>
    match minutar_next_file tarfile with
    | (.abort s, tarfile) => some (.abort s, st, tarfile)
    | (.fail, tarfile) => some (all_ok_result all_ok, st, tarfile)
    | (.ok next_file, tarfile) =>
      if next_file.type = TYPEFLAG_EOA then some (all_ok_result all_ok, st, tarfile)
      else
        match path_mkdir os st next_file.name 0o777 with
        | (.abort s, st) => some (.abort s, st, tarfile)
        | (.error e, st) =>
          if e ≠ EEXIST then extract_all_loop os fuel st tarfile false
          else
            match extract_file os st tarfile next_file with
            | (.abort s, st, tarfile) => some (.abort s, st, tarfile)
            | (.fail, st, tarfile) => extract_all_loop os fuel st tarfile false
            | (.ok (), st, tarfile) => extract_all_loop os fuel st tarfile all_ok
        | (.done, st) =>
          match extract_file os st tarfile next_file with
          | (.abort s, st, tarfile) => some (.abort s, st, tarfile)
          | (.fail, st, tarfile) => extract_all_loop os fuel st tarfile false
          | (.ok (), st, tarfile) => extract_all_loop os fuel st tarfile all_ok

/-- Source `minutar_extract_all`: `ok ()` when it returns true, `fail` when
it returns false.  Every iteration that does not end the loop has read a
header block of 512 bytes of the data, so the bound `length + 1` is never
exhausted (`minutar_extract_all_total`). -/
def minutar_extract_all {σ : Type} (os : OS σ) (st : σ) (tarfile : FILE) :
    Option (Outcome Unit × σ × FILE) :=
  extract_all_loop os (tarfile.data.length + 1) st tarfile true

/-! ## Encoders and sample blocks used to state and exercise the properties -/

/-- The bytes of an ASCII string literal. -/
def bytes (s : String) : List Nat := s.toList.map Char.toNat

/-- The `n` low octal digits of `v` as ASCII, most significant first, zero padded. -/
def octal_digits : Nat → Nat → List Nat
  | 0, _ => []
  | n + 1, v => octal_digits n (v / 8) ++ [48 + v % 8]

/-- Specification side of the octal fields: a field of width `w` holds `w - 1`
zero-padded octal digits and a terminator `t` (NUL or space). -/
def encode_octal (w v t : Nat) : List Nat := octal_digits (w - 1) v ++ [t]

/-- Specification side of the string fields (`decode_string`): the bytes of
the field up to its first NUL, at most `width` of them. -/
def decode_string (field : List Nat) (width : Nat) : List Nat := cstr (field.take width)

/-- A string stored in a field of `n` bytes, NUL padded. -/
def pad_field (n : Nat) (s : List Nat) : List Nat := (s ++ List.replicate n 0).take n

/-- A ustar header block with the given checksum field. -/
def header_with_chksum (chk name : List Nat) (mode size typeflag : Nat) (link : List Nat) :
    List Nat :=
  pad_field 100 name ++ encode_octal 8 mode 0 ++ encode_octal 8 0 0 ++ encode_octal 8 0 0
    ++ encode_octal 12 size 0 ++ encode_octal 12 0 0 ++ chk ++ [typeflag] ++ pad_field 100 link
    ++ TAR_HEADER_MAGIC_VALUE ++ [0] ++ [48, 48] ++ List.replicate 64 0
    ++ encode_octal 8 0 0 ++ encode_octal 8 0 0 ++ List.replicate 167 0

/-- A ustar header block whose checksum field holds the checksum of the block
(six octal digits, NUL, space). -/
def mk_header (name : List Nat) (mode size typeflag : Nat) (link : List Nat) : List Nat :=
  let blank := header_with_chksum (List.replicate 8 32) name mode size typeflag link
  header_with_chksum (octal_digits 6 blank.sum ++ [0, 32]) name mode size typeflag link

/-- Content bytes followed by zero padding up to the next multiple of 512. -/
def pad_block (content : List Nat) : List Nat :=
  content ++ List.replicate ((512 - content.length % 512) % 512) 0

/-- A regular-file header named `short.txt`, mode `0644`, no content. -/
def sample_regular : List Nat := mk_header (bytes "short.txt") 0o644 0 48 []

/-- The record `parse_ustar_header` gives for `sample_regular`. -/
def sample_regular_record : filedesc_t :=
  { name := some (bytes "short.txt"), linktarget := none, prefix_ := none, type := TYPEFLAG_REG,
    size := 0, mode := 0o644, mtime := 0, atime := 0, ctime := 0, devmajor := 0, devminor := 0 }

/-- A GNU long-name header (type `L`) with the given declared size. -/
def long_name_header (declared : Nat) : List Nat :=
  mk_header (bytes "././@LongLink") 0o644 declared 76 []

/-- A stream of three parts: a GNU long-name header with the given declared
size, the string `s` with its NUL padded to a block, and `sample_regular`. -/
def long_name_stream (declared : Nat) (s : List Nat) : List Nat :=
  long_name_header declared ++ pad_block (s ++ [0]) ++ sample_regular

/-- An extension header with the given type byte and declared size. -/
def extension_header (typeflag declared : Nat) : List Nat :=
  mk_header (bytes "././@LongLink") 0o644 declared typeflag []

/-- The record `parse_ustar_header` gives for `extension_header` with a
recognised type byte. -/
def extension_record (typeflag declared : Nat) : filedesc_t :=
  { name := some (bytes "././@LongLink"), linktarget := none, prefix_ := none,
    type := typeflag_from_byte typeflag, size := declared, mode := 0o644, mtime := 0, atime := 0,
    ctime := 0, devmajor := 0, devminor := 0 }

/-- A stream of five parts: an extension header of type `t1` with the payload
`ab`, an extension header of type `t2` with the payload `cd`, and a header of
type `t3` named `short.txt`. -/
def chain_stream (t1 t2 t3 : Nat) : List Nat :=
  extension_header t1 3 ++ pad_block (bytes "ab" ++ [0])
    ++ extension_header t2 3 ++ pad_block (bytes "cd" ++ [0])
    ++ mk_header (bytes "short.txt") 0o644 0 t3 []

/-! ## A small file system used to run the extractor on sample archives -/

/-- The state of the sample file system: the directories and the files (with
their contents) created so far, the other nodes created, and the paths at
which creating a node fails. -/
structure SimFS where
  dirs : List (List Nat)
  files : List (List Nat × List Nat)
  others : List (List Nat)
  deny : List (List Nat)
  deriving DecidableEq, Repr

/-- A path without its trailing `/`. -/
def strip_slash (p : List Nat) : List Nat := if p.getLast? = some 47 then p.dropLast else p

/-- The sample file system: creating a node fails at a denied path (`mkdir`
with `errno` 13, `EACCES`), `mkdir` of an existing directory fails with
`EEXIST`, and every other call succeeds. -/
def sim_os : OS SimFS where
  fopen_wb st p :=
    if p ∈ st.deny ∨ p ∈ st.dirs then none
    else some { st with files := (p, []) :: st.files.filter (fun e => e.1 ≠ p) }
  chmod st _ _ := some st
  fwrite st p b :=
    (b.length, { st with files := st.files.map (fun e => if e.1 = p then (e.1, e.2 ++ b) else e) })
  fclose st _ := st
  mkdir st p _ :=
    if strip_slash p ∈ st.deny then .error 13
    else if strip_slash p ∈ st.dirs then .error EEXIST
    else .ok { st with dirs := strip_slash p :: st.dirs }
  link st _ n := if n ∈ st.deny then none else some { st with others := n :: st.others }
  symlink st _ n := if n ∈ st.deny then none else some { st with others := n :: st.others }
  mknod st n _ _ _ := if n ∈ st.deny then none else some { st with others := n :: st.others }

/-- The empty sample file system in which creation fails at the given paths. -/
def sim_empty (deny : List (List Nat)) : SimFS :=
  { dirs := [], files := [], others := [], deny := deny }

/-- The archive of the end-to-end example: directory `out/`, regular file
`out/hello.txt` with the 3 bytes `hi\n`, and two zero blocks. -/
def archive_out_hello : List Nat :=
  mk_header (bytes "out/") 0o755 0 53 []
    ++ mk_header (bytes "out/hello.txt") 0o644 3 48 [] ++ pad_block (bytes "hi\n")
    ++ List.replicate 1024 0

/-- An archive of two regular files of 3 bytes each, with the given names,
and two zero blocks. -/
def archive_two_files (name1 name2 : List Nat) : List Nat :=
  mk_header name1 0o644 3 48 [] ++ pad_block (bytes "hi\n")
    ++ mk_header name2 0o644 3 48 [] ++ pad_block (bytes "yo\n")
    ++ List.replicate 1024 0

/-! ## The long-link payload of a record -/

/-- The GNU long-link payload that is pending when `parse_gnulong_headers`,
called after the header `first_header` of type `L` or `K`, reads its final
header: the payload of `first_header` when its type is `K`, and the payload of
the second header when the type of `first_header` is `L` and the second
header is of type `K`. -/
def pending_long_link (tarfile : FILE) (first_header : filedesc_t) : Option (List Nat) :=
  match read_gnulong_name tarfile first_header.size with
  | (.ok payload, tarfile) =>
    if first_header.type = TYPEFLAG_GNUL then
      match read_ustar_header tarfile with
      | (.ok next_header, tarfile) =>
        if next_header.type = TYPEFLAG_GNUK then
          match read_gnulong_name tarfile next_header.size with
          | (.ok payload2, _) => some payload2
          | _ => none
        else none
      | _ => none
    else some payload
  | _ => none

/-- The GNU long-link payload that precedes the final header of the record
at the cursor, if any: none when the first header read at the cursor is not
a GNU long-name or long-link header. -/
def long_link_payload (tarfile : FILE) : Option (List Nat) :=
  match read_ustar_header tarfile with
  | (.ok first_header, tarfile) =>
    if first_header.type = TYPEFLAG_GNUK ∨ first_header.type = TYPEFLAG_GNUL then
      pending_long_link tarfile first_header
    else none
  | _ => none

/-- A stream of three parts: a GNU long-link header with the declared size 7,
the payload `target` with its NUL in one block, and a hard-link header named
`l` whose link-name field is empty. -/
def long_link_sample : List Nat :=
  extension_header 75 7 ++ pad_block (bytes "target" ++ [0])
    ++ mk_header (bytes "l") 0o644 0 49 []

/-! ## The chunks of a content copy, and an environment recording the writes -/

/-- The calls `fwrite` of the given chunks to the open file `name`, one after
the other, while each call writes its whole chunk. -/
def write_chunks {σ : Type} (os : OS σ) (name : List Nat) : σ → List (List Nat) → Option σ
  | st, [] => some st
  | st, c :: cs =>
    if (os.fwrite st name c).1 = c.length then write_chunks os name (os.fwrite st name c).2 cs
    else none

/-- The content `b` cut into chunks of 1024 bytes from the front while more
than 1024 bytes are left, and one last chunk with the rest. -/
def copy_chunks_aux : Nat → List Nat → List (List Nat)
  | 0, _ => []
  | fuel + 1, b =>
    if b.length > 1024 then b.take 1024 :: copy_chunks_aux fuel (b.drop 1024) else [b]

/-- The chunks of the content `b`: as many rounds as needed are allowed. -/
def copy_chunks (b : List Nat) : List (List Nat) := copy_chunks_aux (b.length + 1) b

/-- An environment that records the chunks passed to `fwrite`, in which every
call succeeds. -/
def log_os : OS (List (List Nat)) where
  fopen_wb st _ := some st
  chmod st _ _ := some st
  fwrite st _ b := (b.length, st ++ [b])
  fclose st _ := st
  mkdir st _ _ := .ok st
  link st _ _ := some st
  symlink st _ _ := some st
  mknod st _ _ _ _ := some st

/-- A content of 2500 bytes. -/
def sample_content : List Nat := (List.range 2500).map (fun i => i % 251)

/-- The record of the regular file `data.bin` with the declared size 2500. -/
def sample_content_file : filedesc_t :=
  { name := some (bytes "data.bin"), linktarget := none, prefix_ := none,
    type := TYPEFLAG_REG, size := 2500, mode := 0o644, mtime := 0, atime := 0,
    ctime := 0, devmajor := 0, devminor := 0 }

/-! ## Checksum lemmas -/

theorem foldl_add_eq_sum (l : List Nat) (a : Nat) :
    l.foldl (fun acc b => acc + b) a = a + l.sum := by
  induction l generalizing a with
  | nil => simp
  | cons x xs ih => simp [List.foldl_cons, ih, Nat.add_assoc]

theorem sum_bytes_eq (raw : List Nat) (lo hi acc : Nat) :
    sum_bytes raw lo hi acc = acc + ((raw.drop lo).take (hi - lo)).sum := by
  unfold sum_bytes
  exact foldl_add_eq_sum _ _

theorem byteAt_nil (i : Nat) : byteAt [] i = 0 := by
  simp [byteAt]

theorem byteAt_cons_zero (a : Nat) (l : List Nat) : byteAt (a :: l) 0 = a := by
  simp [byteAt]

theorem byteAt_cons_succ (a : Nat) (l : List Nat) (i : Nat) :
    byteAt (a :: l) (i + 1) = byteAt l i := by
  simp [byteAt]

theorem byteAt_drop (raw : List Nat) (k i : Nat) : byteAt (raw.drop k) i = byteAt raw (k + i) := by
  induction raw generalizing k with
  | nil => simp [byteAt_nil]
  | cons a l ih =>
    cases k with
    | zero => simp
    | succ k =>
      rw [List.drop_succ_cons, ih, Nat.add_right_comm, byteAt_cons_succ]

/-- The bytes of a window of a buffer, summed by position. -/
theorem sum_window (raw : List Nat) (lo n : Nat) :
    ((raw.drop lo).take n).sum = ((List.range' lo n).map (byteAt raw)).sum := by
  induction n generalizing lo with
  | zero => simp
  | succ n ih =>
    rw [List.range'_succ, List.map_cons, List.sum_cons, ← ih (lo + 1)]
    cases h : raw.drop lo with
    | nil =>
      have h1 : byteAt raw lo = 0 := by
        have := byteAt_drop raw lo 0
        rw [h, byteAt_nil] at this
        simpa using this.symm
      have h2 : raw.drop (lo + 1) = [] := by
        rw [← List.drop_drop]
        simp [h]
      simp [h1, h2]
    | cons a t =>
      have h1 : byteAt raw lo = a := by
        have := byteAt_drop raw lo 0
        rw [h, byteAt_cons_zero] at this
        simpa using this.symm
      have h2 : raw.drop (lo + 1) = t := by
        have : raw.drop (lo + 1) = (raw.drop lo).drop 1 := by
          rw [List.drop_drop]
        rw [this, h]
        simp
      simp [h1, h2]

/-- The loops of `ustar_header_chksum_verify` compute the specified sum. -/
theorem chksum_calculated_eq_spec (raw : List Nat) : chksum_calculated raw = spec_chksum raw := by
  unfold chksum_calculated spec_chksum
  simp only [sum_bytes_eq, sum_window, TAR_HEADER_CHKSUM_OFFSET, TAR_HEADER_CHKSUM_WIDTH,
    TAR_BLOCKSIZE]
  have hsplit : List.range 512 = List.range' 0 148 ++ (List.range' 148 8 ++ List.range' 156 356) := by
    rw [List.range_eq_range']
    decide!
  rw [hsplit, List.map_append, List.map_append, List.sum_append, List.sum_append]
  have h1 : (List.range' 0 148).map (fun i => if 148 ≤ i ∧ i < 156 then 32 else byteAt raw i)
      = (List.range' 0 (148 - 0)).map (byteAt raw) := by
    apply List.map_congr_left
    intro i hi
    rw [List.mem_range'_1] at hi
    have : ¬ (148 ≤ i ∧ i < 156) := by omega
    simp [this]
  have h2 : (List.range' 148 8).map (fun i => if 148 ≤ i ∧ i < 156 then 32 else byteAt raw i)
      = (List.range' 148 8).map (fun _ => 32) := by
    apply List.map_congr_left
    intro i hi
    rw [List.mem_range'_1] at hi
    have : (148 ≤ i ∧ i < 156) := by omega
    simp [this]
  have h3 : (List.range' 156 356).map (fun i => if 148 ≤ i ∧ i < 156 then 32 else byteAt raw i)
      = (List.range' (148 + 8) (512 - (148 + 8))).map (byteAt raw) := by
    apply List.map_congr_left
    intro i hi
    rw [List.mem_range'_1] at hi
    have : ¬ (148 ≤ i ∧ i < 156) := by omega
    simp [this]
  rw [h1, h2, h3]
  have h4 : ((List.range' 148 8).map (fun _ => 32)).sum = 32 * 8 := by decide
  rw [h4]
  omega

/-! ## Octal fields -/

theorem parse_octal_uint_field_eq (field : List Nat) (w : Nat) (hw : w < 15 ∧ w > 0) :
    parse_octal_uint_field field w =
      if strtoll8 (field_tmp field w) < 0 then .fail
      else .ok (strtoll8 (field_tmp field w)).toNat := by
  unfold parse_octal_uint_field
  simp [hw]

theorem parse_octal_uint_field_ok_iff (field : List Nat) (w : Nat) (hw : w < 15 ∧ w > 0) (v : Nat) :
    parse_octal_uint_field field w = .ok v ↔
      (0 ≤ strtoll8 (field_tmp field w) ∧ strtoll8 (field_tmp field w) = (v : Int)) := by
  rw [parse_octal_uint_field_eq field w hw]
  split
  · constructor
    · intro h; cases h
    · intro h; omega
  · constructor
    · intro h
      injection h with h
      omega
    · intro h
      congr 1
      omega

theorem parse_octal_uint_field_ne_abort (field : List Nat) (w : Nat) (hw : w < 15 ∧ w > 0)
    (s : Site) : parse_octal_uint_field field w ≠ .abort s := by
  rw [parse_octal_uint_field_eq field w hw]
  split <;> simp

theorem chksum_verify_ok_iff (raw : List Nat) :
    ustar_header_chksum_verify raw = .ok () ↔
      parse_octal_uint_field (raw.drop 148) 8 = .ok (chksum_calculated raw) := by
  unfold ustar_header_chksum_verify
  simp only [TAR_HEADER_CHKSUM_OFFSET, TAR_HEADER_CHKSUM_WIDTH]
  cases h : parse_octal_uint_field (raw.drop 148) 8 with
  | ok e =>
    simp only [Outcome.ok.injEq]
    constructor
    · intro h2
      split at h2
      · omega
      · cases h2
    · intro h2
      simp [h2]
  | fail => simp
  | abort s => simp

theorem chksum_verify_ok_or_fail (raw : List Nat) :
    ustar_header_chksum_verify raw = .ok () ∨ ustar_header_chksum_verify raw = .fail := by
  unfold ustar_header_chksum_verify
  simp only [TAR_HEADER_CHKSUM_OFFSET, TAR_HEADER_CHKSUM_WIDTH]
  cases h : parse_octal_uint_field (raw.drop 148) 8 with
  | ok e =>
    simp only
    split
    · exact Or.inl rfl
    · exact Or.inr rfl
  | fail => exact Or.inr rfl
  | abort s => exact absurd h (parse_octal_uint_field_ne_abort _ _ (by decide) s)

/-- Acceptance by `ustar_header_chksum_verify` in terms of the specified sum. -/
theorem chksum_verify_iff_spec (raw : List Nat) :
    ustar_header_chksum_verify raw = .ok () ↔
      (0 ≤ strtoll8 (field_tmp (raw.drop 148) 8) ∧
        strtoll8 (field_tmp (raw.drop 148) 8) = (spec_chksum raw : Int)) := by
  rw [chksum_verify_ok_iff, parse_octal_uint_field_ok_iff _ _ (by decide), chksum_calculated_eq_spec]

/-- C1: `ustar_header_chksum_verify` returns true exactly when the checksum
field (bytes 148..155) parses, by `strtoll` in base 8, as a non-negative
integer equal to the sum of the 512 bytes of the block with each byte of the
checksum field counted as 32; otherwise it returns false.  The statement
holds for every buffer, in particular for every 512-byte block. -/
theorem C1_chksum_verify_iff (raw : List Nat) :
    (ustar_header_chksum_verify raw = .ok () ↔
      (0 ≤ strtoll8 (field_tmp (raw.drop 148) 8) ∧
        strtoll8 (field_tmp (raw.drop 148) 8) = (spec_chksum raw : Int)))
    ∧ (ustar_header_chksum_verify raw = .ok () ∨ ustar_header_chksum_verify raw = .fail) :=
  ⟨chksum_verify_iff_spec raw, chksum_verify_ok_or_fail raw⟩

/-! ## A changed byte changes the checksum -/

theorem byteAt_set (raw : List Nat) (i b j : Nat) (hi : i < raw.length) :
    byteAt (raw.set i b) j = if j = i then b else byteAt raw j := by
  unfold byteAt
  rw [List.getD_eq_getElem?_getD, List.getD_eq_getElem?_getD, List.getElem?_set]
  by_cases h : i = j
  · subst h
    simp [hi]
  · have h2 : ¬ j = i := fun e => h e.symm
    simp [h, h2]

/-- Two functions that differ at one position below `n` have sums over
`0..n-1` that differ by the change at that position. -/
theorem sum_range_point (f g : Nat → Nat) (n i : Nat) (hi : i < n)
    (hfg : ∀ j, j ≠ i → f j = g j) :
    ((List.range n).map f).sum + g i = ((List.range n).map g).sum + f i := by
  induction n with
  | zero => omega
  | succ n ih =>
    rw [List.range_succ, List.map_append, List.map_append, List.sum_append, List.sum_append]
    simp only [List.map_cons, List.map_nil, List.sum_cons, List.sum_nil, Nat.add_zero]
    by_cases h : i = n
    · subst h
      have : (List.range i).map f = (List.range i).map g := by
        apply List.map_congr_left
        intro j hj
        rw [List.mem_range] at hj
        exact hfg j (by omega)
      rw [this]
      omega
    · have h1 := ih (by omega)
      have h2 := hfg n (fun e => h e.symm)
      omega

theorem spec_chksum_set (raw : List Nat) (i b : Nat) (hlen : raw.length = 512) (hi : i < 512)
    (hout : i < 148 ∨ 156 ≤ i) :
    spec_chksum (raw.set i b) + byteAt raw i = spec_chksum raw + b := by
  unfold spec_chksum
  have hnot : ¬ (148 ≤ i ∧ i < 156) := by omega
  have h := sum_range_point
    (fun j => if 148 ≤ j ∧ j < 156 then 32 else byteAt (raw.set i b) j)
    (fun j => if 148 ≤ j ∧ j < 156 then 32 else byteAt raw j) 512 i hi
    (by
      intro j hj
      simp only
      rw [byteAt_set raw i b j (by omega)]
      simp [hj])
  simp only [hnot, if_false] at h
  rw [byteAt_set raw i b i (by omega)] at h
  simpa using h

theorem chksum_field_set (raw : List Nat) (i b : Nat) (hout : i < 148 ∨ 156 ≤ i) :
    field_tmp ((raw.set i b).drop 148) 8 = field_tmp (raw.drop 148) 8 := by
  unfold field_tmp
  congr 1
  apply List.ext_getElem?
  intro j
  simp only [List.getElem?_take, List.getElem?_drop, List.getElem?_set]
  by_cases hj : j < 8
  · have : ¬ i = 148 + j := by omega
    simp [hj, this]
  · simp [hj]

theorem parse_ok_chksum (raw : List Nat) (r : filedesc_t) (h : parse_ustar_header raw = .ok r) :
    ustar_header_chksum_verify raw = .ok () := by
  unfold parse_ustar_header at h
  split at h
  · cases h
  · rcases chksum_verify_ok_or_fail raw with h1 | h1
    · exact h1
    · rw [h1] at h
      cases h

theorem parse_fail_of_chksum_fail (raw : List Nat) (h : ustar_header_chksum_verify raw = .fail) :
    parse_ustar_header raw = .fail := by
  unfold parse_ustar_header
  split
  · rfl
  · rw [h]
    rfl

/-- C2: in a 512-byte block that `parse_ustar_header` accepts, replacing one
byte outside the checksum field (index below 148 or from 156 on) by a
different value gives a block that `parse_ustar_header` rejects. -/
theorem C2_single_byte_change_rejected (raw : List Nat) (r : filedesc_t) (i b : Nat)
    (hlen : raw.length = 512) (hacc : parse_ustar_header raw = .ok r)
    (hi : i < 512) (hout : i < 148 ∨ 156 ≤ i) (hb : b ≠ byteAt raw i) :
    parse_ustar_header (raw.set i b) = .fail := by
  apply parse_fail_of_chksum_fail
  have h1 := (chksum_verify_iff_spec raw).mp (parse_ok_chksum raw r hacc)
  rcases chksum_verify_ok_or_fail (raw.set i b) with h2 | h2
  · exfalso
    have h3 := (chksum_verify_iff_spec (raw.set i b)).mp h2
    rw [chksum_field_set raw i b hout] at h3
    have h4 := spec_chksum_set raw i b hlen hi hout
    have h5 : (spec_chksum (raw.set i b) : Int) = (spec_chksum raw : Int) := by
      rw [← h3.2, ← h1.2]
    have h6 : spec_chksum (raw.set i b) = spec_chksum raw := by exact_mod_cast h5
    omega
  · exact h2

/-- The sample regular-file header is accepted, and changing its first name
byte from `s` to `t` makes it rejected. -/
theorem C2_single_byte_change_rejected_witness :
    sample_regular.length = 512 ∧ (parse_ustar_header sample_regular).isOk = true ∧
      parse_ustar_header (sample_regular.set 0 116) = .fail := by
  have hacc : parse_ustar_header sample_regular = .ok
      { name := some (bytes "short.txt"), linktarget := none, prefix_ := none,
        type := TYPEFLAG_REG, size := 0, mode := 420, mtime := 0, atime := 0, ctime := 0,
        devmajor := 0, devminor := 0 } := by decide!
  refine ⟨by decide!, by rw [hacc]; rfl, ?_⟩
  exact C2_single_byte_change_rejected sample_regular _ 0 116 (by decide!) hacc (by decide)
    (by decide) (by decide!)

/-! ## Header validation -/

theorem typeflag_from_byte_ne_unknown_iff (b : Nat) :
    typeflag_from_byte b ≠ TYPEFLAG_UNKNOWN ↔
      (b = 0 ∨ (48 ≤ b ∧ b ≤ 55) ∨ b = 75 ∨ b = 76 ∨ b = 120 ∨ b = 103) := by
  constructor
  · intro h
    by_contra hc
    apply h
    unfold typeflag_from_byte
    have h0 : ¬ (b = 0 ∨ b = 48) := by omega
    have h1 : ¬ b = 49 := by omega
    have h2 : ¬ b = 50 := by omega
    have h3 : ¬ b = 51 := by omega
    have h4 : ¬ b = 52 := by omega
    have h5 : ¬ b = 53 := by omega
    have h6 : ¬ b = 54 := by omega
    have h7 : ¬ b = 55 := by omega
    have h8 : ¬ b = 75 := by omega
    have h9 : ¬ b = 76 := by omega
    have h10 : ¬ b = 120 := by omega
    have h11 : ¬ b = 103 := by omega
    simp only [h0, h1, h2, h3, h4, h5, h6, h7, h8, h9, h10, h11, if_false]
  · intro h
    rcases h with rfl | ⟨h1, h2⟩ | rfl | rfl | rfl | rfl
    · decide
    · interval_cases b <;> decide
    · decide
    · decide
    · decide
    · decide

/-- The mode check on the type decoded from a recognised type byte. -/
theorem validate_mode_from_byte (mode b : Nat) (h : typeflag_from_byte b ≠ TYPEFLAG_UNKNOWN) :
    validate_mode_and_type mode (typeflag_from_byte b) =
      if b = 75 ∨ b = 76 ∨ b = 120 ∨ b = 103 ∨ mode < 0o2000 then .ok () else .fail := by
  rcases (typeflag_from_byte_ne_unknown_iff b).mp h with rfl | ⟨h1, h2⟩ | rfl | rfl | rfl | rfl
  · simp [typeflag_from_byte, validate_mode_and_type]
  · interval_cases b <;> simp [typeflag_from_byte, validate_mode_and_type]
  · simp [typeflag_from_byte, validate_mode_and_type]
  · simp [typeflag_from_byte, validate_mode_and_type]
  · simp [typeflag_from_byte, validate_mode_and_type]
  · simp [typeflag_from_byte, validate_mode_and_type]

theorem parse_optional_string_ok (raw : List Nat) (off w : Nat) (hw : w < 255) :
    ∃ s, parse_optional_string raw off w = .ok s := by
  unfold parse_optional_string parse_string_field
  split
  · simp [hw, Outcome.bind]
  · exact ⟨none, rfl⟩

/-- The result of `parse_ustar_header` in closed form: one conjunction of
tests, and the record written when they all pass. -/
theorem parse_ustar_header_eq (raw : List Nat) :
    parse_ustar_header raw =
      if ((raw.drop 257).take 5 = [117, 115, 116, 97, 114]
        ∧ ustar_header_chksum_verify raw = .ok ()
        ∧ typeflag_from_byte (byteAt raw 156) ≠ TYPEFLAG_UNKNOWN
        ∧ 0 ≤ strtoll8 (field_tmp (raw.drop 100) 8)
        ∧ (byteAt raw 156 = 75 ∨ byteAt raw 156 = 76 ∨ byteAt raw 156 = 120
            ∨ byteAt raw 156 = 103 ∨ (strtoll8 (field_tmp (raw.drop 100) 8)).toNat < 0o2000)
        ∧ 0 ≤ strtoll8 (field_tmp (raw.drop 124) 12)
        ∧ 0 ≤ strtoll8 (field_tmp (raw.drop 329) 8)
        ∧ 0 ≤ strtoll8 (field_tmp (raw.drop 337) 8)
        ∧ byteAt raw 0 ≠ 0) then .ok (header_record raw) else .fail := by
  unfold parse_ustar_header header_record parse_optional_string
  simp only [TAR_HEADER_MAGIC_OFFSET, TAR_HEADER_MAGIC_VALUE, TAR_HEADER_TYPE_OFFSET,
    TAR_HEADER_MODE_OFFSET, TAR_HEADER_MODE_WIDTH, TAR_HEADER_SIZE_OFFSET, TAR_HEADER_SIZE_WIDTH,
    TAR_HEADER_DEVMAJOR_OFFSET, TAR_HEADER_DEVMAJOR_WIDTH, TAR_HEADER_DEVMINOR_OFFSET,
    TAR_HEADER_DEVMINOR_WIDTH, TAR_HEADER_MTIME_OFFSET, TAR_HEADER_MTIME_WIDTH,
    TAR_HEADER_ATIME_OFFSET, TAR_HEADER_ATIME_WIDTH, TAR_HEADER_CTIME_OFFSET,
    TAR_HEADER_CTIME_WIDTH, TAR_HEADER_NAME_OFFSET, TAR_HEADER_NAME_WIDTH,
    TAR_HEADER_LINK_OFFSET, TAR_HEADER_LINK_WIDTH, TAR_HEADER_PREFIX_OFFSET,
    TAR_HEADER_PREFIX_WIDTH, List.length_cons, List.length_nil,
    parse_octal_uint_field_eq _ 8 (by decide), parse_octal_uint_field_eq _ 12 (by decide),
    parse_octal_time_field, parse_string_field]
  by_cases h1 : (raw.drop 257).take 5 = [117, 115, 116, 97, 114]
  swap
  · simp [h1]
  rcases chksum_verify_ok_or_fail raw with h2 | h2
  swap
  · simp [h1, h2, Outcome.bind]
  by_cases h3 : typeflag_from_byte (byteAt raw 156) = TYPEFLAG_UNKNOWN
  · simp [h1, h2, h3, Outcome.bind]
  by_cases h4 : strtoll8 (field_tmp (raw.drop 100) 8) < 0
  · have : ¬ 0 ≤ strtoll8 (field_tmp (raw.drop 100) 8) := by omega
    simp [h1, h2, h3, h4, this, Outcome.bind]
  have hv := validate_mode_from_byte (strtoll8 (field_tmp (raw.drop 100) 8)).toNat _ h3
  by_cases h5 : byteAt raw 156 = 75 ∨ byteAt raw 156 = 76 ∨ byteAt raw 156 = 120
      ∨ byteAt raw 156 = 103 ∨ (strtoll8 (field_tmp (raw.drop 100) 8)).toNat < 0o2000
  swap
  · rw [if_neg h5] at hv
    have h5b : ¬ (byteAt raw 156 = 75 ∨ byteAt raw 156 = 76 ∨ byteAt raw 156 = 120
      ∨ byteAt raw 156 = 103 ∨ (strtoll8 (field_tmp (raw.drop 100) 8)).toNat < 1024) := h5
    simp [h1, h2, h3, h4, hv, h5b, Outcome.bind]
  rw [if_pos h5] at hv
  have h5b : (byteAt raw 156 = 75 ∨ byteAt raw 156 = 76 ∨ byteAt raw 156 = 120
      ∨ byteAt raw 156 = 103 ∨ (strtoll8 (field_tmp (raw.drop 100) 8)).toNat < 1024) := h5
  by_cases h6 : strtoll8 (field_tmp (raw.drop 124) 12) < 0
  · have : ¬ 0 ≤ strtoll8 (field_tmp (raw.drop 124) 12) := by omega
    simp [h1, h2, h3, h4, hv, h6, this, Outcome.bind]
  by_cases h7 : strtoll8 (field_tmp (raw.drop 329) 8) < 0
  · have : ¬ 0 ≤ strtoll8 (field_tmp (raw.drop 329) 8) := by omega
    simp [h1, h2, h3, h4, hv, h6, h7, this, Outcome.bind]
  by_cases h8 : strtoll8 (field_tmp (raw.drop 337) 8) < 0
  · have : ¬ 0 ≤ strtoll8 (field_tmp (raw.drop 337) 8) := by omega
    simp [h1, h2, h3, h4, hv, h6, h7, h8, this, Outcome.bind]
  by_cases h9 : byteAt raw 0 = 0
  · simp [h1, h2, h3, h4, hv, h6, h7, h8, h9, Outcome.bind]
  have e4 : 0 ≤ strtoll8 (field_tmp (raw.drop 100) 8) := by omega
  have e6 : 0 ≤ strtoll8 (field_tmp (raw.drop 124) 12) := by omega
  have e7 : 0 ≤ strtoll8 (field_tmp (raw.drop 329) 8) := by omega
  have e8 : 0 ≤ strtoll8 (field_tmp (raw.drop 337) 8) := by omega
  have hA : ((raw.drop 257).take 5 = [117, 115, 116, 97, 114]
        ∧ ustar_header_chksum_verify raw = .ok ()
        ∧ typeflag_from_byte (byteAt raw 156) ≠ TYPEFLAG_UNKNOWN
        ∧ 0 ≤ strtoll8 (field_tmp (raw.drop 100) 8)
        ∧ (byteAt raw 156 = 75 ∨ byteAt raw 156 = 76 ∨ byteAt raw 156 = 120
            ∨ byteAt raw 156 = 103 ∨ (strtoll8 (field_tmp (raw.drop 100) 8)).toNat < 0o2000)
        ∧ 0 ≤ strtoll8 (field_tmp (raw.drop 124) 12)
        ∧ 0 ≤ strtoll8 (field_tmp (raw.drop 329) 8)
        ∧ 0 ≤ strtoll8 (field_tmp (raw.drop 337) 8)
        ∧ byteAt raw 0 ≠ 0) := ⟨h1, h2, h3, e4, h5, e6, e7, e8, h9⟩
  rw [if_pos hA]
  simp only [h1, h2, h3, h4, hv, h6, h7, h8, h9, Outcome.bind, if_false, not_true, ne_eq,
    not_false_eq_true, if_true]
  by_cases hl : byteAt raw 157 = 0 <;> by_cases hp : byteAt raw 345 = 0 <;>
    simp [hl, hp, Outcome.bind]

theorem parse_ustar_header_ok_or_fail (raw : List Nat) :
    (∃ r, parse_ustar_header raw = .ok r) ∨ parse_ustar_header raw = .fail := by
  rw [parse_ustar_header_eq]
  split
  · exact Or.inl ⟨_, rfl⟩
  · exact Or.inr rfl

/-- C3: `parse_ustar_header` succeeds exactly when the five magic bytes at
257..261 are `ustar` (byte 262 is not looked at), the checksum verifies, the
type byte at 156 is one of 0, `0`..`7`, `K`, `L`, `x`, `g`, the mode, size,
devmajor and devminor fields decode to non-negative values, the mode is
below `0o2000` unless the type is one of `K`, `L`, `x`, `g`, and the first
name byte is not NUL.  A block with other magic bytes, and a block with an
unrecognised type byte, is rejected; the function returns true or false and
never aborts. -/
theorem C3_parse_succeeds_iff (raw : List Nat) :
    ((∃ r, parse_ustar_header raw = .ok r) ↔
      ((raw.drop 257).take 5 = [117, 115, 116, 97, 114]
        ∧ ustar_header_chksum_verify raw = .ok ()
        ∧ (byteAt raw 156 = 0 ∨ (48 ≤ byteAt raw 156 ∧ byteAt raw 156 ≤ 55)
            ∨ byteAt raw 156 = 75 ∨ byteAt raw 156 = 76 ∨ byteAt raw 156 = 120
            ∨ byteAt raw 156 = 103)
        ∧ 0 ≤ strtoll8 (field_tmp (raw.drop 100) 8)
        ∧ 0 ≤ strtoll8 (field_tmp (raw.drop 124) 12)
        ∧ 0 ≤ strtoll8 (field_tmp (raw.drop 329) 8)
        ∧ 0 ≤ strtoll8 (field_tmp (raw.drop 337) 8)
        ∧ (byteAt raw 156 = 75 ∨ byteAt raw 156 = 76 ∨ byteAt raw 156 = 120
            ∨ byteAt raw 156 = 103 ∨ (strtoll8 (field_tmp (raw.drop 100) 8)).toNat < 0o2000)
        ∧ byteAt raw 0 ≠ 0))
    ∧ ((raw.drop 257).take 5 ≠ [117, 115, 116, 97, 114] → parse_ustar_header raw = .fail)
    ∧ (¬ (byteAt raw 156 = 0 ∨ (48 ≤ byteAt raw 156 ∧ byteAt raw 156 ≤ 55)
            ∨ byteAt raw 156 = 75 ∨ byteAt raw 156 = 76 ∨ byteAt raw 156 = 120
            ∨ byteAt raw 156 = 103) → parse_ustar_header raw = .fail)
    ∧ ((∃ r, parse_ustar_header raw = .ok r) ∨ parse_ustar_header raw = .fail) := by
  refine ⟨?_, ?_, ?_, parse_ustar_header_ok_or_fail raw⟩
  · rw [parse_ustar_header_eq]
    constructor
    · rintro ⟨r, h⟩
      split at h
      · rename_i hc
        obtain ⟨a1, a2, a3, a4, a5, a6, a7, a8, a9⟩ := hc
        exact ⟨a1, a2, (typeflag_from_byte_ne_unknown_iff _).mp a3, a4, a6, a7, a8, a5, a9⟩
      · cases h
    · rintro ⟨a1, a2, a3, a4, a6, a7, a8, a5, a9⟩
      exact ⟨_, if_pos ⟨a1, a2, (typeflag_from_byte_ne_unknown_iff _).mpr a3, a4, a5, a6, a7,
        a8, a9⟩⟩
  · intro h
    rw [parse_ustar_header_eq]
    exact if_neg (fun hc => h hc.1)
  · intro h
    rw [parse_ustar_header_eq]
    exact if_neg (fun hc => h ((typeflag_from_byte_ne_unknown_iff _).mp hc.2.2.1))

/-! ## Mode and type -/

/-- C4: for each of the eight standard node types the mode check passes
exactly when the mode is below `0o2000`, and a header of such a type whose
mode field decodes to `0o2000` or more is rejected; for each of the four
extension types the mode check passes for every mode.  Mode `0o2755` is
rejected on a regular-file header (whose checksum is right) and accepted on
a long-name header. -/
theorem C4_mode_check :
    (∀ t ∈ [TYPEFLAG_REG, TYPEFLAG_LNK, TYPEFLAG_SYM, TYPEFLAG_CHR, TYPEFLAG_BLK, TYPEFLAG_DIR,
          TYPEFLAG_FIFO, TYPEFLAG_CONT], ∀ mode : Nat,
        (0o2000 ≤ mode → validate_mode_and_type mode t = .fail)
        ∧ (mode < 0o2000 → validate_mode_and_type mode t = .ok ()))
    ∧ (∀ t ∈ [TYPEFLAG_GNUL, TYPEFLAG_GNUK, TYPEFLAG_XHD, TYPEFLAG_XGL], ∀ mode : Nat,
        validate_mode_and_type mode t = .ok ())
    ∧ (∀ (raw : List Nat) (mode : Nat),
        typeflag_from_byte (byteAt raw 156) ∈ [TYPEFLAG_REG, TYPEFLAG_LNK, TYPEFLAG_SYM,
          TYPEFLAG_CHR, TYPEFLAG_BLK, TYPEFLAG_DIR, TYPEFLAG_FIFO, TYPEFLAG_CONT] →
        parse_octal_uint_field (raw.drop 100) 8 = .ok mode → 0o2000 ≤ mode →
        parse_ustar_header raw = .fail)
    ∧ (ustar_header_chksum_verify (mk_header (bytes "short.txt") 0o2755 0 48 []) = .ok ()
        ∧ parse_octal_uint_field ((mk_header (bytes "short.txt") 0o2755 0 48 []).drop 100) 8
            = .ok 0o2755
        ∧ parse_ustar_header (mk_header (bytes "short.txt") 0o2755 0 48 []) = .fail)
    ∧ parse_ustar_header (mk_header (bytes "././@LongLink") 0o2755 21 76 []) = .ok
        { name := some (bytes "././@LongLink"), linktarget := none, prefix_ := none,
          type := TYPEFLAG_GNUL, size := 21, mode := 0o2755, mtime := 0, atime := 0, ctime := 0,
          devmajor := 0, devminor := 0 } := by
  refine ⟨?_, ?_, ?_, ⟨by decide!, by decide!, by decide!⟩, by decide!⟩
  · intro t ht mode
    simp only [List.mem_cons, List.mem_singleton, List.mem_nil_iff, or_false] at ht
    rcases ht with rfl | rfl | rfl | rfl | rfl | rfl | rfl | rfl <;>
      (simp only [validate_mode_and_type]; constructor <;> intro h <;> simp <;> omega)
  · intro t ht mode
    simp only [List.mem_cons, List.mem_singleton, List.mem_nil_iff, or_false] at ht
    rcases ht with rfl | rfl | rfl | rfl <;> rfl
  · intro raw mode ht hm hge
    rw [parse_octal_uint_field_ok_iff _ _ (by decide)] at hm
    rw [parse_ustar_header_eq]
    apply if_neg
    rintro ⟨-, -, -, -, a5, -⟩
    have hmode : (strtoll8 (field_tmp (raw.drop 100) 8)).toNat = mode := by omega
    rw [hmode] at a5
    have hb : ¬ (byteAt raw 156 = 75 ∨ byteAt raw 156 = 76 ∨ byteAt raw 156 = 120
        ∨ byteAt raw 156 = 103) := by
      intro hb
      rcases hb with hb | hb | hb | hb <;> rw [hb] at ht <;> revert ht <;> decide
    omega

/-! ## Octal round trip -/

theorem octal_digits_length (n v : Nat) : (octal_digits n v).length = n := by
  induction n generalizing v with
  | zero => rfl
  | succ n ih => simp [octal_digits, ih]

theorem octal_accum_digits (n v : Nat) (rest : List Nat) (acc : Nat) :
    octal_accum (octal_digits n v ++ rest) acc = octal_accum rest (acc * 8 ^ n + v % 8 ^ n) := by
  induction n generalizing v rest acc with
  | zero => simp [octal_digits, Nat.mod_one]
  | succ n ih =>
    rw [octal_digits, List.append_assoc, ih]
    have hd : isodigit (48 + v % 8) = true := by
      have : v % 8 < 8 := Nat.mod_lt _ (by decide)
      simp [isodigit]
      omega
    rw [List.singleton_append, octal_accum, if_pos hd]
    congr 1
    have h1 : 48 + v % 8 - 48 = v % 8 := by omega
    have h2 : v % 8 ^ (n + 1) = 8 * (v / 8 % 8 ^ n) + v % 8 := by
      rw [pow_succ, Nat.mul_comm (8 ^ n) 8, Nat.mod_mul]
      omega
    rw [h1, h2, pow_succ]
    ring

theorem octal_digits_head (n v : Nat) :
    ∃ d tl, octal_digits (n + 1) v = d :: tl ∧ 48 ≤ d ∧ d ≤ 55 := by
  induction n generalizing v with
  | zero =>
    refine ⟨48 + v % 8, [], by simp [octal_digits], by omega, ?_⟩
    have : v % 8 < 8 := Nat.mod_lt _ (by decide)
    omega
  | succ n ih =>
    obtain ⟨d, tl, h, h1, h2⟩ := ih (v / 8)
    refine ⟨d, tl ++ [48 + v % 8], ?_, h1, h2⟩
    rw [octal_digits, h]
    rfl

/-- The value `strtoll` reads from a field of `n + 1` octal digits and a
terminator that is not an octal digit. -/
theorem strtoll8_encode (n v t : Nat) (rest : List Nat) (ht : isodigit t = false)
    (hv : v < 8 ^ (n + 1)) (hn : n + 1 ≤ 20) :
    strtoll8 (field_tmp (encode_octal (n + 2) v t ++ rest) (n + 2)) = (v : Int) := by
  have htake : field_tmp (encode_octal (n + 2) v t ++ rest) (n + 2)
      = octal_digits (n + 1) v ++ [t, 0] := by
    unfold field_tmp encode_octal
    have hlen : (octal_digits (n + 2 - 1) v ++ [t]).length = n + 2 := by
      simp [octal_digits_length]
    rw [List.take_append_of_le_length (by omega), List.take_of_length_le (by omega)]
    simp
  rw [htake]
  obtain ⟨d, tl, hd, hd1, hd2⟩ := octal_digits_head n v
  have hsp : isspace d = false := by
    simp [isspace]
    omega
  have hdrop : (octal_digits (n + 1) v ++ [t, 0]).dropWhile isspace
      = octal_digits (n + 1) v ++ [t, 0] := by
    rw [hd, List.cons_append, List.dropWhile_cons, hsp]
    rfl
  have hhead : (octal_digits (n + 1) v ++ [t, 0]).headD 0 = d := by
    rw [hd]
    rfl
  unfold strtoll8
  simp only [hdrop, hhead]
  have h45 : ¬ d = 45 := by omega
  have h43 : ¬ d = 43 := by omega
  rw [if_neg h45, if_neg h43, octal_accum_digits]
  have hacc : octal_accum [t, 0] (0 * 8 ^ (n + 1) + v % 8 ^ (n + 1)) = v := by
    rw [octal_accum]
    simp [ht, Nat.mod_eq_of_lt hv]
  rw [hacc]
  have hbound : (8 : Nat) ^ (n + 1) ≤ 8 ^ 20 := Nat.pow_le_pow_right (by decide) hn
  have h20 : (8 : Nat) ^ 20 = 1152921504606846976 := by norm_num
  have hmax : LLONG_MAX = 9223372036854775807 := by
    unfold LLONG_MAX
    norm_num
  rw [hmax]
  omega

/-- C5: octal round trip.  For a width `w` of 8 or 12 and every `v` below
`8 ^ (w - 1)`, the field that holds `v` as `w - 1` zero-padded octal digits
followed by a NUL or a space, whatever bytes follow the field, is decoded by
`parse_octal_uint_field` to exactly `v`. -/
theorem C5_octal_round_trip (w v t : Nat) (rest : List Nat) (hw : w = 8 ∨ w = 12)
    (hv : v < 8 ^ (w - 1)) (ht : t = 0 ∨ t = 32) :
    parse_octal_uint_field (encode_octal w v t ++ rest) w = .ok v := by
  have hw2 : w < 15 ∧ w > 0 := by omega
  rw [parse_octal_uint_field_ok_iff _ _ hw2]
  have htd : isodigit t = false := by
    rcases ht with rfl | rfl <;> decide
  obtain ⟨n, rfl⟩ : ∃ n, w = n + 2 := ⟨w - 2, by omega⟩
  have h := strtoll8_encode n v t rest htd (by simpa using hv) (by omega)
  rw [h]
  exact ⟨Int.natCast_nonneg v, rfl⟩

/-- The size field of a 12-byte field holding `0o644` with a NUL terminator
decodes to `0o644`. -/
theorem C5_octal_round_trip_witness :
    parse_octal_uint_field (encode_octal 12 0o644 0 ++ [48, 49]) 12 = .ok 0o644 :=
  C5_octal_round_trip 12 0o644 0 [48, 49] (Or.inr rfl) (by norm_num) (Or.inl rfl)

/-! ## String fields -/

/-- When the field holds a NUL among its first `width` bytes, the string
`parse_string_field` returns is the specified one. -/
theorem parse_string_field_terminated (field : List Nat) (width : Nat) (hw : width < 255)
    (hnul : 0 ∈ field.take width) :
    parse_string_field field width = .ok (decode_string field width) := by
  unfold parse_string_field decode_string cstr
  rw [if_neg (by omega)]
  congr 1
  induction field generalizing width with
  | nil => simp
  | cons a l ih =>
    cases width with
    | zero => simp at hnul
    | succ n =>
      rw [List.take_succ_cons] at hnul ⊢
      by_cases ha : a = 0
      · subst ha
        simp
      · have hmem : 0 ∈ l.take n := by
          rcases List.mem_cons.mp hnul with h | h
          · exact absurd h.symm ha
          · exact h
        simp only [List.takeWhile_cons, bne_iff_ne, ne_eq, ha, not_false_eq_true, decide_True,
          if_true]
        rw [ih n (by omega) hmem]

/-- C6 (the code differs): on a valid header whose name field holds 100
bytes `a` and no NUL, `parse_string_field` and `parse_ustar_header` give a
name of 107 bytes, the 100 bytes of the field followed by the seven digits of
the mode field, while the specified string is the 100 bytes of the field. -/
theorem C6_string_field_overrun :
    parse_string_field ((mk_header (List.replicate 100 97) 0o644 0 48 []).drop 0) 100
        = .ok (List.replicate 100 97 ++ bytes "0000644")
    ∧ (List.replicate 100 97 ++ bytes "0000644").length = 107
    ∧ decode_string ((mk_header (List.replicate 100 97) 0o644 0 48 []).drop 0) 100
        = List.replicate 100 97
    ∧ parse_ustar_header (mk_header (List.replicate 100 97) 0o644 0 48 []) = .ok
        { name := some (List.replicate 100 97 ++ bytes "0000644"), linktarget := none,
          prefix_ := none, type := TYPEFLAG_REG, size := 0, mode := 0o644, mtime := 0,
          atime := 0, ctime := 0, devmajor := 0, devminor := 0 } := by
  refine ⟨by decide!, by decide!, by decide!, by decide!⟩

/-! ## Reading headers from the stream -/

/-- The alignment step moves the cursor to the least multiple of 512 that is
not below it. -/
theorem align_stream_eq (f : FILE) :
    align_stream f = { data := f.data, pos := 512 * ((f.pos + 511) / 512) } := by
  unfold align_stream fseek_cur
  simp only [TAR_BLOCKSIZE]
  split
  · congr 1
    omega
  · cases f with
    | mk d p =>
      simp only [FILE.mk.injEq, true_and]
      simp only at *
      omega

theorem fread_eq (f : FILE) (n : Nat) :
    fread f n = ((f.data.drop f.pos).take n,
      { data := f.data, pos := f.pos + ((f.data.drop f.pos).take n).length }) := rfl

theorem eoa_header_length : TAR_EOA_HEADER.length = 512 := by
  unfold TAR_EOA_HEADER
  exact List.length_replicate _ _

/-- The two reads of `read_ustar_header` when the block at the aligned offset is all zeros. -/
theorem read_ustar_header_zero_block (f : FILE)
    (hfirst : (f.data.drop (512 * ((f.pos + 511) / 512))).take 512 = TAR_EOA_HEADER) :
    read_ustar_header f =
      if (f.data.drop (512 * ((f.pos + 511) / 512) + 512)).take 512 = TAR_EOA_HEADER then
        (.ok eoa_filedesc, { data := f.data, pos := 512 * ((f.pos + 511) / 512) + 1024 })
      else (.fail, { data := f.data, pos := 512 * ((f.pos + 511) / 512) + 512
          + ((f.data.drop (512 * ((f.pos + 511) / 512) + 512)).take 512).length }) := by
  unfold read_ustar_header
  simp only [align_stream_eq, fread_eq, TAR_BLOCKSIZE, hfirst, eoa_header_length]
  simp only [ne_eq, not_true_eq_false, if_false, if_true]
  by_cases h2 : (f.data.drop (512 * ((f.pos + 511) / 512) + 512)).take 512 = TAR_EOA_HEADER
  · simp only [h2, eoa_header_length, not_true_eq_false, if_false, if_true]
  · simp only [h2, not_false_eq_true, if_true, if_false, ite_self]

/-- C7: when the block at the block-aligned offset `q` is all zeros,
`read_ustar_header` succeeds exactly when the 512 bytes from `q + 512` are
there and are all zeros; it then yields the record of type `TYPEFLAG_EOA`
with no name, link target or prefix and leaves the cursor at `q + 1024`;
otherwise (a non-zero or a short second block) it returns false. -/
theorem C7_end_of_archive (f : FILE)
    (hfirst : (f.data.drop (512 * ((f.pos + 511) / 512))).take 512 = List.replicate 512 0) :
    ((∃ r g, read_ustar_header f = (.ok r, g)) ↔
        (f.data.drop (512 * ((f.pos + 511) / 512) + 512)).take 512 = List.replicate 512 0)
    ∧ ((f.data.drop (512 * ((f.pos + 511) / 512) + 512)).take 512 = List.replicate 512 0 →
        read_ustar_header f =
          (.ok { name := none, linktarget := none, prefix_ := none, type := TYPEFLAG_EOA,
                 size := 0, mode := 0, mtime := 0, atime := 0, ctime := 0, devmajor := 0,
                 devminor := 0 },
            { data := f.data, pos := 512 * ((f.pos + 511) / 512) + 1024 }))
    ∧ ((f.data.drop (512 * ((f.pos + 511) / 512) + 512)).take 512 ≠ List.replicate 512 0 →
        (read_ustar_header f).1 = .fail) := by
  have h := read_ustar_header_zero_block f hfirst
  have hE : TAR_EOA_HEADER = List.replicate 512 0 := rfl
  rw [hE] at h
  refine ⟨?_, ?_, ?_⟩
  · constructor
    · rintro ⟨r, g, hr⟩
      by_contra hc
      rw [h, if_neg hc] at hr
      cases hr
    · intro h2
      rw [h, if_pos h2]
      exact ⟨_, _, rfl⟩
  · intro h2
    rw [h, if_pos h2]
    rfl
  · intro h2
    rw [h, if_neg h2]

/-- A stream of exactly two zero blocks read from offset 0, and a zero block
followed by a block that starts with a non-zero byte. -/
theorem C7_end_of_archive_witness :
    (((∃ r g, read_ustar_header ⟨List.replicate 1024 0, 0⟩ = (.ok r, g)) ↔
        ((List.replicate 1024 0).drop (512 * ((0 + 511) / 512) + 512)).take 512
          = List.replicate 512 0)
    ∧ (((List.replicate 1024 0).drop (512 * ((0 + 511) / 512) + 512)).take 512
          = List.replicate 512 0 →
        read_ustar_header ⟨List.replicate 1024 0, 0⟩ =
          (.ok { name := none, linktarget := none, prefix_ := none, type := TYPEFLAG_EOA,
                 size := 0, mode := 0, mtime := 0, atime := 0, ctime := 0, devmajor := 0,
                 devminor := 0 },
            { data := List.replicate 1024 0, pos := 512 * ((0 + 511) / 512) + 1024 }))
    ∧ (((List.replicate 1024 0).drop (512 * ((0 + 511) / 512) + 512)).take 512
          ≠ List.replicate 512 0 →
        (read_ustar_header ⟨List.replicate 1024 0, 0⟩).1 = .fail))
    ∧ read_ustar_header ⟨List.replicate 1024 0, 0⟩ = (.ok eoa_filedesc, ⟨List.replicate 1024 0, 1024⟩)
    ∧ (read_ustar_header ⟨List.replicate 512 0 ++ sample_regular, 0⟩).1 = .fail
    ∧ (read_ustar_header ⟨List.replicate 1023 0, 0⟩).1 = .fail :=
  ⟨C7_end_of_archive ⟨List.replicate 1024 0, 0⟩ (by decide!), by decide!, by decide!, by decide!⟩

/-! ## End of archive through the public iterator -/

/-- C8 (the code differs): on a stream of two all-zero blocks read from
offset 0, `minutar_next_file` does not return: `read_ustar_header` yields the
end-of-archive record, whose name is `NULL`, and `canonicalize_paths` aborts
on its assertion `file->name != NULL`. -/
theorem C8_end_of_archive_aborts :
    read_ustar_header ⟨List.replicate 1024 0, 0⟩
        = (.ok eoa_filedesc, ⟨List.replicate 1024 0, 1024⟩)
    ∧ canonicalize_paths eoa_filedesc = .abort .canonicalize_name_null
    ∧ minutar_next_file ⟨List.replicate 1024 0, 0⟩
        = (.abort .canonicalize_name_null, ⟨List.replicate 1024 0, 1024⟩) := by
  refine ⟨by decide!, by decide!, by decide!⟩

/-! ## The types the public iterator returns -/

theorem typeflag_from_byte_header (b : Nat) (h : typeflag_from_byte b ≠ TYPEFLAG_UNKNOWN) :
    typeflag_from_byte b ≠ TYPEFLAG_AREG ∧ typeflag_from_byte b ≠ TYPEFLAG_EOA := by
  rcases (typeflag_from_byte_ne_unknown_iff b).mp h with rfl | ⟨h1, h2⟩ | rfl | rfl | rfl | rfl
  · decide
  · interval_cases b <;> decide
  · decide
  · decide
  · decide
  · decide

theorem parse_ok_record (raw : List Nat) (r : filedesc_t) (h : parse_ustar_header raw = .ok r) :
    r = header_record raw ∧ typeflag_from_byte (byteAt raw 156) ≠ TYPEFLAG_UNKNOWN := by
  rw [parse_ustar_header_eq] at h
  split at h
  · rename_i hc
    injection h with h
    exact ⟨h.symm, hc.2.2.1⟩
  · cases h

/-- A record written by `parse_ustar_header` has a name and a type decoded from a header. -/
theorem parse_ok_shape (raw : List Nat) (r : filedesc_t) (h : parse_ustar_header raw = .ok r) :
    r.name ≠ none ∧ r.type ≠ TYPEFLAG_AREG ∧ r.type ≠ TYPEFLAG_EOA
      ∧ r.type ≠ TYPEFLAG_UNKNOWN := by
  obtain ⟨hr, ht⟩ := parse_ok_record raw r h
  subst hr
  have h2 := typeflag_from_byte_header _ ht
  exact ⟨by simp [header_record], h2.1, h2.2, ht⟩

/-- What `read_ustar_header` can produce: false, the end-of-archive record,
or a record written by `parse_ustar_header`; it never aborts. -/
theorem read_ustar_header_shape (f : FILE) :
    (read_ustar_header f).1 = .fail
    ∨ (read_ustar_header f).1 = .ok eoa_filedesc
    ∨ ∃ r, (read_ustar_header f).1 = .ok r ∧ r.name ≠ none ∧ r.type ≠ TYPEFLAG_AREG
        ∧ r.type ≠ TYPEFLAG_EOA ∧ r.type ≠ TYPEFLAG_UNKNOWN := by
  unfold read_ustar_header
  simp only [fread_eq]
  split
  · exact Or.inl rfl
  · split
    · split
      · exact Or.inl rfl
      · split
        · exact Or.inl rfl
        · exact Or.inr (Or.inl rfl)
    · simp only
      rcases parse_ustar_header_ok_or_fail
          ((List.drop (align_stream f).pos (align_stream f).data).take TAR_BLOCKSIZE) with
        ⟨r, hr⟩ | hr
      · rw [hr]
        exact Or.inr (Or.inr ⟨r, rfl, parse_ok_shape _ r hr⟩)
      · rw [hr]
        exact Or.inl rfl

theorem read_ustar_header_ne_abort (f : FILE) (s : Site) (g : FILE) :
    read_ustar_header f ≠ (.abort s, g) := by
  intro h
  have h1 : (read_ustar_header f).1 = .abort s := by rw [h]
  rcases read_ustar_header_shape f with h2 | h2 | ⟨r, h2, -⟩ <;> rw [h2] at h1 <;> cases h1

theorem read_ustar_header_ok_shape (f g : FILE) (r : filedesc_t)
    (h : read_ustar_header f = (.ok r, g)) :
    r = eoa_filedesc ∨ (r.name ≠ none ∧ r.type ≠ TYPEFLAG_AREG ∧ r.type ≠ TYPEFLAG_EOA
        ∧ r.type ≠ TYPEFLAG_UNKNOWN) := by
  have h1 : (read_ustar_header f).1 = .ok r := by rw [h]
  rcases read_ustar_header_shape f with h2 | h2 | ⟨r2, h2, h3⟩ <;> rw [h2] at h1
  · cases h1
  · injection h1 with h1
    exact Or.inl h1.symm
  · injection h1 with h1
    subst h1
    exact Or.inr h3

theorem read_gnulong_name_ne_abort (f : FILE) (n : Nat) (s : Site) (g : FILE) :
    read_gnulong_name f n ≠ (.abort s, g) := by
  unfold read_gnulong_name
  simp only [fread_eq]
  intro h
  split at h
  · cases h
  · split at h
    · cases h
    · split at h <;> cases h

theorem std_type_of_val_le (t : typeflag_t) (h1 : t ≠ TYPEFLAG_AREG) (h2 : t ≠ TYPEFLAG_EOA)
    (h3 : t ≠ TYPEFLAG_UNKNOWN) (h4 : ¬ t.val > TYPEFLAG_CONT.val) :
    48 ≤ t.val ∧ t.val ≤ 55 := by
  cases t <;> simp [typeflag_t.val] at h1 h2 h3 h4 ⊢

theorem gnulong_apply_shape (ln ll : Option (List Nat)) (nh : filedesc_t)
    (hnh : nh = eoa_filedesc ∨ (nh.name ≠ none ∧ nh.type ≠ TYPEFLAG_AREG
        ∧ nh.type ≠ TYPEFLAG_EOA ∧ nh.type ≠ TYPEFLAG_UNKNOWN)) :
    gnulong_apply ln ll nh = .fail
    ∨ ∃ r, gnulong_apply ln ll nh = .ok r ∧ r.name ≠ none ∧ 48 ≤ r.type.val
        ∧ r.type.val ≤ 55 := by
  unfold gnulong_apply
  rcases hnh with rfl | ⟨hn, h1, h2, h3⟩
  · left
    rw [if_pos (by decide)]
  · split
    · exact Or.inl rfl
    · rename_i hv
      right
      refine ⟨_, rfl, ?_, std_type_of_val_le _ h1 h2 h3 hv⟩
      cases ln with
      | none => exact hn
      | some n => exact Option.some_ne_none n

/-- What `parse_gnulong_headers` can produce when called on a long-name or
long-link header: false, or a record with a name and a standard type. -/
theorem parse_gnulong_headers_shape (f : FILE) (first : filedesc_t)
    (hfirst : first.type = TYPEFLAG_GNUK ∨ first.type = TYPEFLAG_GNUL) :
    (parse_gnulong_headers f first).1 = .fail
    ∨ ∃ r, (parse_gnulong_headers f first).1 = .ok r ∧ r.name ≠ none ∧ 48 ≤ r.type.val
        ∧ r.type.val ≤ 55 := by
  unfold parse_gnulong_headers
  rw [if_neg (not_not.mpr hfirst)]
  split
  · exact Or.inl rfl
  · rename_i hq
    exact absurd hq (read_gnulong_name_ne_abort _ _ _ _)
  · simp only
    split
    · exact Or.inl rfl
    · rename_i hq
      exact absurd hq (read_ustar_header_ne_abort _ _ _)
    · rename_i nh g2 hq
      have hs := read_ustar_header_ok_shape _ _ _ hq
      split
      · split
        · exact Or.inl rfl
        · split
          · exact Or.inl rfl
          · split
            · exact Or.inl rfl
            · split
              · exact Or.inl rfl
              · rename_i hq2
                exact absurd hq2 (read_gnulong_name_ne_abort _ _ _ _)
              · split
                · exact Or.inl rfl
                · rename_i hq3
                  exact absurd hq3 (read_ustar_header_ne_abort _ _ _)
                · rename_i nh3 g3 hq3
                  exact gnulong_apply_shape _ _ _ (read_ustar_header_ok_shape _ _ _ hq3)
      · exact gnulong_apply_shape _ _ _ hs

theorem canonicalize_paths_shape (file : filedesc_t) :
    canonicalize_paths file = .abort .canonicalize_name_null
    ∨ canonicalize_paths file = .abort .canonicalize_leading_slash
    ∨ ∃ r, canonicalize_paths file = .ok r ∧ r.type = file.type ∧ file.name ≠ none := by
  unfold canonicalize_paths
  cases hn : file.name with
  | none => exact Or.inl rfl
  | some name =>
    simp only
    by_cases hc : first_char (if first_char name = 47 then name.tail else name) = 47
    · rw [if_pos hc]
      exact Or.inr (Or.inl rfl)
    · rw [if_neg hc]
      exact Or.inr (Or.inr ⟨_, rfl, rfl, by simp⟩)

/-- What the switch on extended headers of `minutar_next_file` can produce
from a record read by `read_ustar_header`: false, the end-of-archive record,
or a record with a name and a standard type. -/
theorem next_file_extended_shape (f : FILE) (nf : filedesc_t)
    (hnf : nf = eoa_filedesc ∨ (nf.name ≠ none ∧ nf.type ≠ TYPEFLAG_AREG
        ∧ nf.type ≠ TYPEFLAG_EOA ∧ nf.type ≠ TYPEFLAG_UNKNOWN)) :
    (next_file_extended f nf).1 = .fail
    ∨ (next_file_extended f nf).1 = .ok eoa_filedesc
    ∨ ∃ r, (next_file_extended f nf).1 = .ok r ∧ r.name ≠ none ∧ 48 ≤ r.type.val
        ∧ r.type.val ≤ 55 := by
  unfold next_file_extended
  rcases hnf with rfl | ⟨hn, h1, h2, h3⟩
  · rw [if_neg (by decide)]
    exact Or.inr (Or.inl rfl)
  · split
    · rename_i hc
      split
      · rename_i ht
        rcases parse_gnulong_headers_shape f nf (Or.inr ht) with h | h
        · exact Or.inl h
        · exact Or.inr (Or.inr h)
      · rename_i ht
        rcases parse_gnulong_headers_shape f nf (Or.inl ht) with h | h
        · exact Or.inl h
        · exact Or.inr (Or.inr h)
      · exact Or.inl rfl
      · exact Or.inl rfl
      · rename_i hx1 hx2 hx3 hx4
        exfalso
        revert hc h1 h2 h3 hx1 hx2 hx3 hx4
        cases nf.type <;> simp [typeflag_t.val]
    · rename_i hc
      right; right
      refine ⟨nf, rfl, hn, ?_⟩
      apply std_type_of_val_le _ h1 h2 h3
      intro hv
      exact hc ⟨hv, h2⟩

/-- C9: whenever `minutar_next_file` returns true the type of the record is
one of `TYPEFLAG_REG`..`TYPEFLAG_CONT` or `TYPEFLAG_EOA`, so it is none of
`TYPEFLAG_AREG`, `TYPEFLAG_GNUK`, `TYPEFLAG_GNUL`, `TYPEFLAG_XHD`,
`TYPEFLAG_XGL`, `TYPEFLAG_UNKNOWN`; and on no stream does the assertion at
the end of `minutar_next_file`, or the `SUNREACHABLE` in its switch, fail. -/
theorem C9_returned_types (f : FILE) :
    (∀ r g, minutar_next_file f = (.ok r, g) →
        ((TYPEFLAG_REG.val ≤ r.type.val ∧ r.type.val ≤ TYPEFLAG_CONT.val)
          ∨ r.type = TYPEFLAG_EOA)
        ∧ r.type ∉ [TYPEFLAG_AREG, TYPEFLAG_GNUK, TYPEFLAG_GNUL, TYPEFLAG_XHD, TYPEFLAG_XGL,
            TYPEFLAG_UNKNOWN])
    ∧ (minutar_next_file f).1 ≠ .abort .next_file_type
    ∧ (minutar_next_file f).1 ≠ .abort .next_file_unreachable := by
  have key : (minutar_next_file f).1 = .fail
      ∨ (minutar_next_file f).1 = .abort .canonicalize_name_null
      ∨ (minutar_next_file f).1 = .abort .canonicalize_leading_slash
      ∨ ∃ r, (minutar_next_file f).1 = .ok r ∧ 48 ≤ r.type.val ∧ r.type.val ≤ 55 := by
    unfold minutar_next_file
    split
    · exact Or.inl rfl
    · rename_i hq
      exact absurd hq (read_ustar_header_ne_abort _ _ _)
    · rename_i nf g hq
      have hs := next_file_extended_shape g nf (read_ustar_header_ok_shape _ _ _ hq)
      split
      · exact Or.inl rfl
      · rename_i s g2 hq2
        rw [hq2] at hs
        rcases hs with h | h | ⟨r, h, -⟩ <;> cases h
      · rename_i nf2 g2 hq2
        rw [hq2] at hs
        simp only at hs
        rcases hs with h | h | ⟨r, h, hn, hv1, hv2⟩
        · cases h
        · injection h with h
          subst h
          exact Or.inr (Or.inl rfl)
        · injection h with h
          subst h
          rcases canonicalize_paths_shape nf2 with hc | hc | ⟨r2, hc, ht, -⟩
          · rw [hc]
            exact Or.inr (Or.inl rfl)
          · rw [hc]
            exact Or.inr (Or.inr (Or.inl rfl))
          · rw [hc]
            simp only
            rw [if_pos (Or.inl ⟨by rw [ht]; exact hv1, by rw [ht]; exact hv2⟩)]
            exact Or.inr (Or.inr (Or.inr ⟨_, rfl, by rw [ht]; exact hv1, by rw [ht]; exact hv2⟩))
  refine ⟨?_, ?_, ?_⟩
  · intro r g h
    have h1 : (minutar_next_file f).1 = .ok r := by rw [h]
    rcases key with k | k | k | ⟨r2, k, hv1, hv2⟩ <;> rw [k] at h1
    · cases h1
    · cases h1
    · cases h1
    · injection h1 with h1
      subst h1
      refine ⟨Or.inl ⟨hv1, hv2⟩, ?_⟩
      revert hv1 hv2
      cases r2.type <;> simp [typeflag_t.val]
  · intro h
    rcases key with k | k | k | ⟨r2, k, -⟩ <;> rw [k] at h <;> cases h
  · intro h
    rcases key with k | k | k | ⟨r2, k, -⟩ <;> rw [k] at h <;> cases h

/-! ## GNU long names -/

theorem parse_eoa_header_fail : parse_ustar_header TAR_EOA_HEADER = .fail := by decide!

/-- Reading a header block that `parse_ustar_header` accepts. -/
theorem read_ustar_header_of_block (f : FILE) (h : List Nat) (r : filedesc_t)
    (hb : (f.data.drop (512 * ((f.pos + 511) / 512))).take 512 = h) (hl : h.length = 512)
    (hp : parse_ustar_header h = .ok r) :
    read_ustar_header f = (.ok r, { data := f.data, pos := 512 * ((f.pos + 511) / 512) + 512 }) := by
  have hne : ¬ h = TAR_EOA_HEADER := by
    intro he
    rw [he, parse_eoa_header_fail] at hp
    cases hp
  unfold read_ustar_header
  simp only [align_stream_eq, fread_eq, TAR_BLOCKSIZE, hb, hl, hne, ne_eq, not_true_eq_false,
    if_false, hp]

theorem cstr_terminated (s t : List Nat) (hs : ∀ c ∈ s, c ≠ 0) : cstr (s ++ 0 :: t) = s := by
  unfold cstr
  induction s with
  | nil => simp
  | cons a l ih =>
    have ha : a ≠ 0 := hs a (List.mem_cons_self _ _)
    have hl : ∀ c ∈ l, c ≠ 0 := fun c hc => hs c (List.mem_cons_of_mem _ hc)
    simp only [List.cons_append, List.takeWhile_cons, bne_iff_ne, ne_eq, ha, not_false_eq_true,
      decide_True, if_true]
    rw [ih hl]

/-- Reading a payload that is the string `s` and its terminating NUL. -/
theorem read_gnulong_name_of_string (f : FILE) (s : List Nat)
    (hmax : s.length + 1 ≤ 0x100000)
    (hc : (f.data.drop f.pos).take (s.length + 1) = s ++ [0]) (hs : ∀ c ∈ s, c ≠ 0) :
    read_gnulong_name f (s.length + 1)
      = (.ok s, { data := f.data, pos := f.pos + (s.length + 1) }) := by
  unfold read_gnulong_name
  have h1 : ¬ s.length + 1 > 0x100000 := by omega
  have h2 : (s ++ [0]).length = s.length + 1 := by simp
  have h3 : cstr (s ++ [0] ++ [0]) = s := by
    rw [List.append_assoc]
    exact cstr_terminated s _ hs
  simp only [fread_eq, hc, h1, h2, h3, if_false, ne_eq, not_true_eq_false]

/-- C10 (amended): a valid GNU long-name header whose declared size is the
length of the string `s` plus one (at most 1 MiB), whose content region is
`s` followed by its NUL, and which is followed at the next block boundary by
a valid regular-file header, makes `minutar_next_file` return the record of
that header with its name replaced by `s`: by `s` itself when `s` does not
begin with `/`, and by `s` without its first character when `s` begins with
one `/` and not two.  The cursor is left after the second header. -/
theorem C10_long_name_override (f : FILE) (s h1 h2 : List Nat) (r1 r2 : filedesc_t)
    (q1 q2 : Nat) (hq1 : q1 = 512 * ((f.pos + 511) / 512))
    (hq2 : q2 = 512 * ((q1 + 512 + (s.length + 1) + 511) / 512))
    (hb1 : (f.data.drop q1).take 512 = h1) (hl1 : h1.length = 512)
    (hp1 : parse_ustar_header h1 = .ok r1) (ht1 : r1.type = TYPEFLAG_GNUL)
    (hsz : r1.size = s.length + 1) (hmax : s.length + 1 ≤ 0x100000)
    (hc : (f.data.drop (q1 + 512)).take (s.length + 1) = s ++ [0]) (hs : ∀ c ∈ s, c ≠ 0)
    (hb2 : (f.data.drop q2).take 512 = h2) (hl2 : h2.length = 512)
    (hp2 : parse_ustar_header h2 = .ok r2) (ht2 : r2.type = TYPEFLAG_REG)
    (hslash : ¬ (first_char s = 47 ∧ first_char s.tail = 47)) :
    minutar_next_file f =
      (.ok { r2 with name := some (if first_char s = 47 then s.tail else s) },
        { data := f.data, pos := q2 + 512 }) := by
  subst hq1
  have e1 := read_ustar_header_of_block f h1 r1 hb1 hl1 hp1
  have e2 := read_gnulong_name_of_string
    { data := f.data, pos := 512 * ((f.pos + 511) / 512) + 512 } s hmax hc hs
  have e3 := read_ustar_header_of_block
    { data := f.data, pos := 512 * ((f.pos + 511) / 512) + 512 + (s.length + 1) } h2 r2
    (by rw [← hq2]; exact hb2) hl2 hp2
  simp only at e2 e3
  rw [← hq2] at e3
  have hn2 : r2.name ≠ none := (parse_ok_shape h2 r2 hp2).1
  have e4 : parse_gnulong_headers { data := f.data, pos := 512 * ((f.pos + 511) / 512) + 512 } r1
      = (.ok { r2 with name := some s }, { data := f.data, pos := q2 + 512 }) := by
    unfold parse_gnulong_headers
    rw [if_neg (by rw [ht1]; decide), hsz, e2]
    simp only [e3]
    rw [if_neg (by rw [ht2]; decide)]
    unfold gnulong_apply
    rw [if_neg (by rw [ht2]; decide), if_neg hn2]
    simp [ht1]
  have e5 : next_file_extended { data := f.data, pos := 512 * ((f.pos + 511) / 512) + 512 } r1
      = (.ok { r2 with name := some s }, { data := f.data, pos := q2 + 512 }) := by
    unfold next_file_extended
    rw [if_pos (by rw [ht1]; decide)]
    rw [ht1]
    exact e4
  have e6 : canonicalize_paths { r2 with name := some s }
      = .ok { r2 with name := some (if first_char s = 47 then s.tail else s) } := by
    unfold canonicalize_paths
    simp only
    by_cases hf : first_char s = 47
    · have : ¬ first_char s.tail = 47 := fun h => hslash ⟨hf, h⟩
      simp [hf, this]
    · simp [hf]
  unfold minutar_next_file
  rw [e1]
  simp only [e5, e6]
  rw [if_pos (Or.inl (by rw [ht2]; decide))]

/-- The stream of the specification's example with the declared size 21:
the record returned carries the long name. -/
theorem C10_long_name_override_witness :
    minutar_next_file ⟨long_name_stream 21 (bytes "a/very/long/name.txt"), 0⟩ =
      (.ok { sample_regular_record with name := some (bytes "a/very/long/name.txt") },
        ⟨long_name_stream 21 (bytes "a/very/long/name.txt"), 1536⟩) :=
  C10_long_name_override ⟨long_name_stream 21 (bytes "a/very/long/name.txt"), 0⟩
    (bytes "a/very/long/name.txt") (long_name_header 21) sample_regular
    { name := some (bytes "././@LongLink"), linktarget := none, prefix_ := none,
      type := TYPEFLAG_GNUL, size := 21, mode := 0o644, mtime := 0, atime := 0, ctime := 0,
      devmajor := 0, devminor := 0 }
    sample_regular_record 0 1024 (by decide) (by decide!) (by decide!) (by decide!) (by decide!)
    (by decide) (by decide!) (by decide!) (by decide!) (by decide!) (by decide!) (by decide!)
    (by decide!) (by decide) (by decide!)

/-- C10 (as stated, refuted).  First, the example of the specification: the
long-name header declares size 22 while the content `a/very/long/name.txt`
with its NUL is 21 bytes; both headers are valid and the content region
starts with the string and its NUL, yet `minutar_next_file` returns false.
Second, with the content `/a` (declared size 3) the record returned has the
name `a`, which is not the content string. -/
theorem C10_name_is_not_always_content :
    ((bytes "a/very/long/name.txt" ++ [0]).length = 21
      ∧ parse_ustar_header ((long_name_stream 22 (bytes "a/very/long/name.txt")).take 512) = .ok
          { name := some (bytes "././@LongLink"), linktarget := none, prefix_ := none,
            type := TYPEFLAG_GNUL, size := 22, mode := 0o644, mtime := 0, atime := 0, ctime := 0,
            devmajor := 0, devminor := 0 }
      ∧ ((long_name_stream 22 (bytes "a/very/long/name.txt")).drop 512).take 21
          = bytes "a/very/long/name.txt" ++ [0]
      ∧ parse_ustar_header
          (((long_name_stream 22 (bytes "a/very/long/name.txt")).drop 1024).take 512)
          = .ok sample_regular_record
      ∧ (minutar_next_file ⟨long_name_stream 22 (bytes "a/very/long/name.txt"), 0⟩).1 = .fail)
    ∧ (parse_ustar_header ((long_name_stream 3 (bytes "/a")).take 512) = .ok
          { name := some (bytes "././@LongLink"), linktarget := none, prefix_ := none,
            type := TYPEFLAG_GNUL, size := 3, mode := 0o644, mtime := 0, atime := 0, ctime := 0,
            devmajor := 0, devminor := 0 }
      ∧ ((long_name_stream 3 (bytes "/a")).drop 512).take 3 = bytes "/a" ++ [0]
      ∧ parse_ustar_header (((long_name_stream 3 (bytes "/a")).drop 1024).take 512)
          = .ok sample_regular_record
      ∧ (minutar_next_file ⟨long_name_stream 3 (bytes "/a"), 0⟩).1
          = .ok { sample_regular_record with name := some (bytes "a") }
      ∧ bytes "a" ≠ bytes "/a") := by
  refine ⟨⟨by decide!, by decide!, by decide!, by decide!, by decide!⟩,
    ⟨by decide!, by decide!, by decide!, by decide!, by decide!⟩⟩

/-! ## Alternation of extension headers -/

/-- The second header of a chain is an extension header but not the other
one of the two GNU types: `parse_gnulong_headers` returns false. -/
theorem parse_gnulong_headers_bad_second (f g g2 : FILE) (first nh : filedesc_t) (p : List Nat)
    (hfirst : first.type = TYPEFLAG_GNUL ∨ first.type = TYPEFLAG_GNUK)
    (h1 : read_gnulong_name f first.size = (.ok p, g))
    (h2 : read_ustar_header g = (.ok nh, g2))
    (hext : nh.type.val > TYPEFLAG_CONT.val)
    (hbad : ¬ ((first.type = TYPEFLAG_GNUL ∧ nh.type = TYPEFLAG_GNUK)
      ∨ (first.type = TYPEFLAG_GNUK ∧ nh.type = TYPEFLAG_GNUL))) :
    parse_gnulong_headers f first = (.fail, g2) := by
  unfold parse_gnulong_headers
  rw [if_neg (by rcases hfirst with h | h <;> simp [h]), h1]
  simp only [h2]
  rw [if_pos hext]
  by_cases c1 : nh.type ≠ TYPEFLAG_GNUK ∧ nh.type ≠ TYPEFLAG_GNUL
  · rw [if_pos c1]
  · rw [if_neg c1]
    by_cases c2 : first.type = TYPEFLAG_GNUK ∧ nh.type ≠ TYPEFLAG_GNUL
    · rw [if_pos c2]
    · rw [if_neg c2]
      by_cases c3 : first.type = TYPEFLAG_GNUL ∧ nh.type ≠ TYPEFLAG_GNUK
      · rw [if_pos c3]
      · exfalso
        apply hbad
        rcases hfirst with h | h
        · left
          refine ⟨h, ?_⟩
          by_contra hk
          exact c3 ⟨h, hk⟩
        · right
          refine ⟨h, ?_⟩
          by_contra hk
          exact c2 ⟨h, hk⟩

/-- The second header of a chain is the other GNU type and the header after
its payload is again an extension header: `parse_gnulong_headers` returns false. -/
theorem parse_gnulong_headers_bad_third (f g g2 g3 g4 : FILE) (first nh nh3 : filedesc_t)
    (p p2 : List Nat)
    (h1 : read_gnulong_name f first.size = (.ok p, g))
    (h2 : read_ustar_header g = (.ok nh, g2))
    (hother : (first.type = TYPEFLAG_GNUL ∧ nh.type = TYPEFLAG_GNUK)
      ∨ (first.type = TYPEFLAG_GNUK ∧ nh.type = TYPEFLAG_GNUL))
    (h3 : read_gnulong_name g2 nh.size = (.ok p2, g3))
    (h4 : read_ustar_header g3 = (.ok nh3, g4))
    (hext3 : nh3.type.val > TYPEFLAG_CONT.val) :
    parse_gnulong_headers f first = (.fail, g4) := by
  unfold parse_gnulong_headers
  have hf : first.type = TYPEFLAG_GNUK ∨ first.type = TYPEFLAG_GNUL := by
    rcases hother with h | h
    · exact Or.inr h.1
    · exact Or.inl h.1
  have hext : nh.type.val > TYPEFLAG_CONT.val := by
    rcases hother with h | h <;> rw [h.2] <;> decide
  rw [if_neg (not_not.mpr hf), h1]
  simp only [h2]
  rw [if_pos hext]
  have c1 : ¬ (nh.type ≠ TYPEFLAG_GNUK ∧ nh.type ≠ TYPEFLAG_GNUL) := by
    rcases hother with h | h <;> simp [h.2]
  have c2 : ¬ (first.type = TYPEFLAG_GNUK ∧ nh.type ≠ TYPEFLAG_GNUL) := by
    rcases hother with h | h <;> simp [h.1, h.2]
  have c3 : ¬ (first.type = TYPEFLAG_GNUL ∧ nh.type ≠ TYPEFLAG_GNUK) := by
    rcases hother with h | h <;> simp [h.1, h.2]
  rw [if_neg c1, if_neg c2, if_neg c3, h3]
  simp only [h4]
  unfold gnulong_apply
  rw [if_pos hext3]

/-- The result of `minutar_next_file` when the first header is a GNU
long-name or long-link header and `parse_gnulong_headers` returns false. -/
theorem minutar_next_file_chain_fail (f0 f g : FILE) (first : filedesc_t)
    (h0 : read_ustar_header f0 = (.ok first, f))
    (hfirst : first.type = TYPEFLAG_GNUL ∨ first.type = TYPEFLAG_GNUK)
    (hp : parse_gnulong_headers f first = (.fail, g)) :
    minutar_next_file f0 = (.fail, g) := by
  unfold minutar_next_file
  rw [h0]
  simp only
  have he : next_file_extended f first = (.fail, g) := by
    unfold next_file_extended
    rcases hfirst with h | h
    · rw [if_pos (by rw [h]; decide), h]
      exact hp
    · rw [if_pos (by rw [h]; decide), h]
      exact hp
  rw [he]

/-- C11: when a valid GNU long-name or long-link header with a well-formed
payload is followed by a header of the same type, `parse_gnulong_headers` and
`minutar_next_file` return false; whenever `parse_gnulong_headers` returns
true after a second extension header, that header is the other one of the
two GNU types; and when the header after the second payload is again an
extension header, both functions return false. -/
theorem C11_alternation (f0 f g g2 : FILE) (first nh : filedesc_t) (p : List Nat)
    (h0 : read_ustar_header f0 = (.ok first, f))
    (hfirst : first.type = TYPEFLAG_GNUL ∨ first.type = TYPEFLAG_GNUK)
    (h1 : read_gnulong_name f first.size = (.ok p, g))
    (h2 : read_ustar_header g = (.ok nh, g2)) :
    (nh.type = first.type →
        parse_gnulong_headers f first = (.fail, g2) ∧ minutar_next_file f0 = (.fail, g2))
    ∧ (nh.type.val > TYPEFLAG_CONT.val → ∀ r g', parse_gnulong_headers f first = (.ok r, g') →
        (first.type = TYPEFLAG_GNUL ∧ nh.type = TYPEFLAG_GNUK)
          ∨ (first.type = TYPEFLAG_GNUK ∧ nh.type = TYPEFLAG_GNUL))
    ∧ (nh.type.val > TYPEFLAG_CONT.val → ∀ p2 g3 nh3 g4,
        read_gnulong_name g2 nh.size = (.ok p2, g3) → read_ustar_header g3 = (.ok nh3, g4) →
        nh3.type.val > TYPEFLAG_CONT.val →
        (parse_gnulong_headers f first).1 = .fail ∧ (minutar_next_file f0).1 = .fail) := by
  refine ⟨?_, ?_, ?_⟩
  · intro hsame
    have hext : nh.type.val > TYPEFLAG_CONT.val := by
      rcases hfirst with h | h <;> rw [hsame, h] <;> decide
    have hbad : ¬ ((first.type = TYPEFLAG_GNUL ∧ nh.type = TYPEFLAG_GNUK)
        ∨ (first.type = TYPEFLAG_GNUK ∧ nh.type = TYPEFLAG_GNUL)) := by
      rw [hsame]
      rcases hfirst with h | h <;> simp [h]
    have hp := parse_gnulong_headers_bad_second f g g2 first nh p hfirst h1 h2 hext hbad
    exact ⟨hp, minutar_next_file_chain_fail f0 f g2 first h0 hfirst hp⟩
  · intro hext r g' hr
    by_contra hbad
    rw [parse_gnulong_headers_bad_second f g g2 first nh p hfirst h1 h2 hext hbad] at hr
    cases hr
  · intro hext p2 g3 nh3 g4 h3 h4 hext3
    by_cases hother : (first.type = TYPEFLAG_GNUL ∧ nh.type = TYPEFLAG_GNUK)
        ∨ (first.type = TYPEFLAG_GNUK ∧ nh.type = TYPEFLAG_GNUL)
    · have hp := parse_gnulong_headers_bad_third f g g2 g3 g4 first nh nh3 p p2 h1 h2 hother h3
        h4 hext3
      have hm := minutar_next_file_chain_fail f0 f g4 first h0 hfirst hp
      rw [hp, hm]
      exact ⟨rfl, rfl⟩
    · have hp := parse_gnulong_headers_bad_second f g g2 first nh p hfirst h1 h2 hext hother
      have hm := minutar_next_file_chain_fail f0 f g2 first h0 hfirst hp
      rw [hp, hm]
      exact ⟨rfl, rfl⟩

/-- Two long-name headers in a row, each with a well-formed payload of 3 bytes. -/
theorem C11_alternation_witness :
    parse_gnulong_headers ⟨chain_stream 76 76 48, 512⟩ (extension_record 76 3)
        = (.fail, ⟨chain_stream 76 76 48, 1536⟩)
    ∧ minutar_next_file ⟨chain_stream 76 76 48, 0⟩ = (.fail, ⟨chain_stream 76 76 48, 1536⟩) :=
  (C11_alternation ⟨chain_stream 76 76 48, 0⟩ ⟨chain_stream 76 76 48, 512⟩
    ⟨chain_stream 76 76 48, 515⟩ ⟨chain_stream 76 76 48, 1536⟩ (extension_record 76 3)
    (extension_record 76 3) (bytes "ab") (by decide!) (by decide) (by decide!) (by decide!)).1 rfl

/-! ## PAX headers -/

/-- C12: a valid header of type `x` or `g` makes `minutar_next_file` return
false, when it is the header read first, when it is the second header of a
chain that starts with a GNU long-name or long-link header, and when it is
the header after the second payload of such a chain. -/
theorem C12_pax_rejected (f0 f : FILE) (first : filedesc_t)
    (h0 : read_ustar_header f0 = (.ok first, f)) :
    (first.type = TYPEFLAG_XHD ∨ first.type = TYPEFLAG_XGL → minutar_next_file f0 = (.fail, f))
    ∧ (first.type = TYPEFLAG_GNUL ∨ first.type = TYPEFLAG_GNUK → ∀ p g nh g2,
        read_gnulong_name f first.size = (.ok p, g) → read_ustar_header g = (.ok nh, g2) →
        (nh.type = TYPEFLAG_XHD ∨ nh.type = TYPEFLAG_XGL → minutar_next_file f0 = (.fail, g2))
        ∧ (∀ p2 g3 nh3 g4, nh.type.val > TYPEFLAG_CONT.val →
            read_gnulong_name g2 nh.size = (.ok p2, g3) → read_ustar_header g3 = (.ok nh3, g4) →
            nh3.type = TYPEFLAG_XHD ∨ nh3.type = TYPEFLAG_XGL →
            (minutar_next_file f0).1 = .fail)) := by
  refine ⟨?_, ?_⟩
  · intro hx
    unfold minutar_next_file
    rw [h0]
    simp only
    have he : next_file_extended f first = (.fail, f) := by
      unfold next_file_extended
      rcases hx with h | h <;> rw [if_pos (by rw [h]; decide), h]
    rw [he]
  · intro hfirst p g nh g2 h1 h2
    refine ⟨?_, ?_⟩
    · intro hx
      have hext : nh.type.val > TYPEFLAG_CONT.val := by
        rcases hx with h | h <;> rw [h] <;> decide
      have hbad : ¬ ((first.type = TYPEFLAG_GNUL ∧ nh.type = TYPEFLAG_GNUK)
          ∨ (first.type = TYPEFLAG_GNUK ∧ nh.type = TYPEFLAG_GNUL)) := by
        rcases hx with h | h <;> simp [h]
      exact minutar_next_file_chain_fail f0 f g2 first h0 hfirst
        (parse_gnulong_headers_bad_second f g g2 first nh p hfirst h1 h2 hext hbad)
    · intro p2 g3 nh3 g4 hext h3 h4 hx
      have hext3 : nh3.type.val > TYPEFLAG_CONT.val := by
        rcases hx with h | h <;> rw [h] <;> decide
      by_cases hother : (first.type = TYPEFLAG_GNUL ∧ nh.type = TYPEFLAG_GNUK)
          ∨ (first.type = TYPEFLAG_GNUK ∧ nh.type = TYPEFLAG_GNUL)
      · rw [minutar_next_file_chain_fail f0 f g4 first h0 hfirst
          (parse_gnulong_headers_bad_third f g g2 g3 g4 first nh nh3 p p2 h1 h2 hother h3 h4
            hext3)]
      · rw [minutar_next_file_chain_fail f0 f g2 first h0 hfirst
          (parse_gnulong_headers_bad_second f g g2 first nh p hfirst h1 h2 hext hother)]

/-- A PAX header read first; a PAX global header after a long-name payload;
and a PAX header after a long-name and a long-link payload. -/
theorem C12_pax_rejected_witness :
    minutar_next_file ⟨extension_header 120 0 ++ sample_regular, 0⟩
        = (.fail, ⟨extension_header 120 0 ++ sample_regular, 512⟩)
    ∧ minutar_next_file ⟨chain_stream 76 103 48, 0⟩ = (.fail, ⟨chain_stream 76 103 48, 1536⟩)
    ∧ (minutar_next_file ⟨chain_stream 76 75 120, 0⟩).1 = .fail :=
  ⟨(C12_pax_rejected ⟨extension_header 120 0 ++ sample_regular, 0⟩
      ⟨extension_header 120 0 ++ sample_regular, 512⟩ (extension_record 120 0)
      (by decide!)).1 (Or.inl (by decide)),
    ((C12_pax_rejected ⟨chain_stream 76 103 48, 0⟩ ⟨chain_stream 76 103 48, 512⟩
      (extension_record 76 3) (by decide!)).2 (Or.inl (by decide)) (bytes "ab")
      ⟨chain_stream 76 103 48, 515⟩ (extension_record 103 3) ⟨chain_stream 76 103 48, 1536⟩
      (by decide!) (by decide!)).1 (Or.inr (by decide)),
    ((C12_pax_rejected ⟨chain_stream 76 75 120, 0⟩ ⟨chain_stream 76 75 120, 512⟩
      (extension_record 76 3) (by decide!)).2 (Or.inl (by decide)) (bytes "ab")
      ⟨chain_stream 76 75 120, 515⟩ (extension_record 75 3) ⟨chain_stream 76 75 120, 1536⟩
      (by decide!) (by decide!)).2 (bytes "cd") ⟨chain_stream 76 75 120, 1539⟩
      { sample_regular_record with type := TYPEFLAG_XHD } ⟨chain_stream 76 75 120, 2560⟩
      (by decide) (by decide!) (by decide!) (Or.inl rfl)⟩

/-! ## The sanitizer -/

/-- The result of `canonicalize_paths` on a record with a name that does not
begin with two `/`. -/
theorem canonicalize_paths_eq (file : filedesc_t) (name : List Nat) (hn : file.name = some name)
    (h2 : ¬ (first_char name = 47 ∧ first_char name.tail = 47)) :
    canonicalize_paths file
      = .ok { file with name := some (if first_char name = 47 then name.tail else name) } := by
  unfold canonicalize_paths
  rw [hn]
  simp only
  by_cases hf : first_char name = 47
  · have : ¬ first_char name.tail = 47 := fun h => h2 ⟨hf, h⟩
    simp [hf, this]
  · simp [hf]

/-- A record that `canonicalize_paths` returns has a name that does not begin with `/`. -/
theorem canonicalize_paths_ok_name (file r : filedesc_t) (h : canonicalize_paths file = .ok r) :
    ∃ n, r.name = some n ∧ first_char n ≠ 47 := by
  unfold canonicalize_paths at h
  cases hn : file.name with
  | none =>
    rw [hn] at h
    cases h
  | some name =>
    rw [hn] at h
    simp only at h
    by_cases hc : first_char (if first_char name = 47 then name.tail else name) = 47
    · rw [if_pos hc] at h
      cases h
    · rw [if_neg hc] at h
      injection h with h
      subst h
      exact ⟨_, rfl, hc⟩

/-- C13 (amended): for every record whose name does not begin with two `/`,
`canonicalize_paths` completes and leaves the name equal to the input
without its first character when the input begins with `/`, and equal to the
input otherwise; the name left does not begin with `/`. -/
theorem C13_sanitizer_result (file : filedesc_t) (name : List Nat) (hn : file.name = some name)
    (h2 : ¬ (first_char name = 47 ∧ first_char name.tail = 47)) :
    canonicalize_paths file
        = .ok { file with name := some (if first_char name = 47 then name.tail else name) }
    ∧ (first_char name = 47 → ∃ c, name = c :: name.tail ∧ c = 47)
    ∧ first_char (if first_char name = 47 then name.tail else name) ≠ 47 := by
  refine ⟨canonicalize_paths_eq file name hn h2, ?_, ?_⟩
  · intro hf
    cases name with
    | nil => simp [first_char] at hf
    | cons c t => exact ⟨c, rfl, by simpa [first_char] using hf⟩
  · by_cases hf : first_char name = 47
    · rw [if_pos hf]
      exact fun h => h2 ⟨hf, h⟩
    · rw [if_neg hf]
      exact hf

/-- The names `/etc/passwd` and `short.txt`. -/
theorem C13_sanitizer_result_witness :
    canonicalize_paths { sample_regular_record with name := some (bytes "/etc/passwd") }
        = .ok { sample_regular_record with name := some (bytes "etc/passwd") }
    ∧ canonicalize_paths sample_regular_record = .ok sample_regular_record :=
  ⟨(C13_sanitizer_result { sample_regular_record with name := some (bytes "/etc/passwd") }
      (bytes "/etc/passwd") rfl (by decide)).1,
    (C13_sanitizer_result sample_regular_record (bytes "short.txt") rfl (by decide)).1⟩

/-- C13 (as stated, refuted): on the name `//x`, which begins with two `/`,
`canonicalize_paths` does not complete with the name `/x`: after removing the
first character it aborts on its assertion `file->name[0] != '/'`. -/
theorem C13_double_slash_aborts :
    canonicalize_paths { sample_regular_record with name := some (bytes "//x") }
      = .abort .canonicalize_leading_slash := by decide

/-- C14: every record `minutar_next_file` returns has a name, and the name
does not begin with `/`. -/
theorem C14_no_leading_separator (f g : FILE) (r : filedesc_t)
    (h : minutar_next_file f = (.ok r, g)) :
    ∃ n, r.name = some n ∧ first_char n ≠ 47 := by
  unfold minutar_next_file at h
  split at h
  · cases h
  · cases h
  · split at h
    · cases h
    · cases h
    · rename_i nf2 g2 hq2
      cases hc : canonicalize_paths nf2 with
      | fail =>
        rw [hc] at h
        cases h
      | abort s =>
        rw [hc] at h
        cases h
      | ok r2 =>
        rw [hc] at h
        simp only at h
        split at h
        · injection h with h1 h2
          injection h1 with h1
          subst h1
          exact canonicalize_paths_ok_name nf2 r2 hc
        · cases h

/-- A header whose name field holds `/etc/passwd` is returned with the name `etc/passwd`. -/
theorem C14_no_leading_separator_witness :
    minutar_next_file ⟨mk_header (bytes "/etc/passwd") 0o644 0 48 [], 0⟩
        = (.ok { sample_regular_record with name := some (bytes "etc/passwd") },
            ⟨mk_header (bytes "/etc/passwd") 0o644 0 48 [], 512⟩)
    ∧ ∃ n, (some (bytes "etc/passwd") : Option (List Nat)) = some n ∧ first_char n ≠ 47 :=
  ⟨by decide!, C14_no_leading_separator ⟨mk_header (bytes "/etc/passwd") 0o644 0 48 [], 0⟩
    ⟨mk_header (bytes "/etc/passwd") 0o644 0 48 [], 512⟩
    { sample_regular_record with name := some (bytes "etc/passwd") } (by decide!)⟩

/-! ## Empty names -/

/-- C15 (the code differs): a valid directory header whose name field holds
`/` is returned with the empty name, the sanitizer having removed the `/`;
and a GNU long-name header whose payload is the single NUL byte (declared
size 1) followed by a valid regular-file header is returned with the empty
name, the short name `short.txt` having been replaced. -/
theorem C15_empty_name_returned :
    minutar_next_file ⟨mk_header (bytes "/") 0o755 0 53 [], 0⟩
        = (.ok { name := some [], linktarget := none, prefix_ := none, type := TYPEFLAG_DIR,
                 size := 0, mode := 0o755, mtime := 0, atime := 0, ctime := 0, devmajor := 0,
                 devminor := 0 },
            ⟨mk_header (bytes "/") 0o755 0 53 [], 512⟩)
    ∧ minutar_next_file ⟨long_name_stream 1 [], 0⟩
        = (.ok { sample_regular_record with name := some [] }, ⟨long_name_stream 1 [], 1536⟩) := by
  refine ⟨by decide!, by decide!⟩

/-! ## Link targets -/

theorem canonicalize_paths_ok_fields (file r : filedesc_t) (h : canonicalize_paths file = .ok r) :
    r.linktarget = file.linktarget ∧ r.type = file.type := by
  unfold canonicalize_paths at h
  cases hn : file.name with
  | none =>
    rw [hn] at h
    cases h
  | some name =>
    rw [hn] at h
    simp only at h
    by_cases hc : first_char (if first_char name = 47 then name.tail else name) = 47
    · rw [if_pos hc] at h
      cases h
    · rw [if_neg hc] at h
      injection h with h
      subst h
      exact ⟨rfl, rfl⟩

/-- What `minutar_next_file` returns is what `canonicalize_paths` makes of
the record the extended-header switch produced. -/
theorem minutar_next_file_ok (f0 f g g' : FILE) (first nf r : filedesc_t)
    (h0 : read_ustar_header f0 = (.ok first, f))
    (he : next_file_extended f first = (.ok nf, g))
    (h : minutar_next_file f0 = (.ok r, g')) :
    canonicalize_paths nf = .ok r ∧ g' = g := by
  unfold minutar_next_file at h
  rw [h0] at h
  simp only [he] at h
  cases hc : canonicalize_paths nf with
  | fail =>
    rw [hc] at h
    cases h
  | abort s =>
    rw [hc] at h
    cases h
  | ok r2 =>
    rw [hc] at h
    simp only at h
    split at h
    · injection h with h1 h2
      injection h1 with h1
      exact ⟨by rw [h1], h2.symm⟩
    · cases h

/-- The record of a GNU long-link chain: the payload `s` is the link target. -/
theorem parse_gnulong_headers_link (f : FILE) (s h2 : List Nat) (r1 r2 : filedesc_t)
    (q2 : Nat) (hq2 : q2 = 512 * ((f.pos + (s.length + 1) + 511) / 512))
    (ht1 : r1.type = TYPEFLAG_GNUK) (hsz : r1.size = s.length + 1)
    (hmax : s.length + 1 ≤ 0x100000)
    (hc : (f.data.drop f.pos).take (s.length + 1) = s ++ [0]) (hs : ∀ c ∈ s, c ≠ 0)
    (hb2 : (f.data.drop q2).take 512 = h2) (hl2 : h2.length = 512)
    (hp2 : parse_ustar_header h2 = .ok r2) (ht2 : r2.type.val ≤ TYPEFLAG_CONT.val) :
    parse_gnulong_headers f r1
      = (.ok { r2 with linktarget := some s }, { data := f.data, pos := q2 + 512 }) := by
  have e2 := read_gnulong_name_of_string f s hmax hc hs
  have e3 := read_ustar_header_of_block
    { data := f.data, pos := f.pos + (s.length + 1) } h2 r2
    (by rw [← hq2]; exact hb2) hl2 hp2
  simp only at e3
  rw [← hq2] at e3
  have hn2 : r2.name ≠ none := (parse_ok_shape h2 r2 hp2).1
  unfold parse_gnulong_headers
  rw [if_neg (by rw [ht1]; decide), hsz, e2]
  simp only [e3]
  rw [if_neg (by omega)]
  unfold gnulong_apply
  rw [if_neg (by omega), if_neg hn2]
  simp [ht1]

/-- With a name, `extract_file_contents` returns true or false. -/
theorem extract_file_contents_ne_abort {σ : Type} (os : OS σ) (st : σ) (tf : FILE)
    (file : filedesc_t) (name : List Nat) (hn : file.name = some name) (s : Site) :
    (extract_file_contents os st tf file).1 ≠ .abort s := by
  unfold extract_file_contents
  rw [hn]
  simp only
  repeat' split
  all_goals simp

/-- C16 (as stated, refuted): a valid regular-file header whose link-name
field holds `x` is returned with a link target though its type is regular
file; a valid hard-link header whose link-name field is empty is returned
without a link target, and on that record `extract_file` aborts on its
assertion `file.linktarget != NULL`, as does `minutar_extract_all` on the
archive that holds the header. -/
theorem C16_link_target_not_by_type :
    minutar_next_file ⟨mk_header (bytes "f") 0o644 0 48 (bytes "x"), 0⟩
        = (.ok { sample_regular_record with
                  name := some (bytes "f"), linktarget := some (bytes "x") },
            ⟨mk_header (bytes "f") 0o644 0 48 (bytes "x"), 512⟩)
    ∧ minutar_next_file ⟨mk_header (bytes "l") 0o644 0 49 [] ++ List.replicate 1024 0, 0⟩
        = (.ok { sample_regular_record with name := some (bytes "l"), type := TYPEFLAG_LNK },
            ⟨mk_header (bytes "l") 0o644 0 49 [] ++ List.replicate 1024 0, 512⟩)
    ∧ (extract_file sim_os (sim_empty [])
          ⟨mk_header (bytes "l") 0o644 0 49 [] ++ List.replicate 1024 0, 512⟩
          { sample_regular_record with name := some (bytes "l"), type := TYPEFLAG_LNK }).1
        = .abort .extract_link_target_null
    ∧ minutar_extract_all sim_os (sim_empty [])
          ⟨mk_header (bytes "l") 0o644 0 49 [] ++ List.replicate 1024 0, 0⟩
        = some (.abort .extract_link_target_null, sim_empty [],
            ⟨mk_header (bytes "l") 0o644 0 49 [] ++ List.replicate 1024 0, 512⟩) := by
  refine ⟨by decide!, by decide!, by decide!, by decide!⟩

/-! ## The walker -/

/-- When the first call of `minutar_next_file` returns false, the loop of
`minutar_extract_all` ends with `all_ok` still true. -/
theorem extract_all_first_fail {σ : Type} (os : OS σ) (st : σ) (f g : FILE)
    (h : minutar_next_file f = (.fail, g)) :
    minutar_extract_all os st f = some (.ok (), st, g) := by
  unfold minutar_extract_all extract_all_loop
  rw [h]
  rfl

/-- C17 (the code differs): on every stream on which the first call of
`minutar_next_file` returns false, `minutar_extract_all` returns true,
whatever the file system does; so it does on the empty stream and on a stream
whose only block is a header with a wrong magic. -/
theorem C17_framing_error_returns_true :
    (∀ (σ : Type) (os : OS σ) (st : σ) (f g : FILE), minutar_next_file f = (.fail, g) →
        minutar_extract_all os st f = some (.ok (), st, g))
    ∧ minutar_next_file ⟨[], 0⟩ = (.fail, ⟨[], 0⟩)
    ∧ minutar_extract_all sim_os (sim_empty []) ⟨[], 0⟩ = some (.ok (), sim_empty [], ⟨[], 0⟩)
    ∧ parse_ustar_header (sample_regular.set 257 85) = .fail
    ∧ minutar_next_file ⟨sample_regular.set 257 85, 0⟩ = (.fail, ⟨sample_regular.set 257 85, 512⟩)
    ∧ minutar_extract_all sim_os (sim_empty []) ⟨sample_regular.set 257 85, 0⟩
        = some (.ok (), sim_empty [], ⟨sample_regular.set 257 85, 512⟩) := by
  refine ⟨fun σ os st f g h => extract_all_first_fail os st f g h, by decide!, by decide!,
    by decide!, by decide!, by decide!⟩

/-- The result of `extract_file` on a regular or contiguous file is the
opposite of the result of `extract_file_contents`. -/
theorem extract_file_regular {σ : Type} (os : OS σ) (st : σ) (tf : FILE) (file : filedesc_t)
    (name : List Nat) (hn : file.name = some name)
    (ht : file.type = TYPEFLAG_REG ∨ file.type = TYPEFLAG_CONT) :
    extract_file os st tf file =
      match extract_file_contents os st tf file with
      | (.ok (), st, tarfile) => (.fail, st, tarfile)
      | (.fail, st, tarfile) => (.ok (), st, tarfile)
      | (.abort s, st, tarfile) => (.abort s, st, tarfile) := by
  unfold extract_file
  rw [hn]
  rcases ht with h | h <;> rw [h]

/-- C18 (the code differs): for a regular or contiguous file with a name,
`extract_file` returns false when `extract_file_contents` returns true and
true when it returns false.  On the archive with directory `out/` and file
`out/hello.txt` and a file system on which every call succeeds, the file is
written with its 3 bytes and `extract_file` returns false; the walk does not
return true (it ends in the abort at the end of the archive). -/
theorem C18_success_reported_as_failure :
    (∀ (σ : Type) (os : OS σ) (st : σ) (tf : FILE) (file : filedesc_t) (name : List Nat),
        file.name = some name → file.type = TYPEFLAG_REG ∨ file.type = TYPEFLAG_CONT →
        ((extract_file_contents os st tf file).1 = .ok () → (extract_file os st tf file).1 = .fail)
        ∧ ((extract_file_contents os st tf file).1 = .fail →
            (extract_file os st tf file).1 = .ok ()))
    ∧ minutar_next_file ⟨archive_out_hello, 512⟩
        = (.ok { sample_regular_record with name := some (bytes "out/hello.txt"), size := 3 },
            ⟨archive_out_hello, 1024⟩)
    ∧ extract_file_contents sim_os { sim_empty [] with dirs := [bytes "out"] }
          ⟨archive_out_hello, 1024⟩
          { sample_regular_record with name := some (bytes "out/hello.txt"), size := 3 }
        = (.ok (), { sim_empty [] with
                      dirs := [bytes "out"], files := [(bytes "out/hello.txt", bytes "hi\n")] },
            ⟨archive_out_hello, 1027⟩)
    ∧ extract_file sim_os { sim_empty [] with dirs := [bytes "out"] } ⟨archive_out_hello, 1024⟩
          { sample_regular_record with name := some (bytes "out/hello.txt"), size := 3 }
        = (.fail, { sim_empty [] with
                      dirs := [bytes "out"], files := [(bytes "out/hello.txt", bytes "hi\n")] },
            ⟨archive_out_hello, 1027⟩)
    ∧ minutar_extract_all sim_os (sim_empty []) ⟨archive_out_hello, 0⟩
        = some (.abort .canonicalize_name_null,
            { sim_empty [] with
                dirs := [bytes "out"], files := [(bytes "out/hello.txt", bytes "hi\n")] },
            ⟨archive_out_hello, 2560⟩) := by
  refine ⟨?_, by decide!, by decide!, by decide!, by decide!⟩
  intro σ os st tf file name hn ht
  rw [extract_file_regular os st tf file name hn ht]
  constructor
  · intro h
    rcases hc : extract_file_contents os st tf file with ⟨o, st2, tf2⟩
    rw [hc] at h
    simp only at h
    subst h
    rfl
  · intro h
    rcases hc : extract_file_contents os st tf file with ⟨o, st2, tf2⟩
    rw [hc] at h
    simp only at h
    subst h
    rfl

/-- When the output file cannot be created, `extract_file_contents` returns
false and `extract_file` returns true, neither having read from the stream. -/
theorem extract_file_fopen_fails {σ : Type} (os : OS σ) (st : σ) (tf : FILE) (file : filedesc_t)
    (name : List Nat) (hn : file.name = some name)
    (ht : file.type = TYPEFLAG_REG ∨ file.type = TYPEFLAG_CONT)
    (hopen : os.fopen_wb st name = none) :
    extract_file_contents os st tf file = (.fail, st, tf)
    ∧ extract_file os st tf file = (.ok (), st, tf) := by
  have hc : extract_file_contents os st tf file = (.fail, st, tf) := by
    unfold extract_file_contents
    rw [hn]
    simp only [hopen]
  refine ⟨hc, ?_⟩
  rw [extract_file_regular os st tf file name hn ht, hc]

/-- C19 (the code differs): the content of a record that is not extracted is
not skipped.  For every file system on which the output file of a regular
file cannot be created, `extract_file` leaves the cursor where it was, at the
start of the content.  On the archive of two regular files `a.txt` and
`b.txt` of 3 bytes each, with creation failing at `a.txt`: the header of
`b.txt` is the valid block at offset 1024, the walker reads its next header
at offset 512, the content block of `a.txt`, `minutar_next_file` returns
false there, and the walk ends (returning true) without having created
`b.txt`.  With directory creation failing instead (`d/a.txt` with `d`
denied) the walk ends the same way, returning false. -/
theorem C19_content_not_skipped :
    (∀ (σ : Type) (os : OS σ) (st : σ) (tf : FILE) (file : filedesc_t) (name : List Nat),
        file.name = some name → file.type = TYPEFLAG_REG ∨ file.type = TYPEFLAG_CONT →
        os.fopen_wb st name = none → extract_file os st tf file = (.ok (), st, tf))
    ∧ minutar_next_file ⟨archive_two_files (bytes "a.txt") (bytes "b.txt"), 0⟩
        = (.ok { sample_regular_record with name := some (bytes "a.txt"), size := 3 },
            ⟨archive_two_files (bytes "a.txt") (bytes "b.txt"), 512⟩)
    ∧ parse_ustar_header (((archive_two_files (bytes "a.txt") (bytes "b.txt")).drop 1024).take 512)
        = .ok { sample_regular_record with name := some (bytes "b.txt"), size := 3 }
    ∧ extract_file sim_os (sim_empty [bytes "a.txt"])
          ⟨archive_two_files (bytes "a.txt") (bytes "b.txt"), 512⟩
          { sample_regular_record with name := some (bytes "a.txt"), size := 3 }
        = (.ok (), sim_empty [bytes "a.txt"],
            ⟨archive_two_files (bytes "a.txt") (bytes "b.txt"), 512⟩)
    ∧ minutar_next_file ⟨archive_two_files (bytes "a.txt") (bytes "b.txt"), 512⟩
        = (.fail, ⟨archive_two_files (bytes "a.txt") (bytes "b.txt"), 1024⟩)
    ∧ minutar_extract_all sim_os (sim_empty [bytes "a.txt"])
          ⟨archive_two_files (bytes "a.txt") (bytes "b.txt"), 0⟩
        = some (.ok (), sim_empty [bytes "a.txt"],
            ⟨archive_two_files (bytes "a.txt") (bytes "b.txt"), 1024⟩)
    ∧ minutar_extract_all sim_os (sim_empty [bytes "d"])
          ⟨archive_two_files (bytes "d/a.txt") (bytes "b.txt"), 0⟩
        = some (.fail, sim_empty [bytes "d"],
            ⟨archive_two_files (bytes "d/a.txt") (bytes "b.txt"), 1024⟩) := by
  refine ⟨?_, by decide!, by decide!, by decide!, by decide!, by decide!, by decide!⟩
  intro σ os st tf file name hn ht hopen
  exact (extract_file_fopen_fails os st tf file name hn ht hopen).2

/-! ## Truncated headers -/

/-- Fewer than 512 bytes at the block-aligned offset: `read_ustar_header`
returns false after the short read. -/
theorem read_ustar_header_short (f : FILE) (hshort : f.data.length < 512 * ((f.pos + 511) / 512) + 512) :
    read_ustar_header f = (.fail, { data := f.data, pos := 512 * ((f.pos + 511) / 512)
      + (f.data.length - 512 * ((f.pos + 511) / 512)) }) := by
  unfold read_ustar_header
  have hlen : ((f.data.drop (512 * ((f.pos + 511) / 512))).take 512).length
      = f.data.length - 512 * ((f.pos + 511) / 512) := by
    rw [List.length_take, List.length_drop]
    omega
  simp only [align_stream_eq, fread_eq, TAR_BLOCKSIZE, hlen]
  rw [if_pos (by omega)]

/-- C20: when fewer than 512 bytes are left at the block-aligned read
position, `read_ustar_header` returns false; and whenever
`read_ustar_header` does not return true, the caller's output record is as
it was before the call. -/
theorem C20_truncated_header (f : FILE) (out : filedesc_t) (q : Nat)
    (hq : q = 512 * ((f.pos + 511) / 512)) (hshort : f.data.length < q + 512) :
    (read_ustar_header f).1 = .fail
    ∧ read_ustar_header_call f out
        = (.fail, out, { data := f.data, pos := q + (f.data.length - q) })
    ∧ (∀ (g : FILE) (o : filedesc_t), (read_ustar_header_call g o).1 ≠ .ok () →
        (read_ustar_header_call g o).2.1 = o) := by
  subst hq
  have h := read_ustar_header_short f hshort
  refine ⟨by rw [h], ?_, ?_⟩
  · unfold read_ustar_header_call
    rw [h]
  · intro g o hne
    unfold read_ustar_header_call at hne ⊢
    split
    · rename_i heq
      rw [heq] at hne
      exact absurd rfl hne
    · rfl
    · rfl

/-- A stream that ends after 511 bytes of a header. -/
theorem C20_truncated_header_witness :
    (sample_regular.take 511).length = 511
    ∧ (read_ustar_header ⟨sample_regular.take 511, 0⟩).1 = .fail :=
  ⟨by decide!,
    (C20_truncated_header ⟨sample_regular.take 511, 0⟩ eoa_filedesc 0 (by decide!)
      (by decide!)).1⟩

/-! ## The loops end within their bounds -/

/-- The copy loop ends within a bound above `bytes_left / 1024`. -/
theorem copy_loop_total {σ : Type} (os : OS σ) (name : List Nat) (fuel : Nat) (st : σ)
    (tf : FILE) (bytes_left : Nat) (h : bytes_left / 1024 < fuel) :
    (copy_loop os name fuel st tf bytes_left).isSome = true := by
  induction fuel generalizing st tf bytes_left with
  | zero => omega
  | succ n ih =>
    unfold copy_loop
    split
    · simp only
      split
      · rfl
      · split
        · rfl
        · apply ih
          omega
    · rfl

theorem fread_advances (f : FILE) (n : Nat) :
    (fread f n).2.data = f.data ∧ f.pos ≤ (fread f n).2.pos
      ∧ (f.pos ≤ f.data.length → (fread f n).2.pos ≤ f.data.length) := by
  rw [fread_eq]
  simp only [List.length_take, List.length_drop]
  refine ⟨?_, ?_, ?_⟩ <;> first | trivial | rfl | omega

/-- A successful `read_ustar_header` has read at least one block of the data. -/
theorem read_ustar_header_ok_progress (f g : FILE) (r : filedesc_t)
    (h : read_ustar_header f = (.ok r, g)) :
    g.data = f.data ∧ f.pos + 512 ≤ g.pos ∧ g.pos ≤ f.data.length := by
  unfold read_ustar_header at h
  simp only [align_stream_eq, fread_eq, TAR_BLOCKSIZE, List.length_take, List.length_drop] at h
  split at h
  · cases h
  · rename_i h1
    split at h
    · split at h
      · cases h
      · rename_i h2
        split at h
        · cases h
        · injection h with _ h
          subst h
          simp only
          refine ⟨?_, ?_, ?_⟩ <;> first | trivial | rfl | omega
    · injection h with _ h
      subst h
      simp only
      refine ⟨?_, ?_, ?_⟩ <;> first | trivial | rfl | omega

theorem read_gnulong_name_advances (f g : FILE) (n : Nat) (o : Outcome (List Nat))
    (h : read_gnulong_name f n = (o, g)) :
    g.data = f.data ∧ f.pos ≤ g.pos ∧ (f.pos ≤ f.data.length → g.pos ≤ f.data.length) := by
  have ha := fread_advances f n
  unfold read_gnulong_name at h
  split at h
  · injection h with _ h
    subst h
    exact ⟨rfl, le_refl _, fun x => x⟩
  · simp only at h
    split at h
    · injection h with _ h
      subst h
      exact ha
    · split at h
      · injection h with _ h
        subst h
        exact ha
      · injection h with _ h
        subst h
        exact ha

theorem parse_gnulong_headers_ok_progress (f g : FILE) (first r : filedesc_t)
    (h : parse_gnulong_headers f first = (.ok r, g)) :
    g.data = f.data ∧ f.pos ≤ g.pos ∧ g.pos ≤ f.data.length := by
  unfold parse_gnulong_headers at h
  split at h
  · cases h
  · split at h
    · cases h
    · cases h
    · rename_i p g1 hq1
      obtain ⟨d1, p1, -⟩ := read_gnulong_name_advances _ _ _ _ hq1
      simp only at h
      split at h
      · cases h
      · cases h
      · rename_i nh g2 hq2
        obtain ⟨d2, p2, l2⟩ := read_ustar_header_ok_progress _ _ _ hq2
        split at h
        · split at h
          · cases h
          · split at h
            · cases h
            · split at h
              · cases h
              · split at h
                · cases h
                · cases h
                · rename_i p3 g3 hq3
                  obtain ⟨d3, p3', -⟩ := read_gnulong_name_advances _ _ _ _ hq3
                  split at h
                  · cases h
                  · cases h
                  · rename_i nh4 g4 hq4
                    obtain ⟨d4, p4, l4⟩ := read_ustar_header_ok_progress _ _ _ hq4
                    injection h with _ h
                    subst h
                    rw [d3, d2, d1] at d4 l4
                    exact ⟨d4, by omega, l4⟩
        · injection h with _ h
          subst h
          rw [d1] at d2 l2
          exact ⟨d2, by omega, l2⟩

/-- A successful `minutar_next_file` has read at least one block of the data. -/
theorem minutar_next_file_ok_progress (f g : FILE) (r : filedesc_t)
    (h : minutar_next_file f = (.ok r, g)) :
    g.data = f.data ∧ f.pos + 512 ≤ g.pos ∧ g.pos ≤ f.data.length := by
  unfold minutar_next_file at h
  split at h
  · cases h
  · cases h
  · rename_i nf g1 hq1
    obtain ⟨d1, p1, l1⟩ := read_ustar_header_ok_progress _ _ _ hq1
    split at h
    · cases h
    · cases h
    · rename_i nf2 g2 hq2
      have hg2 : g2.data = f.data ∧ f.pos + 512 ≤ g2.pos ∧ g2.pos ≤ f.data.length := by
        unfold next_file_extended at hq2
        split at hq2
        · split at hq2
          · obtain ⟨d, p, l⟩ := parse_gnulong_headers_ok_progress _ _ _ _ hq2
            rw [d1] at d l
            exact ⟨d, by omega, l⟩
          · obtain ⟨d, p, l⟩ := parse_gnulong_headers_ok_progress _ _ _ _ hq2
            rw [d1] at d l
            exact ⟨d, by omega, l⟩
          · cases hq2
          · cases hq2
          · cases hq2
        · injection hq2 with _ hq2
          subst hq2
          exact ⟨d1, p1, l1⟩
      split at h
      · cases h
      · cases h
      · split at h
        · injection h with _ h
          subst h
          exact hg2
        · cases h

theorem copy_loop_advances {σ : Type} (os : OS σ) (name : List Nat) (fuel : Nat) (st st' : σ)
    (tf tf' : FILE) (n n' : Nat) (b : Bool)
    (h : copy_loop os name fuel st tf n = some (b, st', tf', n')) :
    tf'.data = tf.data ∧ tf.pos ≤ tf'.pos
      ∧ (tf.pos ≤ tf.data.length → tf'.pos ≤ tf.data.length) := by
  induction fuel generalizing st tf n with
  | zero =>
    unfold copy_loop at h
    cases h
  | succ k ih =>
    have ha := fread_advances tf 1024
    unfold copy_loop at h
    split at h
    · simp only at h
      split at h
      · injection h with h
        injection h with _ h
        injection h with _ h
        injection h with h _
        subst h
        exact ha
      · split at h
        · injection h with h
          injection h with _ h
          injection h with _ h
          injection h with h _
          subst h
          exact ha
        · obtain ⟨d, p, l⟩ := ih _ _ _ h
          obtain ⟨d0, p0, l0⟩ := ha
          rw [d0] at d l
          exact ⟨d, by omega, fun hx => l (l0 hx)⟩
    · injection h with h
      injection h with _ h
      injection h with _ h
      injection h with h _
      subst h
      exact ⟨rfl, le_refl _, fun x => x⟩

/-- The stream after `extract_file_contents`: same data, cursor not moved
back and not moved past the end of the data. -/
theorem extract_file_contents_advances {σ : Type} (os : OS σ) (st : σ) (tf : FILE)
    (file : filedesc_t) :
    (extract_file_contents os st tf file).2.2.data = tf.data
      ∧ tf.pos ≤ (extract_file_contents os st tf file).2.2.pos
      ∧ (tf.pos ≤ tf.data.length →
          (extract_file_contents os st tf file).2.2.pos ≤ tf.data.length) := by
  have triv : tf.data = tf.data ∧ tf.pos ≤ tf.pos
      ∧ (tf.pos ≤ tf.data.length → tf.pos ≤ tf.data.length) := ⟨rfl, le_refl _, fun x => x⟩
  unfold extract_file_contents
  split
  · exact triv
  · split
    · exact triv
    · split
      · exact triv
      · split
        · split
          · exact triv
          · rename_i hq
            exact copy_loop_advances _ _ _ _ _ _ _ _ _ _ hq
          · rename_i st2 tf2 bl hq
            obtain ⟨d, p, l⟩ := copy_loop_advances _ _ _ _ _ _ _ _ _ _ hq
            obtain ⟨d0, p0, l0⟩ := fread_advances tf2 bl
            rw [d] at d0 l0
            have hall : (fread tf2 bl).2.data = tf.data ∧ tf.pos ≤ (fread tf2 bl).2.pos
                ∧ (tf.pos ≤ tf.data.length → (fread tf2 bl).2.pos ≤ tf.data.length) :=
              ⟨d0, by omega, fun hx => l0 (l hx)⟩
            simp only
            split
            · exact hall
            · split
              · exact hall
              · exact hall
        · exact triv

theorem extract_file_advances {σ : Type} (os : OS σ) (st : σ) (tf : FILE) (file : filedesc_t) :
    (extract_file os st tf file).2.2.data = tf.data
      ∧ tf.pos ≤ (extract_file os st tf file).2.2.pos
      ∧ (tf.pos ≤ tf.data.length → (extract_file os st tf file).2.2.pos ≤ tf.data.length) := by
  have triv : tf.data = tf.data ∧ tf.pos ≤ tf.pos
      ∧ (tf.pos ≤ tf.data.length → tf.pos ≤ tf.data.length) := ⟨rfl, le_refl _, fun x => x⟩
  have hc := extract_file_contents_advances os st tf file
  unfold extract_file
  split
  · exact triv
  · split
    · split
      · exact triv
      · split <;> exact triv
    · split
      · exact triv
      · split <;> exact triv
    · split
      · exact triv
      · split <;> exact triv
    · split
      · rename_i hq
        rw [hq] at hc
        exact hc
      · rename_i hq
        rw [hq] at hc
        exact hc
      · rename_i hq
        rw [hq] at hc
        exact hc
    · split
      · rename_i hq
        rw [hq] at hc
        exact hc
      · rename_i hq
        rw [hq] at hc
        exact hc
      · rename_i hq
        rw [hq] at hc
        exact hc
    · unfold extract_mknod
      split <;> exact triv
    · unfold extract_mknod
      split <;> exact triv
    · unfold extract_mknod
      split <;> exact triv
    · exact triv

/-- The loop of `minutar_extract_all` ends within a bound above the number
of blocks between the cursor and the end of the data. -/
theorem extract_all_loop_total {σ : Type} (os : OS σ) (fuel : Nat) (st : σ) (f : FILE)
    (all_ok : Bool) (h : (f.data.length - f.pos) / 512 < fuel) :
    (extract_all_loop os fuel st f all_ok).isSome = true := by
  induction fuel generalizing st f all_ok with
  | zero => omega
  | succ n ih =>
    unfold extract_all_loop
    split
    · rfl
    · rfl
    · rename_i nf g hq
      obtain ⟨d, p, l⟩ := minutar_next_file_ok_progress _ _ _ hq
      have hstep : ∀ (st2 : σ) (b : Bool) (x : Outcome Unit × σ × FILE),
          extract_file os st2 g nf = x → (extract_all_loop os n x.2.1 x.2.2 b).isSome = true := by
        intro st2 b x hx
        obtain ⟨d2, p2, l2⟩ := extract_file_advances os st2 g nf
        rw [hx] at d2 p2 l2
        apply ih
        rw [d2, d]
        have := l2 (by rw [d]; exact l)
        rw [d] at this
        omega
      split
      · rfl
      · split
        · rfl
        · split
          · apply ih
            rw [d]
            omega
          · split
            · rfl
            · rename_i hx
              exact hstep _ false _ hx
            · rename_i hx
              exact hstep _ all_ok _ hx
        · split
          · rfl
          · rename_i hx
            exact hstep _ false _ hx
          · rename_i hx
            exact hstep _ all_ok _ hx

/-- The function `minutar_extract_all` ends on every stream, for every file
system: it returns true or false, or aborts. -/
theorem minutar_extract_all_total {σ : Type} (os : OS σ) (st : σ) (f : FILE) :
    (minutar_extract_all os st f).isSome = true := by
  unfold minutar_extract_all
  apply extract_all_loop_total
  have : (f.data.length - f.pos) / 512 ≤ f.data.length := by
    calc (f.data.length - f.pos) / 512 ≤ f.data.length - f.pos := Nat.div_le_self _ _
      _ ≤ f.data.length := Nat.sub_le _ _
  omega

/-- The copy loop of `extract_file_contents` ends within the bound it is run with. -/
theorem extract_copy_loop_total {σ : Type} (os : OS σ) (name : List Nat) (st : σ) (tf : FILE)
    (size : Nat) : (copy_loop os name (size + 1) st tf size).isSome = true := by
  apply copy_loop_total
  have : size / 1024 ≤ size := Nat.div_le_self _ _
  omega

/-! ## Block alignment -/

/-- A successful read of a header that is not the end-of-archive record: the
record is decoded from the block at the aligned offset and the cursor is
behind that block. -/
theorem read_ustar_header_ok_block (f g : FILE) (r : filedesc_t)
    (h : read_ustar_header f = (.ok r, g)) (hne : r.type ≠ TYPEFLAG_EOA) :
    parse_ustar_header ((f.data.drop (512 * ((f.pos + 511) / 512))).take 512) = .ok r
      ∧ g = { data := f.data, pos := 512 * ((f.pos + 511) / 512) + 512 } := by
  unfold read_ustar_header at h
  simp only [align_stream_eq, fread_eq, TAR_BLOCKSIZE] at h
  split at h
  · cases h
  · rename_i h1
    split at h
    · split at h
      · cases h
      · split at h
        · cases h
        · injection h with h _
          injection h with h
          subst h
          exact absurd rfl hne
    · injection h with h1' h2'
      subst h2'
      have hlen : ((f.data.drop (512 * ((f.pos + 511) / 512))).take 512).length = 512 := by
        by_contra hc
        exact h1 hc
      rw [hlen]
      exact ⟨h1', rfl⟩

/-- Reading from a cursor is reading from the block boundary at or after it. -/
theorem read_ustar_header_aligned (f : FILE) :
    read_ustar_header f
      = read_ustar_header { data := f.data, pos := 512 * ((f.pos + 511) / 512) } := by
  unfold read_ustar_header
  rw [align_stream_eq, align_stream_eq]
  simp only
  have : 512 * ((512 * ((f.pos + 511) / 512) + 511) / 512) = 512 * ((f.pos + 511) / 512) := by
    omega
  rw [this]

/-- C21: for every stream and cursor offset `p`, the offset
`q = 512 * ((p + 511) / 512)` is the smallest multiple of 512 that is not
below `p` (so `q = p` when `p` is a multiple of 512), and `read_ustar_header`
behaves as if the cursor were at `q`: a successful read of a header that is
not the end-of-archive record decodes the 512 bytes at `q` and leaves the
cursor at `q + 512`, a multiple of 512. -/
theorem C21_block_alignment (f : FILE) :
    (512 * ((f.pos + 511) / 512)) % 512 = 0 ∧ f.pos ≤ 512 * ((f.pos + 511) / 512)
      ∧ (∀ m, m % 512 = 0 → f.pos ≤ m → 512 * ((f.pos + 511) / 512) ≤ m)
      ∧ (f.pos % 512 = 0 → 512 * ((f.pos + 511) / 512) = f.pos)
      ∧ read_ustar_header f
          = read_ustar_header { data := f.data, pos := 512 * ((f.pos + 511) / 512) }
      ∧ (∀ r g, read_ustar_header f = (.ok r, g) → r.type ≠ TYPEFLAG_EOA →
          parse_ustar_header ((f.data.drop (512 * ((f.pos + 511) / 512))).take 512) = .ok r
          ∧ g = { data := f.data, pos := 512 * ((f.pos + 511) / 512) + 512 }
          ∧ g.pos % 512 = 0) := by
  refine ⟨by omega, by omega, ?_, by omega, read_ustar_header_aligned f, ?_⟩
  · intro m hm hle
    omega
  · intro r g h hne
    obtain ⟨h1, h2⟩ := read_ustar_header_ok_block f g r h hne
    refine ⟨h1, h2, ?_⟩
    rw [h2]
    simp only
    omega

theorem C21_block_alignment_witness :
    read_ustar_header { data := List.replicate 512 7 ++ sample_regular, pos := 1 }
        = (.ok sample_regular_record,
            { data := List.replicate 512 7 ++ sample_regular, pos := 1024 })
      ∧ sample_regular_record.type ≠ TYPEFLAG_EOA
      ∧ parse_ustar_header (((List.replicate 512 7 ++ sample_regular).drop 512).take 512)
          = .ok sample_regular_record :=
  have h : read_ustar_header { data := List.replicate 512 7 ++ sample_regular, pos := 1 }
      = (.ok sample_regular_record,
          { data := List.replicate 512 7 ++ sample_regular, pos := 1024 }) := by decide!
  ⟨h, by decide,
    ((C21_block_alignment { data := List.replicate 512 7 ++ sample_regular, pos := 1 }).2.2.2.2.2
      _ _ h (by decide)).1⟩

/-! ## Payload validation -/

/-- The bytes before the first NUL of a buffer with a NUL appended fill the
buffer but for one byte exactly when the buffer is a string without NUL
followed by one NUL. -/
theorem cstr_fills_iff (buf : List Nat) :
    (cstr (buf ++ [0])).length + 1 = buf.length ↔
      ∃ s, buf = s ++ [0] ∧ (∀ c ∈ s, c ≠ 0) := by
  constructor
  · intro h
    induction buf with
    | nil => simp [cstr] at h
    | cons a t ih =>
      by_cases ha : a = 0
      · subst ha
        have ht : t = [] := by
          have : (cstr (0 :: t ++ [0])).length = 0 := by simp [cstr]
          rw [this] at h
          simp only [List.length_cons] at h
          exact List.length_eq_zero.mp (by omega)
        subst ht
        exact ⟨[], rfl, by simp⟩
      · have hc : cstr (a :: t ++ [0]) = a :: cstr (t ++ [0]) := by
          simp [cstr, List.takeWhile_cons, ha]
        rw [hc] at h
        simp only [List.length_cons] at h
        obtain ⟨s, hs, hz⟩ := ih (by omega)
        refine ⟨a :: s, by rw [hs]; rfl, ?_⟩
        intro c hcm
        rcases List.mem_cons.mp hcm with rfl | hcm
        · exact ha
        · exact hz c hcm
  · rintro ⟨s, rfl, hz⟩
    rw [List.append_assoc]
    have : cstr (s ++ ([0] ++ [0])) = s := cstr_terminated s [0] hz
    rw [this]
    simp

/-- The bytes of a list of `n >= 1` bytes are its first `n - 1` bytes, none
NUL, and a last byte NUL, exactly when the list is a string without NUL
followed by one NUL. -/
theorem string_nul_iff (l : List Nat) :
    (l.getLast? = some 0 ∧ ∀ c ∈ l.take (l.length - 1), c ≠ 0)
      ↔ ∃ s, l = s ++ [0] ∧ ∀ c ∈ s, c ≠ 0 := by
  constructor
  · rintro ⟨h1, h2⟩
    refine ⟨l.take (l.length - 1), ?_, h2⟩
    rw [← List.dropLast_eq_take]
    exact (List.dropLast_append_getLast? 0 (by rw [h1]; rfl)).symm
  · rintro ⟨s, rfl, hz⟩
    refine ⟨by simp, ?_⟩
    intro c hc
    apply hz
    simpa using hc

/-- What `read_gnulong_name` returns: false, or the bytes before the first NUL
of the bytes read, when these are `read_size` and a string without NUL
followed by one NUL. -/
theorem read_gnulong_name_cases (f : FILE) (n : Nat) :
    (read_gnulong_name f n).1 = .fail
      ∨ ∃ s, read_gnulong_name f n = (.ok s, { data := f.data, pos := f.pos + n })
          ∧ n ≤ 0x100000 ∧ (f.data.drop f.pos).take n = s ++ [0] ∧ (∀ c ∈ s, c ≠ 0)
          ∧ ((f.data.drop f.pos).take n).length = n := by
  unfold read_gnulong_name
  simp only [fread_eq]
  split
  · exact Or.inl rfl
  · rename_i hmax
    split
    · exact Or.inl rfl
    · rename_i hlen
      split
      · exact Or.inl rfl
      · rename_i hfill
        have hlen2 : ((f.data.drop f.pos).take n).length = n := by
          by_contra hc
          exact hlen hc
        have hfill2 : (cstr ((f.data.drop f.pos).take n ++ [0])).length + 1
            = ((f.data.drop f.pos).take n).length := by
          rw [hlen2]
          by_contra hc
          exact hfill hc
        obtain ⟨s, hs, hz⟩ := (cstr_fills_iff _).mp hfill2
        have hc : cstr ((f.data.drop f.pos).take n ++ [0]) = s := by
          rw [hs, List.append_assoc]
          exact cstr_terminated s [0] hz
        refine Or.inr ⟨s, ?_, by omega, hs, hz, hlen2⟩
        rw [hc, hlen2]

/-- C22: `read_gnulong_name(stream, n)` succeeds exactly when `n` is at most
`0x100000`, `n` bytes are available at the cursor, `n >= 1`, the last of the
`n` bytes is NUL and none of the first `n - 1` bytes is NUL; it then outputs
the first `n - 1` bytes and leaves the cursor advanced by `n`.  Otherwise it
returns false: so for `n = 0`, for `n` above `0x100000`, and for `n` bytes
that hold a NUL before the last one (a NUL inside the name, or padding after
the NUL counted in the size). -/
theorem C22_payload_validation (f : FILE) (n : Nat) :
    ((∃ s g, read_gnulong_name f n = (.ok s, g)) ↔
      (n ≤ 0x100000 ∧ f.pos + n ≤ f.data.length ∧ 1 ≤ n
        ∧ ((f.data.drop f.pos).take n).getLast? = some 0
        ∧ ∀ c ∈ (f.data.drop f.pos).take (n - 1), c ≠ 0))
    ∧ (∀ s g, read_gnulong_name f n = (.ok s, g) →
        s = (f.data.drop f.pos).take (n - 1) ∧ g = { data := f.data, pos := f.pos + n })
    ∧ ((¬ ∃ s g, read_gnulong_name f n = (.ok s, g)) → (read_gnulong_name f n).1 = .fail)
    ∧ (n = 0 → (read_gnulong_name f n).1 = .fail)
    ∧ (0x100000 < n → read_gnulong_name f n = (.fail, f))
    ∧ (∀ a b, (f.data.drop f.pos).take n = a ++ 0 :: b → b ≠ [] →
        (read_gnulong_name f n).1 = .fail) := by
  have hpre : ((f.data.drop f.pos).take n).length = n →
      ((f.data.drop f.pos).take n).take (((f.data.drop f.pos).take n).length - 1)
        = (f.data.drop f.pos).take (n - 1) := by
    intro hl
    rw [hl, List.take_take]
    congr 1
    omega
  have hok : ∀ s g, read_gnulong_name f n = (.ok s, g) →
      n ≤ 0x100000 ∧ (f.data.drop f.pos).take n = s ++ [0] ∧ (∀ c ∈ s, c ≠ 0)
        ∧ ((f.data.drop f.pos).take n).length = n
        ∧ g = { data := f.data, pos := f.pos + n } := by
    intro s g h
    rcases read_gnulong_name_cases f n with hf | ⟨s2, h2, hmax, hs, hz, hl⟩
    · rw [h] at hf
      cases hf
    · rw [h] at h2
      injection h2 with h3 h4
      injection h3 with h3
      subst h3
      exact ⟨hmax, hs, hz, hl, h4⟩
  have hfail : (¬ ∃ s g, read_gnulong_name f n = (.ok s, g)) →
      (read_gnulong_name f n).1 = .fail := by
    intro hno
    rcases read_gnulong_name_cases f n with hf | ⟨s2, h2, -⟩
    · exact hf
    · exact absurd ⟨s2, _, h2⟩ hno
  refine ⟨?_, ?_, hfail, ?_, ?_, ?_⟩
  · constructor
    · rintro ⟨s, g, h⟩
      obtain ⟨hmax, hs, hz, hl, -⟩ := hok s g h
      have hsn := (string_nul_iff _).mpr ⟨s, hs, hz⟩
      rw [hpre hl] at hsn
      have h1 : 1 ≤ n := by
        rw [hs] at hl
        simp at hl
        omega
      rw [List.length_take, List.length_drop] at hl
      exact ⟨hmax, by omega, h1, hsn.1, hsn.2⟩
    · rintro ⟨hmax, havail, h1, hlast, hnz⟩
      have hl : ((f.data.drop f.pos).take n).length = n := by
        rw [List.length_take, List.length_drop]
        omega
      rw [← hpre hl] at hnz
      obtain ⟨s, hs, hz⟩ := (string_nul_iff _).mp ⟨hlast, hnz⟩
      have hn : n = s.length + 1 := by
        rw [hs] at hl
        simp at hl
        omega
      subst hn
      exact ⟨s, _, read_gnulong_name_of_string f s hmax hs hz⟩
  · intro s g h
    obtain ⟨-, hs, hz, hl, hg⟩ := hok s g h
    have hsn : ((f.data.drop f.pos).take n).take (((f.data.drop f.pos).take n).length - 1) = s := by
      rw [hs]
      simp
    rw [hpre hl] at hsn
    exact ⟨hsn.symm, hg⟩
  · intro h0
    apply hfail
    rintro ⟨s, g, h⟩
    obtain ⟨-, hs, -, hl, -⟩ := hok s g h
    rw [hs] at hl
    simp at hl
    omega
  · intro hbig
    unfold read_gnulong_name
    rw [if_pos hbig]
  · intro a b hab hb
    apply hfail
    rintro ⟨s, g, h⟩
    obtain ⟨-, hs, hz, -, -⟩ := hok s g h
    rw [hab] at hs
    have hlen : (a ++ 0 :: b).length = (s ++ [0]).length := by rw [hs]
    have hlt : a.length + 1 ≤ s.length := by
      simp at hlen
      have : 0 < b.length := List.length_pos.mpr hb
      omega
    have htk : (a ++ 0 :: b).take (a.length + 1) = (s ++ [0]).take (a.length + 1) := by rw [hs]
    rw [List.take_append_of_le_length hlt] at htk
    have hmem : (0 : Nat) ∈ s.take (a.length + 1) := by
      rw [← htk, List.take_append_eq_append_take]
      simp
    exact hz 0 (List.mem_of_mem_take hmem) rfl

theorem C22_payload_validation_witness :
    (∃ s g, read_gnulong_name { data := pad_block (bytes "a/name" ++ [0]), pos := 0 } 7
        = (.ok s, g))
      ∧ (read_gnulong_name { data := pad_block (bytes "a/name" ++ [0]), pos := 0 } 0).1 = .fail
      ∧ (read_gnulong_name { data := pad_block (bytes "a/name" ++ [0]), pos := 0 } 8).1 = .fail
      ∧ (read_gnulong_name { data := bytes "a/name" ++ [0], pos := 0 } 8).1 = .fail :=
  ⟨(C22_payload_validation { data := pad_block (bytes "a/name" ++ [0]), pos := 0 } 7).1.mpr
      ⟨by decide!, by decide!, by decide!, by decide!, by decide!⟩,
    (C22_payload_validation { data := pad_block (bytes "a/name" ++ [0]), pos := 0 } 0).2.2.2.1 rfl,
    (C22_payload_validation { data := pad_block (bytes "a/name" ++ [0]), pos := 0 } 8).2.2.2.2.2
      (bytes "a/name") [0] (by decide!) (by decide!),
    (C22_payload_validation { data := bytes "a/name" ++ [0], pos := 0 } 8).2.2.1
      (by
        rw [(C22_payload_validation { data := bytes "a/name" ++ [0], pos := 0 } 8).1]
        decide!)⟩

/-! ## Chunked content copy -/

/-- The chunks of a content, put together, are the content; none is longer
than 1024 bytes, and none is empty unless the content is. -/
theorem copy_chunks_aux_spec (fuel : Nat) (b : List Nat) (h : b.length / 1024 < fuel) :
    (copy_chunks_aux fuel b).flatten = b
      ∧ ∀ c ∈ copy_chunks_aux fuel b, c.length ≤ 1024 ∧ (0 < b.length → 0 < c.length) := by
  induction fuel generalizing b with
  | zero => omega
  | succ k ih =>
    unfold copy_chunks_aux
    split
    · rename_i hgt
      have hk : (b.drop 1024).length / 1024 < k := by
        rw [List.length_drop]
        omega
      obtain ⟨h1, h2⟩ := ih (b.drop 1024) hk
      refine ⟨?_, ?_⟩
      · rw [List.flatten_cons, h1, List.take_append_drop]
      · intro c hc
        rcases List.mem_cons.mp hc with rfl | hc
        · rw [List.length_take]
          omega
        · have := h2 c hc
          rw [List.length_drop] at this
          exact ⟨this.1, fun _ => this.2 (by omega)⟩
    · rename_i hle
      refine ⟨by simp, ?_⟩
      intro c hc
      rw [List.mem_singleton] at hc
      subst hc
      exact ⟨by omega, fun x => x⟩

theorem copy_chunks_spec (b : List Nat) :
    (copy_chunks b).flatten = b
      ∧ ∀ c ∈ copy_chunks b, c.length ≤ 1024 ∧ (0 < b.length → 0 < c.length) := by
  unfold copy_chunks
  apply copy_chunks_aux_spec
  have : b.length / 1024 ≤ b.length := Nat.div_le_self _ _
  omega

/-- A copy loop that ends with true has read 1024 bytes per round: the bytes
read and the bytes left add up to the declared size, at most 1024 bytes are
left, and at least one if the size is not 0. -/
theorem copy_loop_true {σ : Type} (os : OS σ) (name : List Nat) (fuel : Nat) (st st' : σ)
    (tf tf' : FILE) (n n' : Nat)
    (h : copy_loop os name fuel st tf n = some (true, st', tf', n')) :
    tf'.data = tf.data ∧ tf'.pos + n' = tf.pos + n ∧ n' ≤ 1024 ∧ (0 < n → 0 < n') := by
  induction fuel generalizing st tf n with
  | zero =>
    unfold copy_loop at h
    cases h
  | succ k ih =>
    unfold copy_loop at h
    split at h
    · rename_i hgt
      simp only [fread_eq] at h
      split at h
      · cases h
      · rename_i hlen
        split at h
        · cases h
        · obtain ⟨h1, h2, h3, h4⟩ := ih _ _ _ h
          simp only at h1 h2
          have hl : ((tf.data.drop tf.pos).take 1024).length = 1024 := by
            by_contra hc
            exact hlen hc
          rw [hl] at h2
          exact ⟨h1, by omega, h3, fun _ => h4 (by omega)⟩
    · rename_i hle
      injection h with h
      injection h with _ h
      injection h with h1 h
      injection h with h2 h3
      subst h2 h3
      exact ⟨rfl, rfl, by omega, fun x => x⟩

/-- With the declared bytes in the stream, the copy loop and the last read and
write are the writes of the chunks of the content: if each write is complete,
the loop ends with true and the last write leaves the state of the last
chunk; if one is not, the loop ends with false or the last write is short. -/
theorem copy_loop_chunks {σ : Type} (os : OS σ) (name : List Nat) (fuel : Nat) (st : σ)
    (tf : FILE) (n : Nat) (hpos : 0 < n) (hfuel : n / 1024 < fuel)
    (havail : tf.pos + n ≤ tf.data.length) :
    (∀ st3, write_chunks os name st (copy_chunks_aux fuel ((tf.data.drop tf.pos).take n))
        = some st3 →
      ∃ st' bl, copy_loop os name fuel st tf n
          = some (true, st', { data := tf.data, pos := tf.pos + n - bl }, bl)
        ∧ 0 < bl ∧ bl ≤ n
        ∧ os.fwrite st' name ((tf.data.drop (tf.pos + n - bl)).take bl) = (bl, st3))
    ∧ (write_chunks os name st (copy_chunks_aux fuel ((tf.data.drop tf.pos).take n)) = none →
      (∃ st' tf' bl, copy_loop os name fuel st tf n = some (false, st', tf', bl))
      ∨ ∃ st' bl, copy_loop os name fuel st tf n
          = some (true, st', { data := tf.data, pos := tf.pos + n - bl }, bl)
        ∧ 0 < bl ∧ bl ≤ n
        ∧ (os.fwrite st' name ((tf.data.drop (tf.pos + n - bl)).take bl)).1 ≠ bl) := by
  induction fuel generalizing st tf n with
  | zero => omega
  | succ k ih =>
    have hlen : ((tf.data.drop tf.pos).take n).length = n := by
      rw [List.length_take, List.length_drop]
      omega
    unfold copy_loop copy_chunks_aux
    rw [hlen]
    by_cases hgt : n > 1024
    · rw [if_pos hgt, if_pos hgt]
      simp only [fread_eq]
      have hl : ((tf.data.drop tf.pos).take 1024).length = 1024 := by
        rw [List.length_take, List.length_drop]
        omega
      have htk : ((tf.data.drop tf.pos).take n).take 1024 = (tf.data.drop tf.pos).take 1024 := by
        rw [List.take_take]
        congr 1
        omega
      have hdr : ((tf.data.drop tf.pos).take n).drop 1024
          = (tf.data.drop (tf.pos + 1024)).take (n - 1024) := by
        rw [List.drop_take, List.drop_drop]
      rw [hl, htk, hdr]
      simp only [ne_eq, not_true_eq_false, if_false]
      have hih := ih (os.fwrite st name ((tf.data.drop tf.pos).take 1024)).2
        { data := tf.data, pos := tf.pos + 1024 } (n - 1024) (by omega) (by omega)
        (by simp only; omega)
      simp only at hih
      have hp : tf.pos + 1024 + (n - 1024) = tf.pos + n := by omega
      rw [hp] at hih
      unfold write_chunks
      rw [hl]
      by_cases hw : (os.fwrite st name ((tf.data.drop tf.pos).take 1024)).1 = 1024
      · rw [if_pos hw, if_neg (not_not.mpr hw)]
        refine ⟨?_, ?_⟩
        · intro st3 h3
          obtain ⟨st', bl, h1, h2, h3', h4⟩ := hih.1 st3 h3
          exact ⟨st', bl, h1, h2, by omega, h4⟩
        · intro h3
          rcases hih.2 h3 with ⟨st', tf', bl, h1⟩ | ⟨st', bl, h1, h2, h3', h4⟩
          · exact Or.inl ⟨st', tf', bl, h1⟩
          · exact Or.inr ⟨st', bl, h1, h2, by omega, h4⟩
      · rw [if_neg hw, if_pos hw]
        refine ⟨fun st3 h3 => (by cases h3), fun _ => Or.inl ⟨_, _, _, rfl⟩⟩
    · rw [if_neg hgt, if_neg hgt]
      have hz : tf.pos + n - n = tf.pos := by omega
      unfold write_chunks
      rw [hlen]
      by_cases hw : (os.fwrite st name ((tf.data.drop tf.pos).take n)).1 = n
      · rw [if_pos hw]
        refine ⟨?_, fun h3 => (by simp [write_chunks] at h3)⟩
        intro st3 h3
        refine ⟨st, n, ?_, hpos, le_refl _, ?_⟩
        · rw [hz]
        · rw [hz]
          simp only [write_chunks] at h3
          injection h3 with h3
          exact Prod.ext hw h3
      · rw [if_neg hw]
        refine ⟨fun st3 h3 => (by cases h3), fun _ => Or.inr ⟨st, n, ?_, hpos, le_refl _, ?_⟩⟩
        · rw [hz]
        · rw [hz]
          exact hw

/-- With the declared bytes in the stream and the output file opened,
`extract_file_contents` returns true exactly when every write of the chunks
of the content is complete, and then the cursor is behind the content. -/
theorem extract_file_contents_chunks {σ : Type} (os : OS σ) (st st1 st2 : σ) (tf : FILE)
    (file : filedesc_t) (name : List Nat) (hn : file.name = some name) (hpos : 0 < file.size)
    (havail : tf.pos + file.size ≤ tf.data.length)
    (hfo : os.fopen_wb st name = some st1) (hch : os.chmod st1 name file.mode = some st2) :
    (∀ st3, write_chunks os name st2 (copy_chunks ((tf.data.drop tf.pos).take file.size))
        = some st3 →
      extract_file_contents os st tf file
        = (.ok (), os.fclose st3 name, { data := tf.data, pos := tf.pos + file.size }))
    ∧ (write_chunks os name st2 (copy_chunks ((tf.data.drop tf.pos).take file.size)) = none →
      (extract_file_contents os st tf file).1 = .fail) := by
  have hlen : ((tf.data.drop tf.pos).take file.size).length = file.size := by
    rw [List.length_take, List.length_drop]
    omega
  have hdiv : file.size / 1024 < file.size + 1 := by
    have : file.size / 1024 ≤ file.size := Nat.div_le_self _ _
    omega
  obtain ⟨hA, hB⟩ := copy_loop_chunks os name (file.size + 1) st2 tf file.size hpos hdiv havail
  unfold copy_chunks
  rw [hlen]
  unfold extract_file_contents
  rw [hn]
  simp only [hfo, hch, if_pos hpos]
  refine ⟨?_, ?_⟩
  · intro st3 h3
    obtain ⟨st', bl, h1, h2, h3', h4⟩ := hA st3 h3
    rw [h1]
    simp only [fread_eq]
    have hl : ((tf.data.drop (tf.pos + file.size - bl)).take bl).length = bl := by
      rw [List.length_take, List.length_drop]
      omega
    have h41 : (os.fwrite st' name ((tf.data.drop (tf.pos + file.size - bl)).take bl)).1 = bl := by
      rw [h4]
    have h42 : (os.fwrite st' name ((tf.data.drop (tf.pos + file.size - bl)).take bl)).2 = st3 := by
      rw [h4]
    have hp : tf.pos + file.size - bl + bl = tf.pos + file.size := by omega
    rw [hl, hp, if_neg (not_not.mpr rfl), if_neg (not_not.mpr h41)]
    exact congrArg (fun s => (Outcome.ok (), os.fclose s name,
      ({ data := tf.data, pos := tf.pos + file.size } : FILE))) h42
  · intro h3
    rcases hB h3 with ⟨st', tf', bl, h1⟩ | ⟨st', bl, h1, h2, h3', h4⟩
    · rw [h1]
    · rw [h1]
      simp only [fread_eq]
      have hl : ((tf.data.drop (tf.pos + file.size - bl)).take bl).length = bl := by
        rw [List.length_take, List.length_drop]
        omega
      rw [hl, if_neg (not_not.mpr rfl), if_pos h4]

/-- With fewer bytes in the stream than declared, `extract_file_contents`
returns false. -/
theorem extract_file_contents_short {σ : Type} (os : OS σ) (st : σ) (tf : FILE)
    (file : filedesc_t) (name : List Nat) (hn : file.name = some name) (hpos : 0 < file.size)
    (hshort : tf.data.length < tf.pos + file.size) :
    (extract_file_contents os st tf file).1 = .fail := by
  unfold extract_file_contents
  rw [hn]
  simp only [if_pos hpos]
  split
  · rfl
  · split
    · rfl
    · split
      · rfl
      · rfl
      · rename_i st' tf' bl hcl
        obtain ⟨h1, h2, h3, h4⟩ := copy_loop_true os name _ _ _ _ _ _ _ hcl
        simp only [fread_eq]
        have hl : ((tf'.data.drop tf'.pos).take bl).length ≠ bl := by
          rw [List.length_take, List.length_drop, h1]
          omega
        rw [if_pos hl]

theorem write_chunks_log_os (name : List Nat) (st cs : List (List Nat)) :
    write_chunks log_os name st cs = some (st ++ cs) := by
  induction cs generalizing st with
  | nil => simp [write_chunks]
  | cons c cs ih =>
    unfold write_chunks
    have h1 : log_os.fwrite st name c = (c.length, st ++ [c]) := rfl
    rw [h1]
    simp only [if_true]
    rw [ih, List.append_assoc]
    rfl

theorem write_chunks_sim_os (name : List Nat) (st : SimFS) (cs : List (List Nat)) :
    write_chunks sim_os name st cs
      = some { st with files := (st.files.map
          (fun e => if e.1 = name then (e.1, e.2 ++ cs.flatten) else e)) } := by
  induction cs generalizing st with
  | nil =>
    unfold write_chunks
    have : (fun e : List Nat × List Nat => if e.1 = name then (e.1, e.2 ++ [].flatten) else e)
        = id := by
      funext e
      split <;> simp
    rw [this, List.map_id]
  | cons c cs ih =>
    unfold write_chunks
    have h1 : sim_os.fwrite st name c = (c.length, { st with files := (st.files.map
        (fun e => if e.1 = name then (e.1, e.2 ++ c) else e)) }) := rfl
    rw [h1]
    simp only [if_true]
    rw [ih]
    simp only [List.map_map]
    have : ((fun e : List Nat × List Nat => if e.1 = name then (e.1, e.2 ++ cs.flatten) else e)
        ∘ fun e => if e.1 = name then (e.1, e.2 ++ c) else e)
        = fun e => if e.1 = name then (e.1, e.2 ++ (c :: cs).flatten) else e := by
      funext e
      simp only [Function.comp]
      by_cases he : e.1 = name
      · simp [he]
      · simp [he]
    rw [this]

/-- In the sample file system, with the declared bytes in the stream, the
output file holds the declared bytes after `extract_file_contents`. -/
theorem extract_file_contents_sim_os (st : SimFS) (tf : FILE) (file : filedesc_t)
    (name : List Nat) (hn : file.name = some name) (hpos : 0 < file.size)
    (havail : tf.pos + file.size ≤ tf.data.length)
    (hdeny : name ∉ st.deny) (hdirs : name ∉ st.dirs) :
    extract_file_contents sim_os st tf file
      = (.ok (),
          { st with files := ((name, (tf.data.drop tf.pos).take file.size)
              :: st.files.filter (fun e => e.1 ≠ name)) },
          { data := tf.data, pos := tf.pos + file.size }) := by
  have hfo : sim_os.fopen_wb st name
      = some { st with files := (name, []) :: st.files.filter (fun e => e.1 ≠ name) } := by
    simp [sim_os, hdeny, hdirs]
  have hch : sim_os.chmod { st with files := (name, []) :: st.files.filter (fun e => e.1 ≠ name) }
      name file.mode
      = some { st with files := (name, []) :: st.files.filter (fun e => e.1 ≠ name) } := rfl
  rw [(extract_file_contents_chunks sim_os st _ _ tf file name hn hpos havail hfo hch).1 _
    (write_chunks_sim_os name _ _)]
  rw [(copy_chunks_spec _).1]
  have hf : (st.files.filter (fun e => e.1 ≠ name)).map
      (fun e => if e.1 = name then (e.1, e.2 ++ (tf.data.drop tf.pos).take file.size) else e)
      = st.files.filter (fun e => e.1 ≠ name) := by
    conv_rhs => rw [← List.map_id (st.files.filter (fun e => e.1 ≠ name))]
    apply List.map_congr_left
    intro e he
    have := (List.mem_filter.mp he).2
    simp only [ne_eq, decide_not, Bool.not_eq_true', decide_eq_false_iff_not] at this
    simp [this]
  have hs : sim_os.fclose = fun s _ => s := rfl
  simp only [hs, List.map_cons, if_true, List.nil_append, hf]

/-- C23: for a file with a name and a declared size `n > 0`, the copy loop of
`extract_file_contents` terminates in every environment.  With at least `n`
bytes at the cursor the writes are those of the chunks of the `n` bytes at
the cursor, which put together are these bytes in their order, none longer
than 1024 bytes: once the output file is opened and its mode set, if every
write is complete the call returns true with the cursor advanced by exactly
`n`, and if one is not the call returns false; the recorded writes are these
chunks, and in the sample file system the output file holds the `n` bytes.
With fewer than `n` bytes at the cursor the call returns false. -/
theorem C23_chunked_copy {σ : Type} (os : OS σ) (st : σ) (tf : FILE) (file : filedesc_t)
    (name : List Nat) (hn : file.name = some name) (hpos : 0 < file.size) :
    (copy_loop os name (file.size + 1) st tf file.size).isSome = true
    ∧ (tf.pos + file.size ≤ tf.data.length →
        (copy_chunks ((tf.data.drop tf.pos).take file.size)).flatten
            = (tf.data.drop tf.pos).take file.size
        ∧ ((tf.data.drop tf.pos).take file.size).length = file.size
        ∧ (∀ c ∈ copy_chunks ((tf.data.drop tf.pos).take file.size),
            0 < c.length ∧ c.length ≤ 1024)
        ∧ (∀ st1 st2, os.fopen_wb st name = some st1 → os.chmod st1 name file.mode = some st2 →
            (∀ st3, write_chunks os name st2
                (copy_chunks ((tf.data.drop tf.pos).take file.size)) = some st3 →
              extract_file_contents os st tf file
                = (.ok (), os.fclose st3 name, { data := tf.data, pos := tf.pos + file.size }))
            ∧ (write_chunks os name st2
                (copy_chunks ((tf.data.drop tf.pos).take file.size)) = none →
              (extract_file_contents os st tf file).1 = .fail))
        ∧ extract_file_contents log_os [] tf file
            = (.ok (), copy_chunks ((tf.data.drop tf.pos).take file.size),
                { data := tf.data, pos := tf.pos + file.size })
        ∧ (∀ fs : SimFS, name ∉ fs.deny → name ∉ fs.dirs →
            extract_file_contents sim_os fs tf file
              = (.ok (),
                  { fs with files := ((name, (tf.data.drop tf.pos).take file.size)
                      :: fs.files.filter (fun e => e.1 ≠ name)) },
                  { data := tf.data, pos := tf.pos + file.size })))
    ∧ (tf.data.length < tf.pos + file.size →
        (extract_file_contents os st tf file).1 = .fail) := by
  refine ⟨extract_copy_loop_total os name st tf file.size, ?_,
    extract_file_contents_short os st tf file name hn hpos⟩
  intro havail
  have hlen : ((tf.data.drop tf.pos).take file.size).length = file.size := by
    rw [List.length_take, List.length_drop]
    omega
  refine ⟨(copy_chunks_spec _).1, hlen, ?_, ?_, ?_, ?_⟩
  · intro c hc
    have := (copy_chunks_spec _).2 c hc
    exact ⟨this.2 (by omega), this.1⟩
  · intro st1 st2 hfo hch
    exact extract_file_contents_chunks os st st1 st2 tf file name hn hpos havail hfo hch
  · have := (extract_file_contents_chunks log_os [] [] [] tf file name hn hpos havail rfl rfl).1 _
      (write_chunks_log_os name [] _)
    rw [this]
    rfl
  · intro fs hdeny hdirs
    exact extract_file_contents_sim_os fs tf file name hn hpos havail hdeny hdirs

theorem C23_chunked_copy_witness :
    sample_content_file.name = some (bytes "data.bin") ∧ 0 < sample_content_file.size
      ∧ (extract_file_contents sim_os (sim_empty [])
          { data := pad_block sample_content, pos := 0 } sample_content_file).1 = .ok ()
      ∧ (extract_file_contents sim_os (sim_empty [])
          { data := pad_block sample_content, pos := 0 } sample_content_file).2.1.files
          = [(bytes "data.bin", sample_content)]
      ∧ (extract_file_contents sim_os (sim_empty [])
          { data := pad_block sample_content, pos := 0 } sample_content_file).2.2.pos = 2500
      ∧ (copy_chunks sample_content).map List.length = [1024, 1024, 452]
      ∧ (extract_file_contents sim_os (sim_empty [])
          { data := sample_content.take 2499, pos := 0 } sample_content_file).1 = .fail := by
  have h := (C23_chunked_copy sim_os (sim_empty []) { data := pad_block sample_content, pos := 0 }
    sample_content_file (bytes "data.bin") rfl (by decide)).2.1 (by decide!)
  have hs := h.2.2.2.2.2 (sim_empty []) (by decide) (by decide)
  have hb : ((pad_block sample_content).drop 0).take 2500 = sample_content := by decide!
  refine ⟨rfl, by decide, ?_, ?_, ?_, by decide!, ?_⟩
  · rw [hs]
  · rw [hs]
    exact congrArg (fun b => [(bytes "data.bin", b)]) hb
  · rw [hs]
    rfl
  · exact (C23_chunked_copy sim_os (sim_empty []) { data := sample_content.take 2499, pos := 0 }
      sample_content_file (bytes "data.bin") rfl (by decide)).2.2 (by decide!)

/-! ## Link targets of the returned records -/

/-- A header read with success that is not the end-of-archive record is
decoded from the block that ends at the cursor. -/
theorem read_ustar_header_ok_final (f0 f g : FILE) (nh : filedesc_t) (hd : f.data = f0.data)
    (h : read_ustar_header f = (.ok nh, g)) (hne : nh.type ≠ TYPEFLAG_EOA) :
    g.data = f0.data ∧ 512 ≤ g.pos ∧ g.pos % 512 = 0
      ∧ parse_ustar_header ((f0.data.drop (g.pos - 512)).take 512) = .ok nh := by
  obtain ⟨h1, h2⟩ := read_ustar_header_ok_block f g nh h hne
  rw [h2]
  simp only
  rw [Nat.add_sub_cancel, ← hd]
  exact ⟨rfl, by omega, by omega, h1⟩

theorem gnulong_apply_ok (ln ll : Option (List Nat)) (nh r : filedesc_t)
    (h : gnulong_apply ln ll nh = .ok r) :
    nh.type.val ≤ TYPEFLAG_CONT.val ∧ r.type = nh.type ∧ r.name ≠ none
      ∧ (∀ s, ll = some s → r.linktarget = some s)
      ∧ (ll = none → r.linktarget = nh.linktarget) := by
  unfold gnulong_apply at h
  split at h
  · cases h
  · rename_i hv
    split at h
    · cases h
    · rename_i hn
      injection h with h
      subst h
      refine ⟨by omega, rfl, ?_, ?_, ?_⟩
      · cases ln with
        | none => exact hn
        | some n => exact Option.some_ne_none n
      · intro s hs
        subst hs
        rfl
      · intro hs
        subst hs
        rfl

/-- The record `parse_gnulong_headers` returns: its type is that of the final
header, the block that ends at the cursor, and its link target is the pending
long-link payload, or without one the link target of the final header. -/
theorem parse_gnulong_headers_ok_link (f g : FILE) (first r : filedesc_t)
    (h : parse_gnulong_headers f first = (.ok r, g)) :
    ∃ nh, g.data = f.data ∧ 512 ≤ g.pos ∧ g.pos % 512 = 0
      ∧ parse_ustar_header ((f.data.drop (g.pos - 512)).take 512) = .ok nh
      ∧ nh.type.val ≤ TYPEFLAG_CONT.val ∧ r.type = nh.type ∧ r.name ≠ none
      ∧ (∀ s, pending_long_link f first = some s → r.linktarget = some s)
      ∧ (pending_long_link f first = none → r.linktarget = nh.linktarget) := by
  unfold parse_gnulong_headers at h
  unfold pending_long_link
  split at h
  · cases h
  · rename_i hfirst
    split at h
    · cases h
    · cases h
    · rename_i p g1 hq1
      obtain ⟨d1, -, -⟩ := read_gnulong_name_advances _ _ _ _ hq1
      rw [hq1]
      simp only at h ⊢
      split at h
      · cases h
      · cases h
      · rename_i nh g2 hq2
        rw [hq2]
        simp only
        split at h
        · rename_i hext
          split at h
          · cases h
          · rename_i hkl
            split at h
            · cases h
            · rename_i hk
              split at h
              · cases h
              · rename_i hl
                split at h
                · cases h
                · cases h
                · rename_i p3 g3 hq3
                  obtain ⟨d3, -, -⟩ := read_gnulong_name_advances _ _ _ _ hq3
                  rw [hq3]
                  simp only
                  split at h
                  · cases h
                  · cases h
                  · rename_i nh4 g4 hq4
                    have hdat : g2.data = g1.data := (read_ustar_header_ok_progress _ _ _ hq2).1
                    injection h with h hg
                    subst hg
                    obtain ⟨a1, a2, a3, a4, a5⟩ := gnulong_apply_ok _ _ _ _ h
                    have hne : nh4.type ≠ TYPEFLAG_EOA := by
                      intro he
                      rw [he] at a1
                      exact absurd a1 (by decide)
                    obtain ⟨b1, b2, b3, b4⟩ := read_ustar_header_ok_final f g3 _ nh4
                      (by rw [d3, hdat, d1]) hq4 hne
                    refine ⟨nh4, b1, b2, b3, b4, a1, a2, a3, ?_, ?_⟩
                    · intro s hs
                      apply a4
                      by_cases hL : first.type = TYPEFLAG_GNUL
                      · have hK : nh.type = TYPEFLAG_GNUK := by
                          by_contra hc
                          exact hl ⟨hL, hc⟩
                        rw [if_pos hL, if_pos hK] at hs
                        rw [if_neg (by rw [hK]; decide)]
                        exact hs
                      · have hL2 : nh.type = TYPEFLAG_GNUL := by
                          by_contra hc
                          have hK : first.type = TYPEFLAG_GNUK := by
                            rcases not_not.mp hfirst with h1 | h1
                            · exact h1
                            · exact absurd h1 hL
                          exact hk ⟨hK, hc⟩
                        rw [if_neg hL] at hs
                        rw [if_pos hL2, if_neg hL]
                        exact hs
                    · intro hs
                      exfalso
                      by_cases hL : first.type = TYPEFLAG_GNUL
                      · have hK : nh.type = TYPEFLAG_GNUK := by
                          by_contra hc
                          exact hl ⟨hL, hc⟩
                        rw [if_pos hL, if_pos hK] at hs
                        cases hs
                      · rw [if_neg hL] at hs
                        cases hs
        · rename_i hstd
          injection h with h hg
          subst hg
          obtain ⟨a1, a2, a3, a4, a5⟩ := gnulong_apply_ok _ _ _ _ h
          have hne : nh.type ≠ TYPEFLAG_EOA := by
            intro he
            rw [he] at a1
            exact absurd a1 (by decide)
          have hK : nh.type ≠ TYPEFLAG_GNUK := by
            intro hc
            rw [hc] at a1
            exact absurd a1 (by decide)
          obtain ⟨b1, b2, b3, b4⟩ := read_ustar_header_ok_final f g1 _ nh d1 hq2 hne
          refine ⟨nh, b1, b2, b3, b4, a1, a2, a3, ?_, ?_⟩
          · intro s hs
            apply a4
            by_cases hL : first.type = TYPEFLAG_GNUL
            · rw [if_pos hL, if_neg hK] at hs
              cases hs
            · rw [if_neg hL] at hs
              rw [if_neg hL]
              exact hs
          · intro hs
            apply a5
            by_cases hL : first.type = TYPEFLAG_GNUL
            · rw [if_pos hL]
            · rw [if_neg hL] at hs
              cases hs

/-- The record `minutar_next_file` returns: its type is that of the final
header, the block that ends at the cursor, it has a name, and its link target
is the long-link payload that precedes the final header, or without one the
link target of the final header. -/
theorem minutar_next_file_ok_link (f g : FILE) (r : filedesc_t)
    (h : minutar_next_file f = (.ok r, g)) :
    ∃ nh, g.data = f.data ∧ 512 ≤ g.pos ∧ g.pos % 512 = 0
      ∧ parse_ustar_header ((f.data.drop (g.pos - 512)).take 512) = .ok nh
      ∧ nh.type.val ≤ TYPEFLAG_CONT.val ∧ r.type = nh.type ∧ r.name ≠ none
      ∧ (∀ s, long_link_payload f = some s → r.linktarget = some s)
      ∧ (long_link_payload f = none → r.linktarget = nh.linktarget) := by
  cases h0 : read_ustar_header f with
  | mk o0 f1 =>
    cases o0 with
    | fail =>
      unfold minutar_next_file at h
      rw [h0] at h
      cases h
    | abort s0 =>
      unfold minutar_next_file at h
      rw [h0] at h
      cases h
    | ok first =>
      have hd1 : f1.data = f.data := (read_ustar_header_ok_progress _ _ _ h0).1
      cases he : next_file_extended f1 first with
      | mk o1 g1 =>
        cases o1 with
        | fail =>
          unfold minutar_next_file at h
          rw [h0] at h
          simp only [he] at h
          cases h
        | abort s1 =>
          unfold minutar_next_file at h
          rw [h0] at h
          simp only [he] at h
          cases h
        | ok nf =>
          obtain ⟨hc, hg⟩ := minutar_next_file_ok f f1 g1 g first nf r h0 he h
          subst hg
          obtain ⟨hlk, hty⟩ := canonicalize_paths_ok_fields nf r hc
          obtain ⟨n, hn, -⟩ := canonicalize_paths_ok_name nf r hc
          have hname : r.name ≠ none := by
            rw [hn]
            exact Option.some_ne_none n
          unfold long_link_payload
          rw [h0]
          simp only
          unfold next_file_extended at he
          split at he
          · rename_i hext
            split at he
            · rename_i hL
              obtain ⟨nh, b1, b2, b3, b4, b5, b6, b7, b8, b9⟩ :=
                parse_gnulong_headers_ok_link f1 g first nf he
              rw [if_pos (Or.inr hL)]
              rw [hd1] at b1 b4
              refine ⟨nh, b1, b2, b3, b4, b5, by rw [hty, b6], hname, ?_, ?_⟩
              · intro s hs
                rw [hlk]
                exact b8 s hs
              · intro hs
                rw [hlk]
                exact b9 hs
            · rename_i hK
              obtain ⟨nh, b1, b2, b3, b4, b5, b6, b7, b8, b9⟩ :=
                parse_gnulong_headers_ok_link f1 g first nf he
              rw [if_pos (Or.inl hK)]
              rw [hd1] at b1 b4
              refine ⟨nh, b1, b2, b3, b4, b5, by rw [hty, b6], hname, ?_, ?_⟩
              · intro s hs
                rw [hlk]
                exact b8 s hs
              · intro hs
                rw [hlk]
                exact b9 hs
            · cases he
            · cases he
            · cases he
          · rename_i hstd
            injection he with he1 he2
            injection he1 with he1
            subst he1 he2
            have hne : first.type ≠ TYPEFLAG_EOA := by
              intro hE
              rcases read_ustar_header_ok_shape f f1 first h0 with h1 | ⟨-, -, h1, -⟩
              · rw [h1] at hc
                cases hc
              · exact h1 hE
            have hv : first.type.val ≤ TYPEFLAG_CONT.val := by
              by_contra hc2
              exact hstd ⟨by omega, hne⟩
            have hnk : ¬ (first.type = TYPEFLAG_GNUK ∨ first.type = TYPEFLAG_GNUL) := by
              rintro (h1 | h1) <;> rw [h1] at hv <;> exact absurd hv (by decide)
            rw [if_neg hnk]
            obtain ⟨b1, b2, b3, b4⟩ := read_ustar_header_ok_final f f f1 first rfl h0 hne
            refine ⟨first, b1, b2, b3, b4, hv, hty, hname, ?_, fun _ => hlk⟩
            intro s hs
            cases hs

/-- On a record with a name and a standard type that has a link target when
it is a hard link or a symbolic link, `extract_file` fails none of its
assertions. -/
theorem extract_file_ne_abort {σ : Type} (os : OS σ) (st : σ) (tf : FILE) (file : filedesc_t)
    (hn : file.name ≠ none) (h1 : 48 ≤ file.type.val) (h2 : file.type.val ≤ 55)
    (hl : file.type = TYPEFLAG_LNK ∨ file.type = TYPEFLAG_SYM → file.linktarget ≠ none)
    (s : Site) : (extract_file os st tf file).1 ≠ .abort s := by
  unfold extract_file
  cases hname : file.name with
  | none => exact absurd hname hn
  | some name =>
    have hcont := extract_file_contents_ne_abort os st tf file name hname
    simp only
    cases hty : file.type <;> rw [hty] at h1 h2 hl <;>
      simp only [typeflag_t.val] at h1 h2 <;> first
      | omega
      | (cases hlk : file.linktarget with
         | none => exact absurd hlk (hl (by simp))
         | some t =>
           simp only
           split <;> simp)
      | (simp only [extract_mknod]
         repeat' split
         all_goals first
           | (simp; done)
           | (rename_i sx _ _ heq
              have := hcont sx
              rw [heq] at this
              exact absurd rfl this))

/-- C16 (amended): for every record `minutar_next_file` returns, with `raw`
the record's header, the block that ends at the cursor: the record's type is
the type `raw` decodes to; if the link-name field of `raw` is not empty (byte
157 is not NUL) or a GNU long-link payload precedes `raw`, the link target is
present, whatever the type, and it is the payload when there is one; a record
of a type other than hard link and symbolic link has no link target
otherwise; and unless the record is a hard link or symbolic link with
neither, `extract_file` fails none of its assertions on it, so not those
that require a link target. -/
theorem C16_link_target (f g : FILE) (r : filedesc_t) (raw : List Nat)
    (h : minutar_next_file f = (.ok r, g))
    (hraw : raw = (f.data.drop (g.pos - 512)).take 512) :
    (∃ nh, parse_ustar_header raw = .ok nh ∧ r.type = nh.type)
    ∧ r.type = typeflag_from_byte (byteAt raw 156)
    ∧ (byteAt raw 157 ≠ 0 ∨ long_link_payload f ≠ none → r.linktarget ≠ none)
    ∧ (∀ s, long_link_payload f = some s → r.linktarget = some s)
    ∧ (r.type ≠ TYPEFLAG_LNK → r.type ≠ TYPEFLAG_SYM →
        byteAt raw 157 = 0 → long_link_payload f = none → r.linktarget = none)
    ∧ ((r.type = TYPEFLAG_LNK ∨ r.type = TYPEFLAG_SYM →
          byteAt raw 157 ≠ 0 ∨ long_link_payload f ≠ none) →
        ∀ (σ : Type) (os : OS σ) (st : σ) (tf : FILE) (s : Site),
          (extract_file os st tf r).1 ≠ .abort s) := by
  obtain ⟨nh, -, -, -, hp, hv, hty, hname, hsome, hnone⟩ := minutar_next_file_ok_link f g r h
  rw [← hraw] at hp
  obtain ⟨hrec, hunk⟩ := parse_ok_record raw nh hp
  obtain ⟨-, hareg, heoa, hunk2⟩ := parse_ok_shape raw nh hp
  have hstd := std_type_of_val_le nh.type hareg heoa hunk2 (by omega)
  have hlink : nh.linktarget ≠ none ↔ byteAt raw 157 ≠ 0 := by
    rw [hrec]
    simp only [header_record]
    by_cases h157 : byteAt raw 157 = 0 <;> simp [h157]
  have hpres : byteAt raw 157 ≠ 0 ∨ long_link_payload f ≠ none → r.linktarget ≠ none := by
    intro hc
    cases hll : long_link_payload f with
    | some s =>
      rw [hsome s hll]
      exact Option.some_ne_none s
    | none =>
      rw [hnone hll]
      rcases hc with hc | hc
      · exact hlink.mpr hc
      · exact absurd hll hc
  refine ⟨⟨nh, hp, hty⟩, ?_, hpres, hsome, ?_, ?_⟩
  · rw [hty, hrec]
    rfl
  · intro _ _ h157 hll
    rw [hnone hll]
    by_contra hc
    exact hlink.mp hc h157
  · intro hnot σ os st tf s
    apply extract_file_ne_abort os st tf r hname
    · rw [hty]
      exact hstd.1
    · rw [hty]
      exact hstd.2
    · intro hl
      exact hpres (hnot hl)

theorem C16_link_target_witness :
    minutar_next_file ⟨mk_header (bytes "lnk") 0o644 0 50 (bytes "target"), 0⟩
        = (.ok { sample_regular_record with
                  name := some (bytes "lnk"), linktarget := some (bytes "target"),
                  type := TYPEFLAG_SYM },
            ⟨mk_header (bytes "lnk") 0o644 0 50 (bytes "target"), 512⟩)
    ∧ byteAt (mk_header (bytes "lnk") 0o644 0 50 (bytes "target")) 157 ≠ 0
    ∧ (∀ (σ : Type) (os : OS σ) (st : σ) (tf : FILE) (s : Site),
        (extract_file os st tf { sample_regular_record with
            name := some (bytes "lnk"), linktarget := some (bytes "target"),
            type := TYPEFLAG_SYM }).1 ≠ .abort s)
    ∧ minutar_next_file ⟨long_link_sample, 0⟩
        = (.ok { sample_regular_record with
                  name := some (bytes "l"), linktarget := some (bytes "target"),
                  type := TYPEFLAG_LNK },
            ⟨long_link_sample, 1536⟩)
    ∧ long_link_payload ⟨long_link_sample, 0⟩ = some (bytes "target")
    ∧ byteAt ((long_link_sample.drop 1024).take 512) 157 = 0
    ∧ (∀ (σ : Type) (os : OS σ) (st : σ) (tf : FILE) (s : Site),
        (extract_file os st tf { sample_regular_record with
            name := some (bytes "l"), linktarget := some (bytes "target"),
            type := TYPEFLAG_LNK }).1 ≠ .abort s) :=
  have h1 : minutar_next_file ⟨mk_header (bytes "lnk") 0o644 0 50 (bytes "target"), 0⟩
      = (.ok { sample_regular_record with
                name := some (bytes "lnk"), linktarget := some (bytes "target"),
                type := TYPEFLAG_SYM },
          ⟨mk_header (bytes "lnk") 0o644 0 50 (bytes "target"), 512⟩) := by decide!
  have b1 : byteAt (mk_header (bytes "lnk") 0o644 0 50 (bytes "target")) 157 ≠ 0 := by decide!
  have r1 : mk_header (bytes "lnk") 0o644 0 50 (bytes "target")
      = ((mk_header (bytes "lnk") 0o644 0 50 (bytes "target")).drop (512 - 512)).take 512 := by
    decide!
  have h2 : minutar_next_file ⟨long_link_sample, 0⟩
      = (.ok { sample_regular_record with
                name := some (bytes "l"), linktarget := some (bytes "target"),
                type := TYPEFLAG_LNK },
          ⟨long_link_sample, 1536⟩) := by decide!
  have p2 : long_link_payload ⟨long_link_sample, 0⟩ = some (bytes "target") := by decide!
  ⟨h1, b1,
    (C16_link_target _ _ _ _ h1 r1).2.2.2.2.2 (fun _ => Or.inl b1),
    h2, p2, by decide!,
    (C16_link_target _ _ _ ((long_link_sample.drop (1536 - 512)).take 512) h2 rfl).2.2.2.2.2
      (fun _ => Or.inr (by rw [p2]; exact Option.some_ne_none _))⟩

end Minutar
